import Mathlib

/-!
Verification development for the LEO cargo-placement engine.

All numeric quantities from the Python source (floats) are modelled as
exact rationals (`ℚ`); the source's explicit epsilon comparisons are kept
verbatim.  Stateful Python code is modelled by explicit state passing.
Python `while` loops whose termination depends on data are modelled with an
explicit fuel parameter chosen large enough to reach the same fixpoint the
Python loop reaches (each such place carries a comment).  The debug/event
trail (`PlanState.emit`) is omitted: it never influences any computed
value.  Configuration (`settings.SETTINGS`, a module not part of the
analysed sources) is modelled as an explicit `Settings` record passed to
every component; fields that have literal defaults at their Python access
site carry the same defaults here.
-/

namespace LEO

/-- The collision / geometry epsilon used by default throughout the source
(`eps: float = 1e-9`). -/
def eps9 : ℚ := 1 / 1000000000

/-- The merge tolerance used by `FreeRects.reserve` when calling
`merge_adjacent` (`eps=1e-6`). -/
def eps6 : ℚ := 1 / 1000000

/-- Kernel-reducible `max` on `ℚ` (Python's `max`). -/
def qmax (a b : ℚ) : ℚ := if a ≤ b then b else a

/-- Kernel-reducible `min` on `ℚ` (Python's `min`). -/
def qmin (a b : ℚ) : ℚ := if a ≤ b then a else b

/-- Kernel-reducible absolute value on `ℚ` (Python's `abs`). -/
def qabs (a : ℚ) : ℚ := if a < 0 then -a else a

/-- A free floor rectangle `(minX, maxX, minZ, maxZ)` in hold-centred
coordinates — the tuple `Rect` of `geometry/free_rects.py`. -/
structure Rect where
  x0 : ℚ
  x1 : ℚ
  z0 : ℚ
  z1 : ℚ
deriving DecidableEq

/-- `rect_area`. -/
def rect_area (r : Rect) : ℚ :=
  qmax 0 (r.x1 - r.x0) * qmax 0 (r.z1 - r.z0)

/-- `rect_contains big small eps`: `small` lies inside `big` enlarged by `eps`. -/
def rect_contains (big small : Rect) (eps : ℚ := eps9) : Bool :=
  decide (small.x0 ≥ big.x0 - eps) && decide (small.x1 ≤ big.x1 + eps) &&
  decide (small.z0 ≥ big.z0 - eps) && decide (small.z1 ≤ big.z1 + eps)

/-- `rect_intersects a b eps`: the two rectangles overlap by more than `eps`. -/
def rect_intersects (a b : Rect) (eps : ℚ := eps9) : Bool :=
  if a.x1 ≤ b.x0 + eps ∨ a.x0 ≥ b.x1 - eps then false
  else if a.z1 ≤ b.z0 + eps ∨ a.z0 ≥ b.z1 - eps then false
  else true

/-- `split_rect free used eps`: remove the area of `used` from `free`,
producing up to four residual strips, discarding near-zero-area results. -/
def split_rect (free used : Rect) (eps : ℚ := eps9) : List Rect :=
  let fx0 := free.x0; let fx1 := free.x1; let fz0 := free.z0; let fz1 := free.z1
  let ux0 := used.x0; let ux1 := used.x1; let uz0 := used.z0; let uz1 := used.z1
  let out : List Rect :=
    (if ux0 > fx0 + eps then [⟨fx0, qmin ux0 fx1, fz0, fz1⟩] else []) ++
    (if ux1 < fx1 - eps then [⟨qmax ux1 fx0, fx1, fz0, fz1⟩] else []) ++
    (if uz0 > fz0 + eps then [⟨qmax fx0 ux0, qmin fx1 ux1, fz0, qmin uz0 fz1⟩] else []) ++
    (if uz1 < fz1 - eps then [⟨qmax fx0 ux0, qmin fx1 ux1, qmax uz1 fz0, fz1⟩] else [])
  out.filter (fun r => rect_area r > 1 / 1000000000)

/-- Helper for `prune_contained`: Python iterates `j` over the *original*
list (skipping index `i`), so we carry the already-visited prefix `pre`. -/
def pruneGo (pre : List Rect) (eps : ℚ) : List Rect → List Rect
  | [] => []
  | r :: post =>
      if (pre ++ post).any (fun other => rect_contains other r eps) then
        pruneGo (pre ++ [r]) eps post
      else
        r :: pruneGo (pre ++ [r]) eps post

/-- `prune_contained rects eps`: drop every rectangle fully contained (up to
`eps`) in a rectangle at another index. -/
def prune_contained (rects : List Rect) (eps : ℚ := eps9) : List Rect :=
  pruneGo [] eps rects

/-- `_almost_equal`. -/
def almost_equal (a b eps : ℚ) : Bool :=
  decide (qabs (a - b) ≤ eps)

/-- `_normalize_rect`: fix inverted rectangles and clamp coordinates whose
absolute value is below `eps` to `0`. -/
def normalize_rect (r : Rect) (eps : ℚ) : Rect :=
  let p := if r.x1 < r.x0 then (r.x1, r.x0) else (r.x0, r.x1)
  let q := if r.z1 < r.z0 then (r.z1, r.z0) else (r.z0, r.z1)
  let cl : ℚ → ℚ := fun c => if qabs c < eps then 0 else c
  ⟨cl p.1, cl p.2, cl q.1, cl q.2⟩

/-- `try_merge a b` inside `merge_adjacent`: merge along X when the Z-spans
agree within `eps` and the X-ranges touch/overlap, else along Z
symmetrically. -/
def try_merge (a b : Rect) (eps : ℚ) : Option Rect :=
  if almost_equal a.z0 b.z0 eps && almost_equal a.z1 b.z1 eps &&
     decide (a.x1 ≥ b.x0 - eps) && decide (b.x1 ≥ a.x0 - eps) then
    some ⟨qmin a.x0 b.x0, qmax a.x1 b.x1, a.z0, a.z1⟩
  else if almost_equal a.x0 b.x0 eps && almost_equal a.x1 b.x1 eps &&
     decide (a.z1 ≥ b.z0 - eps) && decide (b.z1 ≥ a.z0 - eps) then
    some ⟨a.x0, a.x1, qmin a.z0 b.z0, qmax a.z1 b.z1⟩
  else
    none

/-- One left-to-right scan of the inner `for j` loop of `merge_adjacent`:
absorb every pool rectangle compatible with the running `merged` value
(normalising after each merge as the source does), keeping the rest.
Returns the new merged rectangle, the surviving pool and whether any merge
fired. -/
def scanOnce (eps : ℚ) : Rect → List Rect → Rect × List Rect × Bool
  | m, [] => (m, [], false)
  | m, b :: pool =>
      match try_merge m b eps with
      | some x =>
          let r := scanOnce eps (normalize_rect x eps) pool
          (r.1, r.2.1, true)
      | none =>
          let r := scanOnce eps m pool
          (r.1, b :: r.2.1, r.2.2)

/-- The `while changed` loop around the scan: repeat scanning until a full
scan merges nothing.  Each fruitful scan strictly shrinks the pool, so fuel
`pool.length + 1` always reaches the same fixpoint the Python loop
reaches; the fuel-0 branch is unreachable at that call size. -/
def absorb (eps : ℚ) : Nat → Rect → List Rect → Rect × List Rect × Bool
  | 0, m, pool => (m, pool, false)
  | fuel + 1, m, pool =>
      let r := scanOnce eps m pool
      if r.2.2 then
        let r' := absorb eps fuel r.1 r.2.1
        (r'.1, r'.2.1, true)
      else
        (r.1, r.2.1, false)

/-- The outer `for i` loop of one merge pass: each not-yet-used rectangle
greedily absorbs all compatible later rectangles (earlier ones are already
marked used by the ascending scan in the source) and is emitted.  Returns
the pass output and the `merged_any` flag.  The surviving pool returned by
`absorb` is never longer than its input, so fuel `length` (supplied by
`mergePass`) always suffices and the fuel-0 branch is unreachable. -/
def mergeRound (eps : ℚ) : Nat → List Rect → List Rect × Bool
  | _, [] => ([], false)
  | 0, _ :: _ => ([], false)
  | fuel + 1, a :: rest =>
      let r := absorb eps (rest.length + 1) a rest
      let rec' := mergeRound eps fuel r.2.1
      (r.1 :: rec'.1, r.2.2 || rec'.2)

/-- One full fixpoint pass of `merge_adjacent`: merge round, then
`prune_contained`, then the
`[_normalize_rect(r, eps) for r in nxt if rect_area(r) > 1e-9]`
comprehension (filter on the pre-normalised rectangle, then normalise). -/
def mergePass (eps : ℚ) (cur : List Rect) : List Rect × Bool :=
  let r := mergeRound eps cur.length cur
  let nxt := prune_contained r.1 eps
  let nxt := (nxt.filter (fun q => rect_area q > 1 / 1000000000)).map
      (fun q => normalize_rect q eps)
  (nxt, r.2)

/-- The `for _ in range(max_iters)` loop of `merge_adjacent`: run a pass;
stop when it merged nothing, else continue with the remaining iteration
budget. -/
def mergeLoop (eps : ℚ) : Nat → List Rect → List Rect
  | 0, cur => cur
  | n + 1, cur =>
      let r := mergePass eps cur
      if r.2 then mergeLoop eps n r.1 else r.1

/-- `merge_adjacent rects eps max_iters`. -/
def merge_adjacent (rects : List Rect) (eps : ℚ := eps6) (max_iters : Nat := 50) :
    List Rect :=
  if rects.isEmpty then []
  else
    let cur := (rects.filter (fun r => rect_area r > 1 / 1000000000)).map
        (fun r => normalize_rect r eps)
    mergeLoop eps max_iters cur

/-- `FreeRects.reserve` on the plain rectangle list: split every free
rectangle overlapping `used`, keep the others, prune contained results
(default `eps = 1e-9`), then merge adjacent rectangles (`eps = 1e-6`). -/
def reserveRects (rects : List Rect) (used : Rect) : List Rect :=
  let new_rects := rects.flatMap (fun r =>
    if rect_intersects r used then split_rect r used else [r])
  let new_rects := prune_contained new_rects
  merge_adjacent new_rects eps6 50

/-- `FreeRects.init_for_vehicle`, given the vehicle's inner width and
length: one free rectangle spanning the full floor. -/
def initRects (innerWidth innerLength : ℚ) : List Rect :=
  [⟨-(innerWidth / 2), innerWidth / 2, -(innerLength / 2), innerLength / 2⟩]

/-- The free-rectangle set after `init_for_vehicle` followed by a sequence
of `reserve` calls, in call order. -/
def reserveAll (innerWidth innerLength : ℚ) (useds : List Rect) : List Rect :=
  useds.foldl reserveRects (initRects innerWidth innerLength)

/-- A coordinate on the 1 mm grid (an integer number of millimetres).
Real dimension data is millimetre-precise; on this grid every epsilon
comparison of the free-space tracker is exact, because the grid pitch
1/1000 exceeds both tolerances (1e-6 and 1e-9). -/
def onGrid (q : ℚ) : Prop := ∃ n : ℤ, q * 1000 = (n : ℚ)

/-- A well-formed reservation / free rectangle: millimetre-grid
coordinates and positive extent on both axes. -/
def GoodRect (r : Rect) : Prop :=
  onGrid r.x0 ∧ onGrid r.x1 ∧ onGrid r.z0 ∧ onGrid r.z1 ∧
  r.x0 < r.x1 ∧ r.z0 < r.z1

/-- Every rectangle of the list is well-formed. -/
def GoodList (l : List Rect) : Prop := ∀ r ∈ l, GoodRect r

/-- No two rectangles of the list overlap beyond the 1e-9 epsilon. -/
def PWDisj (l : List Rect) : Prop :=
  List.Pairwise (fun a b => rect_intersects a b eps9 = false) l

/-- No rectangle of the list is `eps`-contained in another. -/
def PWNoncontain (eps : ℚ) (l : List Rect) : Prop :=
  List.Pairwise (fun a b =>
    rect_contains a b eps = false ∧ rect_contains b a eps = false) l

/-! ### Domain types (`domain/types.py`) -/

/-- An axis-aligned bounding box (`AABB` TypedDict). -/
structure AABB where
  minX : ℚ
  maxX : ℚ
  minY : ℚ
  maxY : ℚ
  minZ : ℚ
  maxZ : ℚ
deriving DecidableEq

/-- `ItemStatus` literal type. -/
inductive ItemStatus where
  | ok
  | unplaced
  | box_loose
  | stacked
deriving DecidableEq

/-- A cargo unit (`Item` dataclass).  Identity and service fields that no
analysed code path reads (`taskId`, provider fields, …) are omitted; the
`ratio` field is named `ratioVal` here.  All numeric fields are metres/kg. -/
structure Item where
  id : String
  width : ℚ := 0
  length : ℚ := 0
  height : ℚ := 0
  weight : ℚ := 0
  ratioVal : ℚ := 1
  palletType : Option String := none
  palletTypeNorm : Option String := none
  canBeBase : Bool := true
  canBeStacked : Bool := false
  status : ItemStatus := .ok
deriving DecidableEq

/-- The vehicle description (`Vehicle` TypedDict); optional keys are
`Option`s, `.get` with a default becomes `Option.getD`. -/
structure Vehicle where
  innerWidth : ℚ
  innerLength : ℚ
  innerHeight : ℚ
  fillFactorFloor : Option ℚ := none
  fillFactorVolume : Option ℚ := none
  payloadMaxKg : Option ℚ := none
  axleALimitKg : Option ℚ := none
  axleBLimitKg : Option ℚ := none
  axleAPosFromHeadM : Option ℚ := none
  axleBPosFromHeadM : Option ℚ := none
deriving DecidableEq

/-- Candidate metadata.  The source stores a free-form dict; the analysed
code reads exactly two keys of it: `patternId` (set by
`_assign_pattern_id`, absent on singles) and `rect` (the anchoring free
rectangle).  The remaining keys (`anchor`, `slotZ0`, `idx`, `kRank`,
`pattern`, `role`, `row`) are written but never read, and are omitted. -/
structure Meta where
  patternId : Option String := none
  rect : Option Rect := none
deriving DecidableEq

/-- A proposed placement (`Candidate` TypedDict). -/
structure Candidate where
  itemId : String
  x : ℚ
  y : ℚ
  z : ℚ
  rotationY : Int
  dx : ℚ
  dy : ℚ
  dz : ℚ
  aabb : AABB
  kind : String
  meta : Meta
deriving DecidableEq

/-- A committed placement (`PlacedItem` dataclass). -/
structure PlacedItem where
  item : Item
  x : ℚ
  y : ℚ
  z : ℚ
  rotationY : Int
  dims : ℚ × ℚ × ℚ
  aabb : AABB
  corner : ℚ × ℚ
  status : ItemStatus := .ok
deriving DecidableEq

/-- `AxleLoads` TypedDict.  Every code path of `compute_loads` sets all
three keys, so they are plain fields. -/
structure AxleLoads where
  payload_kg : ℚ
  axleA_kg : ℚ
  axleB_kg : ℚ
deriving DecidableEq

/-- `ModeDecision` dataclass; `mode` is one of `"weight" | "volume" |
"mixed"`. -/
structure ModeDecision where
  mode : String
  weight_pressure : ℚ
  floor_pressure : ℚ
  volume_pressure : ℚ
  alpha : Option ℚ := none
deriving DecidableEq

/-- `ZoneConfig` dataclass of `constraints/policies.py` (defaults: equal
quarters). -/
structure ZoneConfig where
  a : ℚ := 1/4
  b : ℚ := 1/4
  c : ℚ := 1/4
  d : ℚ := 1/4
deriving DecidableEq

/-- `DEFAULT_ZONES`. -/
def DEFAULT_ZONES : ZoneConfig := ⟨1/4, 1/4, 1/4, 1/4⟩

/-- The configuration surface (`settings.SETTINGS`, a module that is not
part of the analysed sources; every access site is either a bare attribute
read or a `getattr`/`_get_setting` with a literal default).  Fields whose
access sites carry a literal default use that default here; the rest
(`EPS`, `MODE_PRESSURE_THRESHOLD`, `TOP_N_WINDOW`,
`FILL_FACTOR_*_DEFAULT`) have no in-source default and are plain fields. -/
structure Settings where
  EPS : ℚ
  MODE_PRESSURE_THRESHOLD : ℚ
  FILL_FACTOR_FLOOR_DEFAULT : ℚ
  FILL_FACTOR_VOLUME_DEFAULT : ℚ
  TOP_N_WINDOW : Nat
  POLICY_SCORE_WEIGHT : ℚ := 1
  PACK_DENSITY_W : ℚ := 10
  PACK_TOUCH_W : ℚ := 3/5
  PACK_SLACK_W : ℚ := 3/2
  POLICY_ZONES : ZoneConfig := DEFAULT_ZONES
  POLICY_HI_WEIGHT_ABS : ℚ := 700
  POLICY_HI_VOL_ABS : ℚ := 1
  POLICY_HI_WEIGHT_ABS_MIXED : Option ℚ := none
  POLICY_W_HI_AB_BONUS : ℚ := 2
  POLICY_W_HI_CD_PENALTY : ℚ := 3
  POLICY_W_LO_CD_BONUS : ℚ := 1/2
  POLICY_W_LO_AB_PENALTY : ℚ := 1/2
  POLICY_V_BIG_ABC_BONUS : ℚ := 1
  POLICY_V_BIG_D_PENALTY : ℚ := 2
  POLICY_V_SMALL_CD_BONUS : ℚ := 1/2
  POLICY_BIG_FOOTPRINT_M2 : ℚ := 8/5
  POLICY_M_HI_AB_BONUS : ℚ := 3/2
  POLICY_M_LO_AB_PENALTY : ℚ := 1/2
  POLICY_OVERSIZE_BONUS : ℚ := 4/5
  POLICY_BOX_AB_PENALTY : ℚ := 7/10
  POLICY_BOX_CD_BONUS : ℚ := 3/2
  POLICY_HARD_OVERSIZE_IN_D : Bool := false
  POLICY_CLASS_PRIORITY : Option (List (String × Int)) := none

/-! ### Geometry kernel (`geometry/aabb.py`) -/

/-- `aabb_from_center`. -/
def aabb_from_center (x y z dx dy dz : ℚ) : AABB :=
  ⟨x - dx / 2, x + dx / 2, y - dy / 2, y + dy / 2, z - dz / 2, z + dz / 2⟩

/-- `aabb_intersects a b eps`. -/
def aabb_intersects (a b : AABB) (eps : ℚ := eps9) : Bool :=
  if a.maxX ≤ b.minX + eps ∨ a.minX ≥ b.maxX - eps then false
  else if a.maxY ≤ b.minY + eps ∨ a.minY ≥ b.maxY - eps then false
  else if a.maxZ ≤ b.minZ + eps ∨ a.minZ ≥ b.maxZ - eps then false
  else true

/-- `oob_check aabb vehicle eps`: `true` when the box leaves the hold's
interior envelope. -/
def oob_check (aabb : AABB) (vehicle : Vehicle) (eps : ℚ := eps9) : Bool :=
  let half_w := vehicle.innerWidth / 2
  let half_l := vehicle.innerLength / 2
  let inner_h := vehicle.innerHeight
  if aabb.minX < -half_w - eps ∨ aabb.maxX > half_w + eps then true
  else if aabb.minZ < -half_l - eps ∨ aabb.maxZ > half_l + eps then true
  else if aabb.minY < 0 - eps ∨ aabb.maxY > inner_h + eps then true
  else false

/-- `collides_with_any`. -/
def collides_with_any (aabb : AABB) (placed : List PlacedItem) (eps : ℚ := eps9) :
    Bool :=
  placed.any (fun p => aabb_intersects aabb p.aabb eps)

/-! ### Mode/pressure classifier (`scoring/coeff.py`) -/

/-- The `ratio`-or-1 fallback used by `detect_mode`, `compute_k` and
`sort_key_for_queue` (`float(i.ratio) if i.ratio and float(i.ratio) > 0
else 1.0`). -/
def ratioOr1 (it : Item) : ℚ :=
  if it.ratioVal > 0 then it.ratioVal else 1

/-- `detect_mode items vehicle` (with the settings made explicit). -/
def detect_mode (s : Settings) (items : List Item) (vehicle : Vehicle) :
    ModeDecision :=
  let eps := s.EPS
  if items.isEmpty then ⟨"mixed", 0, 0, 0, some (1/2)⟩
  else
    let total_weight := items.foldl (fun acc i => acc + qmax 0 i.weight) 0
    let total_volume := items.foldl
      (fun acc i => acc + qmax 0 i.width * qmax 0 i.length * qmax 0 i.height) 0
    let total_floor_demand := items.foldl (fun acc i => acc + ratioOr1 i) 0
    let weight_capacity := match vehicle.payloadMaxKg with
      | some p => p
      | none => qmax total_weight 1
    let fill_floor := vehicle.fillFactorFloor.getD s.FILL_FACTOR_FLOOR_DEFAULT
    let fill_vol := vehicle.fillFactorVolume.getD s.FILL_FACTOR_VOLUME_DEFAULT
    -- floor capacity in "pallet places", 1 place = 1 m² (the `/ 1.0` of the source)
    let floor_capacity := vehicle.innerWidth * vehicle.innerLength * fill_floor
    let vol_capacity :=
      vehicle.innerWidth * vehicle.innerLength * vehicle.innerHeight * fill_vol
    let weight_pressure := total_weight / qmax weight_capacity eps
    let floor_pressure := total_floor_demand / qmax floor_capacity eps
    let volume_pressure := total_volume / qmax vol_capacity eps
    let thr := s.MODE_PRESSURE_THRESHOLD
    if weight_pressure ≥ thr ∧ floor_pressure < thr then
      ⟨"weight", weight_pressure, floor_pressure, volume_pressure, none⟩
    else if floor_pressure ≥ thr ∧ weight_pressure < thr then
      ⟨"volume", weight_pressure, floor_pressure, volume_pressure, none⟩
    else
      let raw := (weight_pressure - floor_pressure + 1) / 2
      let alpha := qmin (4/5) (qmax (1/5) raw)
      ⟨"mixed", weight_pressure, floor_pressure, volume_pressure, some alpha⟩

/-- The three pressures computed by the non-empty branch of `detect_mode`
(`weight_pressure`, `floor_pressure`, `volume_pressure`), exposed as a
standalone function for stating properties of the mode decision. -/
def mode_pressures (s : Settings) (items : List Item) (vehicle : Vehicle) :
    ℚ × ℚ × ℚ :=
  let eps := s.EPS
  let total_weight := items.foldl (fun acc i => acc + qmax 0 i.weight) 0
  let total_volume := items.foldl
    (fun acc i => acc + qmax 0 i.width * qmax 0 i.length * qmax 0 i.height) 0
  let total_floor_demand := items.foldl (fun acc i => acc + ratioOr1 i) 0
  let weight_capacity := match vehicle.payloadMaxKg with
    | some p => p
    | none => qmax total_weight 1
  let fill_floor := vehicle.fillFactorFloor.getD s.FILL_FACTOR_FLOOR_DEFAULT
  let fill_vol := vehicle.fillFactorVolume.getD s.FILL_FACTOR_VOLUME_DEFAULT
  let floor_capacity := vehicle.innerWidth * vehicle.innerLength * fill_floor
  let vol_capacity :=
    vehicle.innerWidth * vehicle.innerLength * vehicle.innerHeight * fill_vol
  (total_weight / qmax weight_capacity eps,
   total_floor_demand / qmax floor_capacity eps,
   total_volume / qmax vol_capacity eps)

/-- `compute_k item mode`: the mode-dependent unit value. -/
def compute_k (item : Item) (mode : ModeDecision) : ℚ :=
  let r := ratioOr1 item
  let w := qmax 0 item.weight
  let vol := qmax 0 item.width * qmax 0 item.length * qmax 0 item.height
  if mode.mode = "weight" then w * r
  else if mode.mode = "volume" then vol * r
  else
    let alpha := mode.alpha.getD (1/2)
    alpha * (w * r) + (1 - alpha) * (vol * r)

/-! ### Item classifiers (`catalogs/item.py`) -/

/-- Occurrence of `needle` in `hay` over character lists (Python's
`in` on strings). -/
def subListAt (needle : List Char) : List Char → Bool
  | [] => needle.isEmpty
  | h :: t => needle.isPrefixOf (h :: t) || subListAt needle t

/-- Python `needle in hay` for strings. -/
def strContainsSub (hay needle : String) : Bool :=
  subListAt needle.toList hay.toList

/-- `footprint_m2`. -/
def footprint_m2 (it : Item) : ℚ := it.width * it.length

/-- `volume_m3`. -/
def volume_m3 (it : Item) : ℚ := it.width * it.length * it.height

/-- `is_box_like`. -/
def is_box_like (it : Item) : Bool :=
  let pt := (it.palletType.getD "").toUpper
  let ptn := (it.palletTypeNorm.getD "").toUpper
  if strContainsSub pt "BOX" || strContainsSub ptn "BOX" then true
  else if footprint_m2 it ≤ (2/5) * (2/5) then true
  else if it.height ≥ 8/5 ∧ qmin it.width it.length ≤ 3/5 then true
  else false

/-- `is_standard_80x120` (tolerance 0.03 m, both orientations). -/
def is_standard_80x120 (it : Item) (tol_m : ℚ := 3/100) : Bool :=
  let w := it.width; let l := it.length
  (qabs (w - 4/5) ≤ tol_m && qabs (l - 6/5) ≤ tol_m) ||
  (qabs (w - 6/5) ≤ tol_m && qabs (l - 4/5) ≤ tol_m)

/-- `is_fin_100x120`. -/
def is_fin_100x120 (it : Item) (tol_m : ℚ := 3/100) : Bool :=
  let w := it.width; let l := it.length
  (qabs (w - 1) ≤ tol_m && qabs (l - 6/5) ≤ tol_m) ||
  (qabs (w - 6/5) ≤ tol_m && qabs (l - 1) ≤ tol_m)

/-- `is_square_120`. -/
def is_square_120 (it : Item) (tol_m : ℚ := 3/100) : Bool :=
  qabs (it.width - 6/5) ≤ tol_m && qabs (it.length - 6/5) ≤ tol_m

/-- `is_oversize`. -/
def is_oversize (it : Item) (vehicle_inner_width : Option ℚ := none)
    (tol_m : ℚ := 1/100) : Bool :=
  let w := it.width; let l := it.length
  if qmax w l ≥ 8/5 + tol_m then true
  else if qmax w l ≥ 12/5 + tol_m then true
  else
    match vehicle_inner_width with
    | some vw => w ≥ vw - 1/50 || l ≥ vw - 1/50
    | none => false

/-- `item_class`: the queue class `"oversize" | "standard" | "box" |
"other"`. -/
def item_class (it : Item) (vehicle_inner_width : Option ℚ := none) : String :=
  if is_oversize it vehicle_inner_width then "oversize"
  else if is_standard_80x120 it || is_fin_100x120 it || is_square_120 it then
    "standard"
  else if is_box_like it then "box"
  else "other"

/-! ### Zoning policy (`constraints/policies.py`) -/

/-- `x_from_head`. -/
def x_from_head (z_center : ℚ) (vehicle : Vehicle) : ℚ :=
  z_center + vehicle.innerLength / 2

/-- `zone_for_z`. -/
def zone_for_z (z_center : ℚ) (vehicle : Vehicle)
    (cfg : ZoneConfig := DEFAULT_ZONES) : String :=
  let L := vehicle.innerLength
  let x := x_from_head z_center vehicle
  let x := if x < 0 then 0 else x
  let x := if x > L then L else x
  let a_end := L * cfg.a
  let b_end := a_end + L * cfg.b
  let c_end := b_end + L * cfg.c
  if x ≤ a_end then "A"
  else if x ≤ b_end then "B"
  else if x ≤ c_end then "C"
  else "D"

/-- `PolicyDecision` dataclass (the debug-only `tags` dict is omitted). -/
structure PolicyDecision where
  hard_reject_reasons : List String
  zone_penalty : ℚ
  zone_bonus : ℚ
deriving DecidableEq

/-- `_is_high_value`. -/
def is_high_value (s : Settings) (item : Item) (mode : ModeDecision) : Bool :=
  let thr_w := s.POLICY_HI_WEIGHT_ABS
  let thr_vol := s.POLICY_HI_VOL_ABS
  let thr_mixed_w := s.POLICY_HI_WEIGHT_ABS_MIXED.getD thr_w
  let w := qmax 0 item.weight
  let vol := qmax 0 item.width * qmax 0 item.length * qmax 0 item.height
  if mode.mode = "weight" then decide (w ≥ thr_w)
  else if mode.mode = "volume" then decide (vol ≥ thr_vol)
  else decide (w ≥ thr_mixed_w)

/-- `evaluate_candidate_policy` (soft zone bonuses/penalties plus the
optional hard rules). -/
def evaluate_candidate_policy (s : Settings) (item : Item) (candidate : Candidate)
    (vehicle : Vehicle) (mode : ModeDecision) (allow_hard_rules : Bool := false) :
    PolicyDecision :=
  let z := candidate.z
  let zone := zone_for_z z vehicle s.POLICY_ZONES
  let cls := item_class item (some vehicle.innerWidth)
  let hi := is_high_value s item mode
  -- zone guidance
  let bp : ℚ × ℚ :=  -- (bonus, penalty)
    if mode.mode = "weight" then
      if hi then
        if zone = "A" ∨ zone = "B" then (s.POLICY_W_HI_AB_BONUS, 0)
        else (0, s.POLICY_W_HI_CD_PENALTY)
      else
        if zone = "C" ∨ zone = "D" then (s.POLICY_W_LO_CD_BONUS, 0)
        else (0, s.POLICY_W_LO_AB_PENALTY)
    else if mode.mode = "volume" then
      if item.width * item.length ≥ s.POLICY_BIG_FOOTPRINT_M2 then
        if zone = "A" ∨ zone = "B" ∨ zone = "C" then (s.POLICY_V_BIG_ABC_BONUS, 0)
        else (0, s.POLICY_V_BIG_D_PENALTY)
      else
        if zone = "C" ∨ zone = "D" then (s.POLICY_V_SMALL_CD_BONUS, 0) else (0, 0)
    else
      let b := if hi ∧ (zone = "A" ∨ zone = "B") then s.POLICY_M_HI_AB_BONUS else 0
      let p := if ¬hi ∧ (zone = "A" ∨ zone = "B") then s.POLICY_M_LO_AB_PENALTY else 0
      (b, p)
  -- class guidance
  let bonus := bp.1 + (if cls = "oversize" then s.POLICY_OVERSIZE_BONUS else 0) +
    (if cls = "box" ∧ ¬(zone = "A" ∨ zone = "B") then s.POLICY_BOX_CD_BONUS else 0)
  let penalty := bp.2 +
    (if cls = "box" ∧ (zone = "A" ∨ zone = "B") then s.POLICY_BOX_AB_PENALTY else 0)
  -- hard rules (off by default)
  let hard : List String :=
    if allow_hard_rules ∧ s.POLICY_HARD_OVERSIZE_IN_D = true ∧ cls = "oversize" ∧
        zone = "D" then ["oversize_in_D"]
    else []
  ⟨hard, penalty, bonus⟩

/-- `CLASS_PRIORITY_DEFAULT` as a lookup with the `.get(cls, 99)`
fallback. -/
def classPriorityDefault (cls : String) : Int :=
  if cls = "oversize" then 0
  else if cls = "standard" then 1
  else if cls = "other" then 2
  else if cls = "box" then 3
  else 99

/-- `sort_key_for_queue`: `(class priority, -K)`. -/
def sort_key_for_queue (s : Settings) (item : Item) (vehicle : Vehicle)
    (mode : ModeDecision) : Int × ℚ :=
  let cls := item_class item (some vehicle.innerWidth)
  let pr : Int :=
    match s.POLICY_CLASS_PRIORITY with
    | some m => match m.find? (fun kv => kv.1 = cls) with
      | some kv => kv.2
      | none => 99
    | none => classPriorityDefault cls
  let r := ratioOr1 item
  let w := qmax 0 item.weight
  let vol := qmax 0 item.width * qmax 0 item.length * qmax 0 item.height
  let k : ℚ :=
    if mode.mode = "weight" then w * r
    else if mode.mode = "volume" then vol * r
    else
      let alpha := mode.alpha.getD (1/2)
      alpha * (w * r) + (1 - alpha) * (vol * r)
  (pr, -k)

/-! ### Axle-load model (`constraints/axles.py`) -/

/-- `compute_loads placed vehicle`: total payload plus the lever-arm
apportionment when a non-degenerate two-axle model is configured. -/
def compute_loads (placed : List PlacedItem) (vehicle : Vehicle) : AxleLoads :=
  let total := placed.foldl (fun acc p => acc + p.item.weight) 0
  match vehicle.axleAPosFromHeadM, vehicle.axleBPosFromHeadM with
  | some a_pos, some b_pos =>
      if qabs (b_pos - a_pos) < 1 / 1000000000 then ⟨total, 0, 0⟩
      else
        let L := vehicle.innerLength
        let z0 := -(L / 2)
        let span := b_pos - a_pos
        let ab := placed.foldl (fun acc p =>
          let w := p.item.weight
          let x_from_head := p.z - z0
          let rb := w * (x_from_head - a_pos) / span
          let ra := w - rb
          (acc.1 + ra, acc.2 + rb)) ((0 : ℚ), (0 : ℚ))
        ⟨total, ab.1, ab.2⟩
  | _, _ => ⟨total, 0, 0⟩

/-- `check_loads loads vehicle`: `(ok, reasons)`. -/
def check_loads (loads : AxleLoads) (vehicle : Vehicle) : Bool × List String :=
  let reasons : List String :=
    (match vehicle.payloadMaxKg with
     | some pm => if loads.payload_kg > pm + 1/1000000000 then ["payload_limit"] else []
     | none => []) ++
    (match vehicle.axleALimitKg with
     | some al => if loads.axleA_kg > al + 1/1000000000 then ["axleA_limit"] else []
     | none => []) ++
    (match vehicle.axleBLimitKg with
     | some bl => if loads.axleB_kg > bl + 1/1000000000 then ["axleB_limit"] else []
     | none => [])
  (reasons.isEmpty, reasons)

/-! ### Bounds / collision gates (`constraints/bounds.py`,
`catalogs/placed_item.py`) -/

/-- `check_oob`. -/
def check_oob (candidate : Candidate) (vehicle : Vehicle) : Bool × List String :=
  if oob_check candidate.aabb vehicle then (false, ["oob"]) else (true, [])

/-- `check_collision`. -/
def check_collision (candidate : Candidate) (placed : List PlacedItem) :
    Bool × List String :=
  if collides_with_any candidate.aabb placed then (false, ["collision"])
  else (true, [])

/-- `placed_from_candidate`. -/
def placed_from_candidate (candidate : Candidate) (item : Item) : PlacedItem :=
  let aabb := candidate.aabb
  { item := item
    x := candidate.x, y := candidate.y, z := candidate.z
    rotationY := candidate.rotationY
    dims := (candidate.dx, candidate.dy, candidate.dz)
    aabb := aabb
    corner := (aabb.minX, aabb.minZ)
    status := item.status }

/-! ### Pattern templates (`candidates/patterns.py`) -/

def MAX_PREFIX_STD : Nat := 14
def MAX_PREFIX_BIG : Nat := 10
def MAX_VARIANTS_3 : Nat := 6
def MAX_VARIANTS_5 : Nat := 8
def MAX_VARIANTS_140P80 : Nat := 20

/-- Placeholder item for the (guarded, unreachable) out-of-range list
accesses `items[a]`; every access is behind an explicit `a < n` check as in
the source. -/
def defaultItem : Item := { id := "" }

/-- `_top items n`. -/
def top (items : List Item) (n : Nat) : List Item := items.take n

/-- `is_std_80x120` (local classifier of `candidates/patterns.py`). -/
def is_std_80x120 (it : Item) (tol : ℚ := 3/100) : Bool :=
  let w := it.width; let l := it.length
  (qabs (w - 4/5) ≤ tol && qabs (l - 6/5) ≤ tol) ||
  (qabs (w - 6/5) ≤ tol && qabs (l - 4/5) ≤ tol)

/-- `is_140x120` (local classifier of `candidates/patterns.py`). -/
def is_140x120 (it : Item) (tol : ℚ := 3/100) : Bool :=
  let w := it.width; let l := it.length
  (qabs (w - 7/5) ≤ tol && qabs (l - 6/5) ≤ tol) ||
  (qabs (w - 6/5) ≤ tol && qabs (l - 7/5) ≤ tol)

/-- `_rot_for`: rotation such that the footprint is approximately
`want_w × want_l`. -/
def rot_for (it : Item) (want_w want_l : ℚ) : Int :=
  if qabs (it.width - want_w) ≤ 3/100 ∧ qabs (it.length - want_l) ≤ 3/100 then 0
  else 90

/-- `_build_candidate` (the debug-only `kRank` meta default is omitted). -/
def build_candidate (it : Item) (x y z : ℚ) (rot : Int) (kind : String)
    (meta : Meta) : Candidate :=
  let dx := if rot = 0 then it.width else it.length
  let dz := if rot = 0 then it.length else it.width
  let dy := it.height
  { itemId := it.id
    x := x, y := y, z := z
    rotationY := rot
    dx := dx, dy := dy, dz := dz
    aabb := aabb_from_center x (y + dy / 2) z dx dy dz
    kind := kind
    meta := meta }

/-- The loop body of `_variants_take3`: iterate the index tuples, skip
out-of-range ones, deduplicate by the sorted tuple, stop once the output
reaches `MAX_VARIANTS_3` (cap checked after each tuple unless the tuple
was a duplicate, as in the source's `continue`). -/
def variantsGo3 (items : List Item) (n : Nat) :
    List (Nat × Nat × Nat) → List (List Nat) → List (Item × Item × Item) →
    List (Item × Item × Item)
  | [], _, out => out
  | (a, b, c) :: rest, seen, out =>
      if a < n ∧ b < n ∧ c < n then
        let key := [a, b, c].mergeSort (· ≤ ·)
        if seen.contains key then variantsGo3 items n rest seen out
        else
          let out' := out ++
            [(items.getD a defaultItem, items.getD b defaultItem,
              items.getD c defaultItem)]
          if out'.length ≥ MAX_VARIANTS_3 then out'
          else variantsGo3 items n rest (seen ++ [key]) out'
      else
        if out.length ≥ MAX_VARIANTS_3 then out
        else variantsGo3 items n rest seen out

/-- `_variants_take3`. -/
def variants_take3 (items : List Item) : List (Item × Item × Item) :=
  let n := items.length
  if n < 3 then []
  else
    let idx_sets : List (Nat × Nat × Nat) :=
      [(0, 1, 2)] ++
      (if n ≥ 4 then [(0, 1, 3), (0, 2, 3), (1, 2, 3)] else []) ++
      (if n ≥ 5 then [(0, 1, 4), (0, 2, 4)] else [])
    variantsGo3 items n idx_sets [] []

/-- The loop body of `_variants_take5` (same shape as `variantsGo3`, cap
`MAX_VARIANTS_5`). -/
def variantsGo5 (items : List Item) (n : Nat) :
    List (Nat × Nat × Nat × Nat × Nat) → List (List Nat) →
    List (Item × Item × Item × Item × Item) →
    List (Item × Item × Item × Item × Item)
  | [], _, out => out
  | (a, b, c, d, e) :: rest, seen, out =>
      if a < n ∧ b < n ∧ c < n ∧ d < n ∧ e < n then
        let key := [a, b, c, d, e].mergeSort (· ≤ ·)
        if seen.contains key then variantsGo5 items n rest seen out
        else
          let out' := out ++
            [(items.getD a defaultItem, items.getD b defaultItem,
              items.getD c defaultItem, items.getD d defaultItem,
              items.getD e defaultItem)]
          if out'.length ≥ MAX_VARIANTS_5 then out'
          else variantsGo5 items n rest (seen ++ [key]) out'
      else
        if out.length ≥ MAX_VARIANTS_5 then out
        else variantsGo5 items n rest seen out

/-- `_variants_take5`. -/
def variants_take5 (items : List Item) :
    List (Item × Item × Item × Item × Item) :=
  let n := items.length
  if n < 5 then []
  else
    let idx_sets : List (Nat × Nat × Nat × Nat × Nat) :=
      [(0, 1, 2, 3, 4)] ++
      (if n ≥ 6 then [(0, 1, 2, 3, 5), (0, 1, 2, 4, 5), (0, 1, 3, 4, 5)] else []) ++
      (if n ≥ 7 then
        [(0, 2, 3, 4, 5), (1, 2, 3, 4, 5), (0, 1, 2, 3, 6), (0, 1, 2, 4, 6)]
       else [])
    variantsGo5 items n idx_sets [] []

def PATTERN_3ACROSS_W : ℚ := 12/5
def PATTERN_3ACROSS_Z : ℚ := 6/5
def PATTERN_140P80_W : ℚ := 11/5
def PATTERN_140P80_Z : ℚ := 6/5
def PATTERN_3P2_W : ℚ := 12/5
def PATTERN_3P2_Z : ℚ := 2
def PATTERN_ZIGZAG_W : ℚ := 12/5
def PATTERN_ZIGZAG_Z : ℚ := 2

/-- One pattern row: place the items of `its` left-to-right starting at the
rectangle's left edge with pitch `xstep`, each rotated towards the wanted
footprint `want_w × want_l` and rejected (whole row `none`) when its actual
footprint exceeds `dxMax × dzMax` — the common row loop of `gen_3across`,
`gen_3plus2` and `gen_zigzag`. -/
def buildRow (rect : Rect) (pid kind : String) (zc want_w want_l dxMax dzMax
    xstep : ℚ) : Nat → List Item → Option (List Candidate)
  | _, [] => some []
  | j, it :: rest =>
      let rot := rot_for it want_w want_l
      let dx := if rot = 0 then it.width else it.length
      let dz := if rot = 0 then it.length else it.width
      if dx > dxMax ∨ dz > dzMax then none
      else
        let x := rect.x0 + (j : ℚ) * xstep + dx / 2
        match buildRow rect pid kind zc want_w want_l dxMax dzMax xstep (j + 1)
            rest with
        | none => none
        | some cs =>
            some (build_candidate it x 0 zc rot kind ⟨some pid, some rect⟩ :: cs)

/-- `gen_3across`. -/
def gen_3across (rect : Rect) (std_items : List Item) (z_anchor : ℚ)
    (pattern_id : String) : List (List Candidate) :=
  let rect_w := rect.x1 - rect.x0
  let rect_l := rect.z1 - rect.z0
  if rect_w + eps9 < PATTERN_3ACROSS_W ∨ rect_l + eps9 < PATTERN_3ACROSS_Z then []
  else
    let pool := top std_items MAX_PREFIX_STD
    if pool.length < 3 then []
    else
      let zc := z_anchor + PATTERN_3ACROSS_Z / 2
      (variants_take3 pool).filterMap (fun t =>
        buildRow rect pattern_id "pattern_3across" zc (4/5) (6/5) (43/50)
          (63/50) (4/5) 0 [t.1, t.2.1, t.2.2])

/-- The inner `for si in std_pool` loop of `gen_140plus80`; returns the
produced packs, the updated `produced` counter and whether the cap was hit
(which aborts both loops via `return out`). -/
def gen140Inner (rect : Rect) (pid : String) (zc dx_b : ℚ) (rot_b : Int)
    (bi : Item) : List Item → Nat → List (List Candidate) × Nat × Bool
  | [], produced => ([], produced, false)
  | si :: rest, produced =>
      let rot_s := rot_for si (4/5) (6/5)
      let dx_s := if rot_s = 0 then si.width else si.length
      let dz_s := if rot_s = 0 then si.length else si.width
      if dx_s > 43/50 ∨ dz_s > 63/50 then
        gen140Inner rect pid zc dx_b rot_b bi rest produced
      else if dx_b + dx_s > (rect.x1 - rect.x0) + eps9 then
        gen140Inner rect pid zc dx_b rot_b bi rest produced
      else
        let xb := rect.x0 + dx_b / 2
        let xs := rect.x0 + dx_b + dx_s / 2
        let pack :=
          [build_candidate bi xb 0 zc rot_b "pattern_140plus80" ⟨some pid, some rect⟩,
           build_candidate si xs 0 zc rot_s "pattern_140plus80" ⟨some pid, some rect⟩]
        let produced' := produced + 1
        if produced' ≥ MAX_VARIANTS_140P80 then ([pack], produced', true)
        else
          let r := gen140Inner rect pid zc dx_b rot_b bi rest produced'
          (pack :: r.1, r.2.1, r.2.2)

/-- The outer `for bi in big_pool` loop of `gen_140plus80`. -/
def gen140Outer (rect : Rect) (pid : String) (zc : ℚ) (std_pool : List Item) :
    List Item → Nat → List (List Candidate)
  | [], _ => []
  | bi :: rest, produced =>
      let rot_b := rot_for bi (7/5) (6/5)
      let dx_b := if rot_b = 0 then bi.width else bi.length
      let dz_b := if rot_b = 0 then bi.length else bi.width
      if dx_b > 73/50 ∨ dz_b > 63/50 then gen140Outer rect pid zc std_pool rest produced
      else
        let r := gen140Inner rect pid zc dx_b rot_b bi std_pool produced
        if r.2.2 then r.1
        else r.1 ++ gen140Outer rect pid zc std_pool rest r.2.1

/-- `gen_140plus80` (fixed, non-rotated 2.20 × 1.20 footprint). -/
def gen_140plus80 (rect : Rect) (big_items std_items : List Item)
    (z_anchor : ℚ) (pattern_id : String) : List (List Candidate) :=
  let rect_w := rect.x1 - rect.x0
  let rect_l := rect.z1 - rect.z0
  if rect_w + eps9 < PATTERN_140P80_W ∨ rect_l + eps9 < PATTERN_140P80_Z then []
  else
    let big_pool := top big_items MAX_PREFIX_BIG
    let std_pool := top std_items MAX_PREFIX_STD
    if big_pool.isEmpty ∨ std_pool.isEmpty then []
    else
      let zc := z_anchor + PATTERN_140P80_Z / 2
      gen140Outer rect pattern_id zc std_pool big_pool 0

/-- `gen_3plus2`: a 3-across row (0.80 × 1.20) followed by a 2-across
rotated row (1.20 × 0.80); total footprint 2.40 × 2.00. -/
def gen_3plus2 (rect : Rect) (std_items : List Item) (z_anchor : ℚ)
    (pattern_id : String) : List (List Candidate) :=
  let rect_w := rect.x1 - rect.x0
  let rect_l := rect.z1 - rect.z0
  if rect_w + eps9 < PATTERN_3P2_W ∨ rect_l + eps9 < PATTERN_3P2_Z then []
  else
    let pool := top std_items MAX_PREFIX_STD
    if pool.length < 5 then []
    else
      let zc1 := z_anchor + (6/5) / 2
      let zc2 := z_anchor + 6/5 + (4/5) / 2
      (variants_take5 pool).filterMap (fun t =>
        let row1 := [t.1, t.2.1, t.2.2.1]
        let row2 := [t.2.2.2.1, t.2.2.2.2]
        match buildRow rect pattern_id "pattern_3plus2" zc1 (4/5) (6/5) (43/50)
            (63/50) (4/5) 0 row1 with
        | none => none
        | some cs1 =>
            match buildRow rect pattern_id "pattern_3plus2" zc2 (6/5) (4/5)
                (63/50) (43/50) (6/5) 0 row2 with
            | none => none
            | some cs2 => some (cs1 ++ cs2))

/-- `gen_zigzag`: the same two rows in reverse order (2-across rotated row
first, then the 3-across row). -/
def gen_zigzag (rect : Rect) (std_items : List Item) (z_anchor : ℚ)
    (pattern_id : String) : List (List Candidate) :=
  let rect_w := rect.x1 - rect.x0
  let rect_l := rect.z1 - rect.z0
  if rect_w + eps9 < PATTERN_ZIGZAG_W ∨ rect_l + eps9 < PATTERN_ZIGZAG_Z then []
  else
    let pool := top std_items MAX_PREFIX_STD
    if pool.length < 5 then []
    else
      let zc1 := z_anchor + (4/5) / 2
      let zc2 := z_anchor + 4/5 + (6/5) / 2
      (variants_take5 pool).filterMap (fun t =>
        let row1 := [t.1, t.2.1]
        let row2 := [t.2.2.1, t.2.2.2.1, t.2.2.2.2]
        match buildRow rect pattern_id "pattern_zigzag" zc1 (6/5) (4/5) (63/50)
            (43/50) (6/5) 0 row1 with
        | none => none
        | some cs1 =>
            match buildRow rect pattern_id "pattern_zigzag" zc2 (4/5) (6/5)
                (43/50) (63/50) (4/5) 0 row2 with
            | none => none
            | some cs2 => some (cs1 ++ cs2))

/-! ### Candidate generation (`candidates/generators.py`) -/

/-- Floor of a rational (`Int.fdiv` floors), kernel-reducible. -/
def qfloor (q : ℚ) : ℤ := Int.fdiv q.num (q.den : ℤ)

/-- Python's `round(x, 6)`: round to 6 decimal places, ties to even. -/
def round6 (q : ℚ) : ℚ :=
  let y := q * 1000000
  let f := qfloor y
  let frac := y - (f : ℚ)
  let r : ℤ :=
    if frac < 1/2 then f
    else if (1 : ℚ)/2 < frac then f + 1
    else if f % 2 = 0 then f else f + 1
  (r : ℚ) / 1000000

/-- Order-preserving deduplication of anchor points by rounded
coordinates. -/
def dedupAnchors : List (ℚ × ℚ) → List (ℚ × ℚ) → List (ℚ × ℚ)
  | _, [] => []
  | seen, (x, z) :: rest =>
      let k := (round6 x, round6 z)
      if seen.contains k then dedupAnchors seen rest
      else (x, z) :: dedupAnchors (seen ++ [k]) rest

/-- `_anchors_for_rect r dx dz`: up to four corner anchors. -/
def anchors_for_rect (r : Rect) (dx dz : ℚ) : List (ℚ × ℚ) :=
  let x0 := r.x0
  let x1 := r.x1 - dx
  let z0 := r.z0
  let z1 := r.z1 - dz
  if x1 < x0 - eps9 ∨ z1 < z0 - eps9 then []
  else dedupAnchors [] [(x0, z0), (x1, z0), (x0, z1), (x1, z1)]

/-- `_z_anchors_for_len`. -/
def z_anchors_for_len (rect : Rect) (slot_len : ℚ) : List ℚ :=
  if (rect.z1 - rect.z0) + eps9 < slot_len then []
  else [rect.z0, rect.z1 - slot_len]

/-- `_assign_pattern_id`: stamp all candidates of one pack with the fresh
per-pack identifier. -/
def assign_pattern_id (pack : List Candidate) (pid : String) : List Candidate :=
  pack.map (fun c => { c with meta := { c.meta with patternId := some pid } })

/-- Emit a list of packs, numbering each with a fresh `p{seq}` identifier. -/
def emitPacks (packs : List (List Candidate)) (acc : List Candidate)
    (seq : Nat) : List Candidate × Nat :=
  packs.foldl
    (fun st pack =>
      (st.1 ++ assign_pattern_id pack ("p" ++ toString st.2), st.2 + 1))
    (acc, seq)

/-- All pattern candidates of one free rectangle, in source order
(3across, 140plus80, 3plus2, zigzag; two longitudinal anchors each). -/
def rectPatterns (std_items big_140 : List Item) (st : List Candidate × Nat)
    (r : Rect) : List Candidate × Nat :=
  let st := (z_anchors_for_len r PATTERN_3ACROSS_Z).foldl
    (fun st z0 => emitPacks (gen_3across r std_items z0 "scan") st.1 st.2) st
  let st := (z_anchors_for_len r PATTERN_140P80_Z).foldl
    (fun st z0 => emitPacks (gen_140plus80 r big_140 std_items z0 "scan") st.1 st.2) st
  let st := (z_anchors_for_len r PATTERN_3P2_Z).foldl
    (fun st z0 => emitPacks (gen_3plus2 r std_items z0 "scan") st.1 st.2) st
  let st := (z_anchors_for_len r PATTERN_ZIGZAG_Z).foldl
    (fun st z0 => emitPacks (gen_zigzag r std_items z0 "scan") st.1 st.2) st
  st

/-- The single-placement candidates of one item (`for rot in (0, 90)`,
each admitting free rectangle, each deduplicated corner anchor). -/
def singleCandidates (rects : List Rect) (it : Item) : List Candidate :=
  [(0 : Int), 90].flatMap (fun rot =>
    let dx := if rot = 0 then it.width else it.length
    let dz := if rot = 0 then it.length else it.width
    let dy := it.height
    rects.flatMap (fun r =>
      if (r.x1 - r.x0) + eps9 < dx then []
      else if (r.z1 - r.z0) + eps9 < dz then []
      else
        (anchors_for_rect r dx dz).map (fun a =>
          let x := a.1 + dx / 2
          let z := a.2 + dz / 2
          let y : ℚ := 0
          { itemId := it.id
            x := x, y := y, z := z
            rotationY := rot
            dx := dx, dy := dy, dz := dz
            aabb := aabb_from_center x (y + dy / 2) z dx dy dz
            kind := "single"
            meta := ⟨none, some r⟩ })))

/-- `generate_floor_candidates` (the `state` argument is only read for
`state.free_rects.list()`, passed here directly): pattern candidates over
the 250 largest free rectangles, then single placements. -/
def generate_floor_candidates (free_rects : List Rect)
    (items_subset : List Item) : List Candidate :=
  let rects := (free_rects.mergeSort (fun a b => rect_area b ≤ rect_area a)).take 250
  let std_items := items_subset.filter (fun it => is_std_80x120 it)
  let big_140 := items_subset.filter (fun it => is_140x120 it)
  let patterns := (rects.foldl (rectPatterns std_items big_140) ([], 0)).1
  let singles := items_subset.flatMap (singleCandidates rects)
  patterns ++ singles

/-! ### Plan state (`catalogs/plan_state.py`) -/

/-- The mutable aggregate root `PlanState`, modelled functionally.
`items_by_id` is kept as the backing list (`itemsAll`); the debug/event
trail and the `task_id`/`transport_type` strings are omitted (never read by
the placement logic).  `snapshot()` is a plain field copy and is not
modelled separately: the claims read the final state's fields directly. -/
structure PState where
  vehicle : Vehicle
  mode : ModeDecision
  itemsAll : List Item
  placed : List PlacedItem := []
  unplaced : List Item := []
  free_rects : List Rect := []
  loads : Option AxleLoads := none

/-- Lookup in `items_by_id = {it.id: it for it in items}` (later items win,
as in a Python dict comprehension).  The source raises `KeyError` on a
missing id; every analysed call site passes an id of a generated candidate,
which always originates from an item of the list, so the default is
unreachable there. -/
def findItem (items : List Item) (id : String) : Item :=
  (items.reverse.find? (fun it => it.id == id)).getD defaultItem

/-- `PlanState.can_place`: bounds, then collision, then the axle
hard-filter on the tentative placement list. -/
def can_place (st : PState) (cand : Candidate) : Bool × List String :=
  let r1 := check_oob cand st.vehicle
  if ¬r1.1 then (false, r1.2)
  else
    let r2 := check_collision cand st.placed
    if ¬r2.1 then (false, r2.2)
    else
      let item := findItem st.itemsAll cand.itemId
      let tmp_placed := st.placed ++ [placed_from_candidate cand item]
      let loads := compute_loads tmp_placed st.vehicle
      let r3 := check_loads loads st.vehicle
      if ¬r3.1 then (false, r3.2) else (true, [])

/-- `PlanState.commit`: append the placed item, reserve its footprint in
the free-space tracker, recompute the loads. -/
def commit (st : PState) (cand : Candidate) : PState :=
  let item := findItem st.itemsAll cand.itemId
  let p := placed_from_candidate cand item
  let placed' := st.placed ++ [p]
  let used : Rect := ⟨cand.aabb.minX, cand.aabb.maxX, cand.aabb.minZ, cand.aabb.maxZ⟩
  { st with
    placed := placed'
    free_rects := reserveRects st.free_rects used
    loads := some (compute_loads placed' st.vehicle) }

/-! ### Packer loop (`solver/packer.py`) -/

/-- `_group_pattern_candidates`: group candidates by `meta.patternId`,
preserving first-seen key order (Python dicts preserve insertion order). -/
def groupPatternCandidates (cands : List Candidate) :
    List (String × List Candidate) :=
  cands.foldl
    (fun groups c =>
      match c.meta.patternId with
      | none => groups
      | some pid =>
          if groups.any (fun g => g.1 = pid) then
            groups.map (fun g => if g.1 = pid then (g.1, g.2 ++ [c]) else g)
          else groups ++ [(pid, [c])])
    []

/-- The internal-collision scan of `_can_commit_group` (`for i … for j in
range(i)`). -/
def groupInternalCollision : List Candidate → List Candidate → Bool
  | _, [] => false
  | prev, c :: rest =>
      prev.any (fun p => aabb_intersects c.aabb p.aabb) ||
      groupInternalCollision (prev ++ [c]) rest

/-- The per-member OOB/collision scan of `_can_commit_group`, returning the
first failure's reasons. -/
def groupGateEach (st : PState) : List Candidate → Option (List String)
  | [] => none
  | c :: rest =>
      let r := check_oob c st.vehicle
      if ¬r.1 then some r.2
      else
        let r2 := check_collision c st.placed
        if ¬r2.1 then some r2.2
        else groupGateEach st rest

/-- `_can_commit_group`: internal pairwise collision, then per-member OOB
and collision against the placed set, then the axle filter on the tentative
full placement. -/
def can_commit_group (st : PState) (group : List Candidate) :
    Bool × List String :=
  if groupInternalCollision [] group then (false, ["pattern_internal_collision"])
  else
    match groupGateEach st group with
    | some r => (false, r)
    | none =>
        let tmp_placed := st.placed ++
          group.map (fun c => placed_from_candidate c (findItem st.itemsAll c.itemId))
        let loads := compute_loads tmp_placed st.vehicle
        let r := check_loads loads st.vehicle
        if ¬r.1 then (false, r.2) else (true, [])

/-- The single-candidate score tuple `(1, K, used_area, 0.0)` of
`score_candidate`. -/
def score_candidate (st : PState) (candidate : Candidate) (mode : ModeDecision) :
    Int × ℚ × ℚ × ℚ :=
  let item := findItem st.itemsAll candidate.itemId
  (1, compute_k item mode, candidate.dx * candidate.dz, 0)

/-- `_apply_policy_to_score`: add the weighted policy term to the last
component. -/
def apply_policy_to_score (s : Settings) (sc : Int × ℚ × ℚ × ℚ)
    (pol : PolicyDecision) : Int × ℚ × ℚ × ℚ :=
  (sc.1, sc.2.1, sc.2.2.1,
   sc.2.2.2 + s.POLICY_SCORE_WEIGHT * (pol.zone_bonus - pol.zone_penalty))

/-- Python tuple `>` on the 4-component single score (lexicographic). -/
def score4Gt (a b : Int × ℚ × ℚ × ℚ) : Bool :=
  decide (a.1 > b.1) ||
  (decide (a.1 = b.1) && (decide (a.2.1 > b.2.1) ||
    (decide (a.2.1 = b.2.1) && (decide (a.2.2.1 > b.2.2.1) ||
      (decide (a.2.2.1 = b.2.2.1) && decide (a.2.2.2 > b.2.2.2))))))

/-- Python tuple `>` on the 5-component pattern score (lexicographic). -/
def score5Gt (a b : Int × ℚ × ℚ × ℚ × ℚ) : Bool :=
  decide (a.1 > b.1) ||
  (decide (a.1 = b.1) && (decide (a.2.1 > b.2.1) ||
    (decide (a.2.1 = b.2.1) && (decide (a.2.2.1 > b.2.2.1) ||
      (decide (a.2.2.1 = b.2.2.1) && (decide (a.2.2.2.1 > b.2.2.2.1) ||
        (decide (a.2.2.2.1 = b.2.2.2.1) && decide (a.2.2.2.2 > b.2.2.2.2))))))))

/-- `_packing_quality` (its debug dict is omitted): weighted density plus
touched-edge bonus minus slack penalty. -/
def packing_quality (s : Settings) (group : List Candidate) : ℚ :=
  match group with
  | [] => 0
  | g0 :: _ =>
      let used := group.foldl (fun acc c => acc + c.dx * c.dz) 0
      let minX := group.foldl (fun acc c => qmin acc c.aabb.minX) 1000000000000000000
      let maxX := group.foldl (fun acc c => qmax acc c.aabb.maxX) (-1000000000000000000)
      let minZ := group.foldl (fun acc c => qmin acc c.aabb.minZ) 1000000000000000000
      let maxZ := group.foldl (fun acc c => qmax acc c.aabb.maxZ) (-1000000000000000000)
      let bbox_w := qmax 0 (maxX - minX)
      let bbox_l := qmax 0 (maxZ - minZ)
      let bbox_area := bbox_w * bbox_l
      let density := if bbox_area > 1/1000000000 then used / bbox_area else 0
      let st : ℚ × ℚ :=  -- (slack, touch)
        match g0.meta.rect with
        | none => (0, 0)
        | some rect =>
            let left_gap := qmax 0 (minX - rect.x0)
            let right_gap := qmax 0 (rect.x1 - maxX)
            let front_gap := qmax 0 (minZ - rect.z0)
            let back_gap := qmax 0 (rect.z1 - maxZ)
            let slack := left_gap + right_gap + front_gap + back_gap
            let eps : ℚ := 1/1000
            let t : ℚ :=
              (if left_gap ≤ eps then 1 else 0) + (if right_gap ≤ eps then 1 else 0) +
              (if front_gap ≤ eps then 1 else 0) + (if back_gap ≤ eps then 1 else 0)
            (slack, t)
      s.PACK_DENSITY_W * density + s.PACK_TOUCH_W * st.2 - s.PACK_SLACK_W * st.1

/-- The per-group pipeline of the pattern loop in `pack` (after the
availability check): feasibility gates, policy hard rules (with
`allow_hard_rules=False` as at the call site), then the pattern score
`(1, quality, used_area_sum, policy_sum, k_sum)`. -/
def groupScore (s : Settings) (st : PState) (group : List Candidate) :
    Option (Int × ℚ × ℚ × ℚ × ℚ) :=
  if ¬(can_commit_group st group).1 then none
  else
    let pols := group.map (fun c =>
      evaluate_candidate_policy s (findItem st.itemsAll c.itemId) c st.vehicle
        st.mode false)
    if pols.any (fun p => ¬p.hard_reject_reasons.isEmpty) then none
    else
      let sums := (group.zip pols).foldl
        (fun acc cp =>
          let sc2 := apply_policy_to_score s (score_candidate st cp.1 st.mode) cp.2
          (acc.1 + sc2.2.1, acc.2.1 + sc2.2.2.1, acc.2.2 + sc2.2.2.2))
        ((0 : ℚ), (0 : ℚ), (0 : ℚ))  -- (k_sum, used_area_sum, policy_sum)
      let quality := packing_quality s group
      some (1, quality, sums.2.1, sums.2.2, sums.1)

/-- The body of the pattern-selection loop of `pack` for one
`(pid, group)` entry: skip groups referencing ids no longer in the
remaining queue, skip infeasible groups, keep the better of the incumbent
and the new score (strict `>`, so the first maximum wins). -/
def bestPatternStep (s : Settings) (st : PState) (rem_ids : List String)
    (best : Option (String × List Candidate × (Int × ℚ × ℚ × ℚ × ℚ)))
    (g : String × List Candidate) :
    Option (String × List Candidate × (Int × ℚ × ℚ × ℚ × ℚ)) :=
  if g.2.any (fun c => !(rem_ids.contains c.itemId)) then best
  else
    match groupScore s st g.2 with
    | none => best
    | some sc =>
        match best with
        | none => some (g.1, g.2, sc)
        | some b => if score5Gt sc b.2.2 then some (g.1, g.2, sc) else best

/-- The pattern-selection fold of `pack`: best feasible group by the strict
lexicographic pattern order. -/
def bestPatternFold (s : Settings) (st : PState) (rem_ids : List String)
    (groups : List (String × List Candidate)) :
    Option (String × List Candidate × (Int × ℚ × ℚ × ℚ × ℚ)) :=
  groups.foldl (bestPatternStep s st rem_ids) none

/-- The body of the single-selection loop of `pack` for one candidate:
skip pattern members, skip candidates failing `can_place` or a policy hard
rule, keep the better by the strict single order. -/
def bestSingleStep (s : Settings) (st : PState)
    (best : Option (Candidate × (Int × ℚ × ℚ × ℚ))) (c : Candidate) :
    Option (Candidate × (Int × ℚ × ℚ × ℚ)) :=
  if c.meta.patternId.isSome then best
  else if ¬(can_place st c).1 then best
  else
    let pol := evaluate_candidate_policy s (findItem st.itemsAll c.itemId) c
      st.vehicle st.mode false
    if ¬pol.hard_reject_reasons.isEmpty then best
    else
      let sc := apply_policy_to_score s (score_candidate st c st.mode) pol
      match best with
      | none => some (c, sc)
      | some b => if score4Gt sc b.2 then some (c, sc) else best

/-- The single-selection fold of `pack`: best feasible non-pattern
candidate by the strict lexicographic single order. -/
def bestSingleFold (s : Settings) (st : PState) (cands : List Candidate) :
    Option (Candidate × (Int × ℚ × ℚ × ℚ)) :=
  cands.foldl (bestSingleStep s st) none

/-- The outcome of one `while remaining` iteration of `pack`. -/
inductive StepRes where
  | done (st : PState)
  | next (st : PState) (remaining : List Item)

/-- One iteration of the packer loop: window, candidate generation, best
feasible pattern group and best feasible single, then the selection rule
(pattern wins unconditionally; single otherwise; mark everything unplaced
and stop when neither exists). -/
def packStep (s : Settings) (st : PState) (remaining : List Item) : StepRes :=
  let window := remaining.take s.TOP_N_WINDOW
  let candidates := generate_floor_candidates st.free_rects window
  let rem_ids := remaining.map (fun it => it.id)
  let pattern_groups := groupPatternCandidates candidates
  let best_pat := bestPatternFold s st rem_ids pattern_groups
  let best_single := bestSingleFold s st candidates
  match best_pat, best_single with
  | none, none =>
      .done { st with
        unplaced := st.unplaced ++
          remaining.map (fun it => { it with status := .unplaced }) }
  | some b, _ =>
      let st' := b.2.1.foldl commit st
      let rem' := remaining.filter
        (fun it => ¬b.2.1.any (fun c => c.itemId = it.id))
      .next st' rem'
  | none, some b =>
      .next (commit st b.1) (remaining.filter (fun it => it.id ≠ b.1.itemId))

/-- The `while remaining` loop.  Fuel: every `.next` outcome strictly
shrinks `remaining` (proved below), so fuel `items.length + 1` always runs
the loop to its natural end; the fuel-0 branch is unreachable from
`pack`. -/
def packLoop (s : Settings) : Nat → PState → List Item → PState
  | 0, st, _ => st
  | fuel + 1, st, remaining =>
      if remaining.isEmpty then st
      else
        match packStep s st remaining with
        | .done st' => st'
        | .next st' rem' => packLoop s fuel st' rem'

/-- The queue order `sorted(key=sort_key_for_queue)`: ascending
lexicographic on `(class priority, -K)`; `List.mergeSort` is stable, like
Python's sort. -/
def sortKeyLe (a b : Int × ℚ) : Bool :=
  decide (a.1 < b.1) || (decide (a.1 = b.1) && decide (a.2 ≤ b.2))

/-- `pack items vehicle …` (settings explicit; `task_id`,
`transport_type` and the debug sink are dropped): detect the mode,
initialise the state and the priority queue, run the loop. -/
def pack (s : Settings) (items : List Item) (vehicle : Vehicle) : PState :=
  let mode := detect_mode s items vehicle
  let st0 : PState :=
    { vehicle := vehicle
      mode := mode
      itemsAll := items
      placed := []
      unplaced := []
      free_rects := initRects vehicle.innerWidth vehicle.innerLength
      loads := none }
  let remaining := items.mergeSort (fun a b =>
    sortKeyLe (sort_key_for_queue s a vehicle mode)
      (sort_key_for_queue s b vehicle mode))
  packLoop s (items.length + 1) st0 remaining

/-! ### Characterizations of the boolean gates -/

/-- Loads exceed some configured limit beyond the `1e-9` tolerance. -/
def LoadsExceed (l : AxleLoads) (v : Vehicle) : Prop :=
  (∃ pm, v.payloadMaxKg = some pm ∧ l.payload_kg > pm + eps9) ∨
  (∃ al, v.axleALimitKg = some al ∧ l.axleA_kg > al + eps9) ∨
  (∃ bl, v.axleBLimitKg = some bl ∧ l.axleB_kg > bl + eps9)

/-- The property every generated candidate satisfies: it sits on the floor
(`y = 0`, box bottom at `0`) and its vertical extent is the height of the
item (of the window) that generated it. -/
def GenProp (its : List Item) (c : Candidate) : Prop :=
  c.y = 0 ∧ c.aabb.minY = 0 ∧
  ∃ it ∈ its, c.itemId = it.id ∧ c.dy = it.height ∧ c.aabb.maxY = it.height

/-- A single candidate passes all gates of one iteration: it is not a
pattern member, `can_place` accepts it and no policy hard rule fires. -/
def FeasibleSingle (s : Settings) (st : PState) (c : Candidate) : Prop :=
  c.meta.patternId = none ∧ (can_place st c).1 = true ∧
  (evaluate_candidate_policy s (findItem st.itemsAll c.itemId) c st.vehicle
    st.mode false).hard_reject_reasons.isEmpty = true

/-- A pattern group passes all gates of one iteration: all members are
still in the remaining queue, `_can_commit_group` accepts it and no policy
hard rule fires on any member. -/
def FeasibleGroup (s : Settings) (st : PState) (rem_ids : List String)
    (g : String × List Candidate) : Prop :=
  (∀ c ∈ g.2, rem_ids.contains c.itemId = true) ∧
  (can_commit_group st g.2).1 = true ∧
  ∀ c ∈ g.2, (evaluate_candidate_policy s (findItem st.itemsAll c.itemId) c
    st.vehicle st.mode false).hard_reject_reasons.isEmpty = true

/-- Concrete configuration exercising the mode-threshold boundary: one
unit of weight 1 kg against a 2 kg payload puts weight pressure exactly at
the 1/2 threshold. -/
def modeCexS : Settings :=
  { EPS := 1/1000000000
    MODE_PRESSURE_THRESHOLD := 1/2
    FILL_FACTOR_FLOOR_DEFAULT := 4/5
    FILL_FACTOR_VOLUME_DEFAULT := 4/5
    TOP_N_WINDOW := 12 }

/-- A 10 m × 10 m × 2 m hold with a 2 kg payload limit. -/
def modeCexV : Vehicle :=
  { innerWidth := 10, innerLength := 10, innerHeight := 2
    payloadMaxKg := some 2 }

/-- A single 1 m × 1 m × 1 m unit of weight 1 kg. -/
def modeCexItem : Item :=
  { id := "u1", width := 1, length := 1, height := 1, weight := 1 }

/-- The singleton unit list of the boundary configuration. -/
def modeCexItems : List Item := [modeCexItem]

/-- A vehicle whose two axle positions are both configured but only
1e-10 m apart. -/
def axleCexV : Vehicle :=
  { innerWidth := 2, innerLength := 10, innerHeight := 2
    axleAPosFromHeadM := some 1
    axleBPosFromHeadM := some (1 + 1/10000000000) }

/-- A single placed unit of weight 1 kg at the hold's longitudinal
center. -/
def axleCexP : PlacedItem :=
  { item := { id := "u1", width := 1, length := 1, height := 1, weight := 1 }
    x := 0, y := 0, z := 0, rotationY := 0
    dims := (1, 1, 1)
    aabb := ⟨0, 1, 0, 1, 0, 1⟩
    corner := (0, 0) }

/-- A vehicle with a well-separated two-axle model (positions 1 m and
9 m from the head). -/
def axleWitV : Vehicle :=
  { innerWidth := 2, innerLength := 10, innerHeight := 2
    axleAPosFromHeadM := some 1
    axleBPosFromHeadM := some 9 }

/-- Settings for the payload-limit scenario. -/
def loadScenS : Settings :=
  { EPS := 1/1000000000
    MODE_PRESSURE_THRESHOLD := 4/5
    FILL_FACTOR_FLOOR_DEFAULT := 4/5
    FILL_FACTOR_VOLUME_DEFAULT := 17/20
    TOP_N_WINDOW := 12 }

/-- A 2.4 m × 10 m × 2.5 m hold with a 1000 kg payload limit. -/
def loadScenV : Vehicle :=
  { innerWidth := 12/5
    innerLength := 10
    innerHeight := 5/2
    payloadMaxKg := some 1000 }

/-- First 600 kg unit of the payload-limit scenario. -/
def loadScenItA : Item :=
  { id := "a", width := 1, length := 1, height := 1, weight := 600 }

/-- Second 600 kg unit of the payload-limit scenario. -/
def loadScenItB : Item :=
  { id := "b", width := 1, length := 1, height := 1, weight := 600 }

/-- Unit `a` already placed near the tail, for exercising the load gate
directly. -/
def loadGatePlacedA : PlacedItem :=
  { item := loadScenItA
    x := 0, y := 0, z := -2, rotationY := 0
    dims := (1, 1, 1)
    aabb := ⟨-(1/2), 1/2, 0, 1, -(5/2), -(3/2)⟩
    corner := (-(1/2), -(5/2)) }

/-- A plan state holding unit `a`, with 600 kg of the 1000 kg payload
already used. -/
def loadGateSt : PState :=
  { vehicle := loadScenV
    mode := ⟨"mixed", 0, 0, 0, some (1/2)⟩
    itemsAll := [loadScenItA, loadScenItB]
    placed := [loadGatePlacedA]
    unplaced := []
    free_rects := []
    loads := none }

/-- An in-bounds, collision-free candidate for unit `b`. -/
def loadGateCandB : Candidate :=
  { itemId := "b"
    x := 0, y := 0, z := 2, rotationY := 0
    dx := 1, dy := 1, dz := 1
    aabb := ⟨-(1/2), 1/2, 0, 1, 3/2, 5/2⟩
    kind := "floor"
    meta := {} }

theorem aabb_intersects_false_iff (a b : AABB) (eps : ℚ) :
    aabb_intersects a b eps = false ↔
      a.maxX ≤ b.minX + eps ∨ b.maxX ≤ a.minX + eps ∨
      a.maxY ≤ b.minY + eps ∨ b.maxY ≤ a.minY + eps ∨
      a.maxZ ≤ b.minZ + eps ∨ b.maxZ ≤ a.minZ + eps := by
  unfold aabb_intersects
  split_ifs with h1 h2 h3
  · simp only [true_iff]
    rcases h1 with h | h
    · exact Or.inl h
    · exact Or.inr (Or.inl (by linarith))
  · simp only [true_iff]
    rcases h2 with h | h
    · exact Or.inr (Or.inr (Or.inl h))
    · exact Or.inr (Or.inr (Or.inr (Or.inl (by linarith))))
  · simp only [true_iff]
    rcases h3 with h | h
    · exact Or.inr (Or.inr (Or.inr (Or.inr (Or.inl h))))
    · exact Or.inr (Or.inr (Or.inr (Or.inr (Or.inr (by linarith)))))
  · simp only [false_iff]
    push_neg at h1 h2 h3
    intro h
    rcases h with h | h | h | h | h | h <;> linarith [h1.1, h1.2, h2.1, h2.2, h3.1, h3.2]

theorem aabb_intersects_symm (a b : AABB) (eps : ℚ) :
    aabb_intersects a b eps = aabb_intersects b a eps := by
  cases hab : aabb_intersects a b eps <;> cases hba : aabb_intersects b a eps
  · rfl
  · exfalso
    have r1 := (aabb_intersects_false_iff a b eps).mp hab
    have : aabb_intersects b a eps = false :=
      (aabb_intersects_false_iff b a eps).mpr (by tauto)
    rw [this] at hba
    exact Bool.false_ne_true hba
  · exfalso
    have r2 := (aabb_intersects_false_iff b a eps).mp hba
    have : aabb_intersects a b eps = false :=
      (aabb_intersects_false_iff a b eps).mpr (by tauto)
    rw [this] at hab
    exact Bool.false_ne_true hab
  · rfl

theorem oob_check_false_iff (a : AABB) (v : Vehicle) (eps : ℚ) :
    oob_check a v eps = false ↔
      a.minX ≥ -(v.innerWidth / 2) - eps ∧ a.maxX ≤ v.innerWidth / 2 + eps ∧
      a.minZ ≥ -(v.innerLength / 2) - eps ∧ a.maxZ ≤ v.innerLength / 2 + eps ∧
      a.minY ≥ 0 - eps ∧ a.maxY ≤ v.innerHeight + eps := by
  simp only [oob_check]
  split_ifs with h1 h2 h3
  · simp only [false_iff]
    intro h
    rcases h1 with h1 | h1 <;> linarith [h.1, h.2.1]
  · simp only [false_iff]
    intro h
    rcases h2 with h2 | h2 <;> linarith [h.2.2.1, h.2.2.2.1]
  · simp only [false_iff]
    intro h
    rcases h3 with h3 | h3 <;> linarith [h.2.2.2.2.1, h.2.2.2.2.2]
  · simp only [true_iff]
    push_neg at h1 h2 h3
    refine ⟨by linarith [h1.1], by linarith [h1.2], by linarith [h2.1],
      by linarith [h2.2], by linarith [h3.1], by linarith [h3.2]⟩

theorem check_loads_fst_false_iff (l : AxleLoads) (v : Vehicle) :
    (check_loads l v).1 = false ↔ LoadsExceed l v := by
  unfold check_loads LoadsExceed
  rcases hp : v.payloadMaxKg with _ | pm <;>
    rcases ha : v.axleALimitKg with _ | al <;>
    rcases hb : v.axleBLimitKg with _ | bl <;>
    simp only [hp, ha, hb, eps9] <;>
    (try split_ifs) <;> simp_all [eps9]

theorem check_loads_fst_true_iff (l : AxleLoads) (v : Vehicle) :
    (check_loads l v).1 = true ↔ ¬LoadsExceed l v := by
  rw [← check_loads_fst_false_iff]
  cases h : (check_loads l v).1 <;> simp [h]

/-! ### Commit and gate lemmas -/

theorem commit_placed (st : PState) (c : Candidate) :
    (commit st c).placed =
      st.placed ++ [placed_from_candidate c (findItem st.itemsAll c.itemId)] := rfl

theorem commit_vehicle (st : PState) (c : Candidate) :
    (commit st c).vehicle = st.vehicle := rfl

theorem commit_itemsAll (st : PState) (c : Candidate) :
    (commit st c).itemsAll = st.itemsAll := rfl

theorem commit_unplaced (st : PState) (c : Candidate) :
    (commit st c).unplaced = st.unplaced := rfl

theorem foldl_commit_fields (group : List Candidate) (st : PState) :
    (group.foldl commit st).placed =
      st.placed ++ group.map
        (fun c => placed_from_candidate c (findItem st.itemsAll c.itemId)) ∧
    (group.foldl commit st).vehicle = st.vehicle ∧
    (group.foldl commit st).itemsAll = st.itemsAll ∧
    (group.foldl commit st).unplaced = st.unplaced := by
  induction group generalizing st with
  | nil => simp
  | cons c rest ih =>
      rcases ih (commit st c) with ⟨h1, h2, h3, h4⟩
      refine ⟨?_, by simpa using h2, by simpa using h3, by simpa using h4⟩
      simp only [List.foldl_cons, h1, commit_placed, commit_itemsAll]
      simp [List.map_cons]

theorem can_place_true_gates (st : PState) (c : Candidate) :
    (can_place st c).1 = true →
      oob_check c.aabb st.vehicle = false ∧
      collides_with_any c.aabb st.placed = false ∧
      (check_loads
        (compute_loads
          (st.placed ++ [placed_from_candidate c (findItem st.itemsAll c.itemId)])
          st.vehicle) st.vehicle).1 = true := by
  intro h
  unfold can_place check_oob check_collision at h
  by_cases h1 : oob_check c.aabb st.vehicle = true
  · simp [h1] at h
  · have h1' : oob_check c.aabb st.vehicle = false := by
      cases hx : oob_check c.aabb st.vehicle
      · rfl
      · exact absurd hx h1
    by_cases h2 : collides_with_any c.aabb st.placed = true
    · simp [h1', h2] at h
    · have h2' : collides_with_any c.aabb st.placed = false := by
        cases hx : collides_with_any c.aabb st.placed
        · rfl
        · exact absurd hx h2
      refine ⟨h1', h2', ?_⟩
      by_cases h3 : (check_loads (compute_loads
          (st.placed ++ [placed_from_candidate c (findItem st.itemsAll c.itemId)])
          st.vehicle) st.vehicle).1 = true
      · exact h3
      · simp [h1', h2', h3] at h

theorem groupInternalCollision_false (prev : List Candidate)
    (group : List Candidate) :
    groupInternalCollision prev group = false →
      (∀ c ∈ group, ∀ p ∈ prev, aabb_intersects c.aabb p.aabb = false) ∧
      List.Pairwise (fun a b => aabb_intersects b.aabb a.aabb = false) group := by
  induction group generalizing prev with
  | nil => simp
  | cons c rest ih =>
      intro h
      unfold groupInternalCollision at h
      rcases Bool.or_eq_false_iff.mp h with ⟨hany, hrest⟩
      have hprev : ∀ p ∈ prev, aabb_intersects c.aabb p.aabb = false := by
        intro p hp
        have := List.any_eq_false.mp hany p hp
        simpa using this
      rcases ih (prev ++ [c]) hrest with ⟨hall, hpw⟩
      refine ⟨?_, ?_⟩
      · intro d hd p hp
        rcases List.mem_cons.mp hd with hd | hd
        · subst hd; exact hprev p hp
        · exact hall d hd p (by simp [hp])
      · refine List.Pairwise.cons ?_ hpw
        intro b hb
        exact hall b hb c (by simp)

theorem groupGateEach_none (st : PState) (group : List Candidate) :
    groupGateEach st group = none →
      ∀ c ∈ group, oob_check c.aabb st.vehicle = false ∧
        collides_with_any c.aabb st.placed = false := by
  induction group with
  | nil => simp
  | cons c rest ih =>
      intro h d hd
      unfold groupGateEach at h
      simp only [check_oob, check_collision] at h
      by_cases h1 : oob_check c.aabb st.vehicle = true
      · simp [h1] at h
      · have h1' : oob_check c.aabb st.vehicle = false := by
          cases hx : oob_check c.aabb st.vehicle
          · rfl
          · exact absurd hx h1
        by_cases h2 : collides_with_any c.aabb st.placed = true
        · simp [h1', h2] at h
        · have h2' : collides_with_any c.aabb st.placed = false := by
            cases hx : collides_with_any c.aabb st.placed
            · rfl
            · exact absurd hx h2
          simp only [h1', h2'] at h
          rcases List.mem_cons.mp hd with hd | hd
          · subst hd; exact ⟨h1', h2'⟩
          · exact ih (by simpa using h) d hd

theorem can_commit_group_true (st : PState) (group : List Candidate) :
    (can_commit_group st group).1 = true →
      groupInternalCollision [] group = false ∧
      groupGateEach st group = none ∧
      (check_loads
        (compute_loads
          (st.placed ++ group.map
            (fun c => placed_from_candidate c (findItem st.itemsAll c.itemId)))
          st.vehicle) st.vehicle).1 = true := by
  unfold can_commit_group
  intro h
  by_cases h1 : groupInternalCollision [] group = true
  · simp [h1] at h
  · have h1' : groupInternalCollision [] group = false := by
      cases hx : groupInternalCollision [] group
      · rfl
      · exact absurd hx h1
    simp only [h1'] at h
    rcases hg : groupGateEach st group with _ | r
    · simp only [hg] at h
      refine ⟨h1', rfl, ?_⟩
      cases hl : (check_loads (compute_loads
          (st.placed ++ group.map
            (fun c => placed_from_candidate c (findItem st.itemsAll c.itemId)))
          st.vehicle) st.vehicle).1
      · simp [hl] at h
      · rfl
    · simp [hg] at h

/-! ### Selection-fold lemmas -/

theorem groupScore_some_commit (s : Settings) (st : PState)
    (group : List Candidate) (sc : Int × ℚ × ℚ × ℚ × ℚ) :
    groupScore s st group = some sc → (can_commit_group st group).1 = true := by
  unfold groupScore
  intro h
  by_cases h1 : (can_commit_group st group).1 = true
  · exact h1
  · simp [h1] at h

theorem bestPatternStep_cases (s : Settings) (st : PState)
    (rem_ids : List String) (acc : Option (String × List Candidate × (Int × ℚ × ℚ × ℚ × ℚ)))
    (g : String × List Candidate) :
    bestPatternStep s st rem_ids acc g = acc ∨
      (∃ sc, bestPatternStep s st rem_ids acc g = some (g.1, g.2, sc) ∧
        (∀ c ∈ g.2, rem_ids.contains c.itemId = true) ∧
        groupScore s st g.2 = some sc) := by
  unfold bestPatternStep
  by_cases h1 : g.2.any (fun c => !(rem_ids.contains c.itemId)) = true
  · left; rw [if_pos h1]
  · have h1' : g.2.any (fun c => !(rem_ids.contains c.itemId)) = false := by
      cases hx : g.2.any (fun c => !(rem_ids.contains c.itemId))
      · rfl
      · exact absurd hx h1
    have havail : ∀ c ∈ g.2, rem_ids.contains c.itemId = true := by
      intro c hc
      have := List.any_eq_false.mp h1' c hc
      simpa using this
    simp only [h1', Bool.false_eq_true, if_false]
    rcases hs : groupScore s st g.2 with _ | sc
    · left; rfl
    · rcases acc with _ | b
      · right; exact ⟨sc, rfl, havail, rfl⟩
      · by_cases hgt : score5Gt sc b.2.2 = true
        · right; refine ⟨sc, ?_, havail, rfl⟩; simp [hgt]
        · left
          have : score5Gt sc b.2.2 = false := by
            cases hx : score5Gt sc b.2.2
            · rfl
            · exact absurd hx hgt
          simp [this]

theorem bestPatternFold_some (s : Settings) (st : PState)
    (rem_ids : List String) (groups : List (String × List Candidate))
    (b : String × List Candidate × (Int × ℚ × ℚ × ℚ × ℚ)) :
    bestPatternFold s st rem_ids groups = some b →
      (b.1, b.2.1) ∈ groups ∧
      (∀ c ∈ b.2.1, rem_ids.contains c.itemId = true) ∧
      groupScore s st b.2.1 = some b.2.2 := by
  have aux : ∀ (gs : List (String × List Candidate))
      (acc : Option (String × List Candidate × (Int × ℚ × ℚ × ℚ × ℚ))),
      (∀ b', acc = some b' → (b'.1, b'.2.1) ∈ groups ∧
        (∀ c ∈ b'.2.1, rem_ids.contains c.itemId = true) ∧
        groupScore s st b'.2.1 = some b'.2.2) →
      (∀ g ∈ gs, g ∈ groups) →
      ∀ b', gs.foldl (bestPatternStep s st rem_ids) acc = some b' →
        (b'.1, b'.2.1) ∈ groups ∧
        (∀ c ∈ b'.2.1, rem_ids.contains c.itemId = true) ∧
        groupScore s st b'.2.1 = some b'.2.2 := by
    intro gs
    induction gs with
    | nil => intro acc hacc _ b' hb'; exact hacc b' hb'
    | cons g rest ih =>
        intro acc hacc hsub b' hb'
        simp only [List.foldl_cons] at hb'
        refine ih (bestPatternStep s st rem_ids acc g) ?_
          (fun x hx => hsub x (by simp [hx])) b' hb'
        intro b'' hb''
        rcases bestPatternStep_cases s st rem_ids acc g with hc | ⟨sc, hc, hav, hscr⟩
        · exact hacc b'' (hc ▸ hb'')
        · rw [hc] at hb''
          cases hb''
          exact ⟨by simpa using hsub g (by simp), hav, hscr⟩
  intro h
  exact aux groups none (by intro b' h'; cases h') (fun g hg => hg) b h

theorem bestSingleStep_cases (s : Settings) (st : PState)
    (acc : Option (Candidate × (Int × ℚ × ℚ × ℚ))) (c : Candidate) :
    bestSingleStep s st acc c = acc ∨
      (∃ sc, bestSingleStep s st acc c = some (c, sc) ∧
        c.meta.patternId = none ∧ (can_place st c).1 = true) := by
  unfold bestSingleStep
  by_cases h1 : c.meta.patternId.isSome = true
  · left; rw [if_pos h1]
  · have h1' : c.meta.patternId = none := Option.not_isSome_iff_eq_none.mp h1
    rw [if_neg h1]
    by_cases h2 : (can_place st c).1 = true
    · rw [if_neg (not_not_intro h2)]
      by_cases h3 : (evaluate_candidate_policy s (findItem st.itemsAll c.itemId) c
          st.vehicle st.mode false).hard_reject_reasons.isEmpty = true
      · rw [if_neg (not_not_intro h3)]
        rcases acc with _ | b
        · right
          exact ⟨_, rfl, h1', h2⟩
        · by_cases hgt : score4Gt (apply_policy_to_score s
              (score_candidate st c st.mode)
              (evaluate_candidate_policy s (findItem st.itemsAll c.itemId) c
                st.vehicle st.mode false)) b.2 = true
          · right
            refine ⟨apply_policy_to_score s (score_candidate st c st.mode)
              (evaluate_candidate_policy s (findItem st.itemsAll c.itemId) c
                st.vehicle st.mode false), ?_, h1', h2⟩
            show (if score4Gt (apply_policy_to_score s (score_candidate st c st.mode)
                (evaluate_candidate_policy s (findItem st.itemsAll c.itemId) c
                  st.vehicle st.mode false)) b.2 = true then _ else _) = _
            rw [if_pos hgt]
          · left
            show (if score4Gt (apply_policy_to_score s (score_candidate st c st.mode)
                (evaluate_candidate_policy s (findItem st.itemsAll c.itemId) c
                  st.vehicle st.mode false)) b.2 = true then _ else _) = _
            rw [if_neg hgt]
      · left
        rw [if_pos h3]
    · left
      rw [if_pos h2]

theorem bestSingleFold_some (s : Settings) (st : PState)
    (cands : List Candidate) (b : Candidate × (Int × ℚ × ℚ × ℚ)) :
    bestSingleFold s st cands = some b →
      b.1 ∈ cands ∧ b.1.meta.patternId = none ∧ (can_place st b.1).1 = true := by
  have aux : ∀ (cs : List Candidate) (acc : Option (Candidate × (Int × ℚ × ℚ × ℚ))),
      (∀ b', acc = some b' → b'.1 ∈ cands ∧ b'.1.meta.patternId = none ∧
        (can_place st b'.1).1 = true) →
      (∀ c ∈ cs, c ∈ cands) →
      ∀ b', cs.foldl (bestSingleStep s st) acc = some b' →
        b'.1 ∈ cands ∧ b'.1.meta.patternId = none ∧ (can_place st b'.1).1 = true := by
    intro cs
    induction cs with
    | nil => intro acc hacc _ b' hb'; exact hacc b' hb'
    | cons c rest ih =>
        intro acc hacc hsub b' hb'
        simp only [List.foldl_cons] at hb'
        refine ih (bestSingleStep s st acc c) ?_
          (fun x hx => hsub x (by simp [hx])) b' hb'
        intro b'' hb''
        rcases bestSingleStep_cases s st acc c with hc | ⟨sc, hc, hpid, hcp⟩
        · exact hacc b'' (hc ▸ hb'')
        · rw [hc] at hb''
          cases hb''
          exact ⟨hsub c (by simp), hpid, hcp⟩
  intro h
  exact aux cands none (by intro b' h'; cases h') (fun c hc => hc) b h

/-- Every group collected by `_group_pattern_candidates` is nonempty and
consists of candidates of the input list. -/
theorem groupPatternCandidates_groups (cands : List Candidate) :
    ∀ g ∈ groupPatternCandidates cands, g.2 ≠ [] ∧ ∀ c ∈ g.2, c ∈ cands := by
  have aux : ∀ (cs : List Candidate) (acc : List (String × List Candidate)),
      (∀ g ∈ acc, g.2 ≠ [] ∧ ∀ c ∈ g.2, c ∈ cands) →
      (∀ c ∈ cs, c ∈ cands) →
      ∀ g ∈ cs.foldl (fun groups c =>
          match c.meta.patternId with
          | none => groups
          | some pid =>
              if groups.any (fun g => g.1 = pid) then
                groups.map (fun g => if g.1 = pid then (g.1, g.2 ++ [c]) else g)
              else groups ++ [(pid, [c])]) acc,
        g.2 ≠ [] ∧ ∀ c ∈ g.2, c ∈ cands := by
    intro cs
    induction cs with
    | nil => intro acc hacc _ g hg; exact hacc g hg
    | cons cd rest ih =>
        intro acc hacc hsub
        simp only [List.foldl_cons]
        refine ih _ ?_ (fun x hx => hsub x (by simp [hx]))
        intro g hg
        rcases hpid : cd.meta.patternId with _ | pid
        · rw [hpid] at hg
          exact hacc g hg
        · rw [hpid] at hg
          simp only at hg
          split_ifs at hg with hany
          · rcases List.mem_map.mp hg with ⟨g₀, hg₀, hmap⟩
            rcases hacc g₀ hg₀ with ⟨hne, hmem⟩
            by_cases heq : g₀.1 = pid
            · rw [if_pos heq] at hmap
              subst hmap
              refine ⟨by simp, ?_⟩
              intro d hd
              rcases List.mem_append.mp hd with hd | hd
              · exact hmem d hd
              · rw [List.mem_singleton] at hd
                rw [hd]
                exact hsub cd (by simp)
            · rw [if_neg heq] at hmap
              subst hmap
              exact ⟨hne, hmem⟩
          · rcases List.mem_append.mp hg with hg | hg
            · exact hacc g hg
            · rw [List.mem_singleton] at hg
              subst hg
              refine ⟨by simp, ?_⟩
              intro d hd
              rw [List.mem_singleton] at hd
              rw [hd]
              exact hsub cd (by simp)
  intro g hg
  exact aux cands [] (by simp) (fun c hc => hc) g hg

/-! ### Loop-invariant engine -/

theorem packLoop_inv (s : Settings) (P : PState → Prop)
    (hstep : ∀ st rem,
      (∀ st', packStep s st rem = .done st' → P st → P st') ∧
      (∀ st' rem', packStep s st rem = .next st' rem' → P st → P st')) :
    ∀ fuel st rem, P st → P (packLoop s fuel st rem) := by
  intro fuel
  induction fuel with
  | zero => intro st rem h; exact h
  | succ n ih =>
      intro st rem h
      unfold packLoop
      by_cases hre : rem.isEmpty
      · simpa [hre] using h
      · simp only [hre, Bool.false_eq_true, if_false]
        cases hps : packStep s st rem with
        | done st' => exact (hstep st rem).1 st' hps h
        | next st' rem' => exact ih st' rem' ((hstep st rem).2 st' rem' hps h)

/-- Case analysis of one packer iteration: either both selections are
empty and the step marks everything unplaced and stops, or a pattern group
wins, or a single wins. -/
theorem packStep_cases (s : Settings) (st : PState) (remaining : List Item) :
    (bestPatternFold s st (remaining.map (fun it => it.id))
        (groupPatternCandidates
          (generate_floor_candidates st.free_rects
            (remaining.take s.TOP_N_WINDOW))) = none ∧
      bestSingleFold s st
        (generate_floor_candidates st.free_rects
          (remaining.take s.TOP_N_WINDOW)) = none ∧
      packStep s st remaining = .done { st with
        unplaced := st.unplaced ++
          remaining.map (fun it => { it with status := .unplaced }) }) ∨
    (∃ b, bestPatternFold s st (remaining.map (fun it => it.id))
        (groupPatternCandidates
          (generate_floor_candidates st.free_rects
            (remaining.take s.TOP_N_WINDOW))) = some b ∧
      packStep s st remaining = .next (b.2.1.foldl commit st)
        (remaining.filter (fun it => ¬b.2.1.any (fun c => c.itemId = it.id)))) ∨
    (bestPatternFold s st (remaining.map (fun it => it.id))
        (groupPatternCandidates
          (generate_floor_candidates st.free_rects
            (remaining.take s.TOP_N_WINDOW))) = none ∧
      ∃ b, bestSingleFold s st
        (generate_floor_candidates st.free_rects
          (remaining.take s.TOP_N_WINDOW)) = some b ∧
      packStep s st remaining = .next (commit st b.1)
        (remaining.filter (fun it => it.id ≠ b.1.itemId))) := by
  rcases h1 : bestPatternFold s st (remaining.map (fun it => it.id))
      (groupPatternCandidates
        (generate_floor_candidates st.free_rects
          (remaining.take s.TOP_N_WINDOW))) with _ | b
  · rcases h2 : bestSingleFold s st
        (generate_floor_candidates st.free_rects
          (remaining.take s.TOP_N_WINDOW)) with _ | b'
    · refine Or.inl ⟨h1, rfl, ?_⟩
      simp only [packStep]
      rw [h1, h2]
    · refine Or.inr (Or.inr ⟨h1, b', rfl, ?_⟩)
      simp only [packStep]
      rw [h1, h2]
  · rcases h2 : bestSingleFold s st
        (generate_floor_candidates st.free_rects
          (remaining.take s.TOP_N_WINDOW)) with _ | b'
    · refine Or.inr (Or.inl ⟨b, h1, ?_⟩)
      simp only [packStep]
      rw [h1, h2]
    · refine Or.inr (Or.inl ⟨b, h1, ?_⟩)
      simp only [packStep]
      rw [h1, h2]

/-- `placed_from_candidate` keeps the candidate's box and pose. -/
theorem placed_from_candidate_fields (c : Candidate) (it : Item) :
    (placed_from_candidate c it).aabb = c.aabb ∧
    (placed_from_candidate c it).y = c.y ∧
    (placed_from_candidate c it).item = it := ⟨rfl, rfl, rfl⟩

/-- Committing a candidate that passed `can_place` preserves pairwise
non-overlap of the placed set. -/
theorem single_commit_pairwise (st : PState) (c : Candidate)
    (h : (can_place st c).1 = true)
    (hpw : List.Pairwise
      (fun p q : PlacedItem => aabb_intersects p.aabb q.aabb = false)
      st.placed) :
    List.Pairwise (fun p q : PlacedItem => aabb_intersects p.aabb q.aabb = false)
      (commit st c).placed := by
  rw [commit_placed]
  rw [List.pairwise_append]
  refine ⟨hpw, by simp, ?_⟩
  intro p hp q hq
  rw [List.mem_singleton] at hq
  subst hq
  rcases can_place_true_gates st c h with ⟨_, hcol, _⟩
  have := List.any_eq_false.mp hcol p hp
  simp only [Bool.not_eq_true] at this
  show aabb_intersects p.aabb (placed_from_candidate c _).aabb = false
  rw [(placed_from_candidate_fields c _).1, aabb_intersects_symm]
  exact this

/-- Committing a full group that passed `_can_commit_group` preserves
pairwise non-overlap of the placed set. -/
theorem group_commit_pairwise (st : PState) (group : List Candidate)
    (h : (can_commit_group st group).1 = true)
    (hpw : List.Pairwise
      (fun p q : PlacedItem => aabb_intersects p.aabb q.aabb = false)
      st.placed) :
    List.Pairwise (fun p q : PlacedItem => aabb_intersects p.aabb q.aabb = false)
      ((group.foldl commit st).placed) := by
  rcases can_commit_group_true st group h with ⟨hint, hgate, _⟩
  rw [(foldl_commit_fields group st).1]
  rw [List.pairwise_append]
  refine ⟨hpw, ?_, ?_⟩
  · rw [List.pairwise_map]
    have hpw' := (groupInternalCollision_false [] group hint).2
    refine hpw'.imp ?_
    intro a b hab
    show aabb_intersects (placed_from_candidate a _).aabb
      (placed_from_candidate b _).aabb = false
    rw [(placed_from_candidate_fields a _).1, (placed_from_candidate_fields b _).1,
      aabb_intersects_symm]
    exact hab
  · intro p hp q hq
    rcases List.mem_map.mp hq with ⟨c, hc, rfl⟩
    have := (groupGateEach_none st group hgate c hc).2
    have hcol := List.any_eq_false.mp this p hp
    simp only [Bool.not_eq_true] at hcol
    show aabb_intersects p.aabb (placed_from_candidate c _).aabb = false
    rw [(placed_from_candidate_fields c _).1, aabb_intersects_symm]
    exact hcol

/-- C2 — No-overlap invariant: for every finished plan produced by `pack`
and every pair of distinct placed units (committed singly or as members of
committed pattern groups), their bounding boxes do not intersect beyond
epsilon, in both orientations of the pair. -/
theorem packed_placed_pairwise_no_overlap (s : Settings) (items : List Item)
    (v : Vehicle) :
    List.Pairwise
      (fun p q : PlacedItem =>
        aabb_intersects p.aabb q.aabb = false ∧
        aabb_intersects q.aabb p.aabb = false)
      ((pack s items v).placed) := by
  have key : List.Pairwise
      (fun p q : PlacedItem => aabb_intersects p.aabb q.aabb = false)
      (pack s items v).placed := by
    unfold pack
    apply packLoop_inv s
      (fun st => List.Pairwise
        (fun p q : PlacedItem => aabb_intersects p.aabb q.aabb = false) st.placed)
    · intro st rem
      constructor
      · intro st' hps hP
        rcases packStep_cases s st rem with ⟨_, _, hd⟩ | ⟨b, _, hn⟩ | ⟨_, b, _, hn⟩
        · rw [hps] at hd
          cases hd
          exact hP
        · rw [hps] at hn; cases hn
        · rw [hps] at hn; cases hn
      · intro st' rem' hps hP
        rcases packStep_cases s st rem with ⟨_, _, hd⟩ | ⟨b, hb, hn⟩ | ⟨_, b, hb, hn⟩
        · rw [hps] at hd; cases hd
        · rw [hps] at hn
          cases hn
          have hcommit := groupScore_some_commit s st b.2.1 b.2.2
            (bestPatternFold_some s st _ _ b hb).2.2
          exact group_commit_pairwise st b.2.1 hcommit hP
        · rw [hps] at hn
          cases hn
          have hcp := (bestSingleFold_some s st _ b hb).2.2
          exact single_commit_pairwise st b.1 hcp hP
    · simp
  exact key.imp (fun {p q} h => ⟨h, by rw [aabb_intersects_symm]; exact h⟩)

/-- Committing preserves membership-wise in-bounds placed boxes. -/
theorem single_commit_oob (st : PState) (c : Candidate) (v : Vehicle)
    (hv : st.vehicle = v) (h : (can_place st c).1 = true)
    (hall : ∀ p ∈ st.placed, oob_check p.aabb v = false) :
    ∀ p ∈ (commit st c).placed, oob_check p.aabb v = false := by
  rw [commit_placed]
  intro p hp
  rcases List.mem_append.mp hp with hp | hp
  · exact hall p hp
  · rw [List.mem_singleton] at hp
    subst hp
    rcases can_place_true_gates st c h with ⟨hoob, _, _⟩
    rw [(placed_from_candidate_fields c _).1]
    rw [hv] at hoob
    exact hoob

/-- Group commit preserves membership-wise in-bounds placed boxes. -/
theorem group_commit_oob (st : PState) (group : List Candidate) (v : Vehicle)
    (hv : st.vehicle = v) (h : (can_commit_group st group).1 = true)
    (hall : ∀ p ∈ st.placed, oob_check p.aabb v = false) :
    ∀ p ∈ (group.foldl commit st).placed, oob_check p.aabb v = false := by
  rcases can_commit_group_true st group h with ⟨_, hgate, _⟩
  rw [(foldl_commit_fields group st).1]
  intro p hp
  rcases List.mem_append.mp hp with hp | hp
  · exact hall p hp
  · rcases List.mem_map.mp hp with ⟨c, hc, rfl⟩
    have := (groupGateEach_none st group hgate c hc).1
    rw [(placed_from_candidate_fields c _).1]
    rw [hv] at this
    exact this

/-- C9 — Bounds invariant: every placed unit of every finished plan has
its bounding box inside the hold's interior envelope
`[−W/2, W/2] × [0, H] × [−L/2, L/2]`, epsilon-tolerant. -/
theorem packed_placed_in_bounds (s : Settings) (items : List Item)
    (v : Vehicle) :
    ((pack s items v).placed).Forall (fun p =>
      p.aabb.minX ≥ -(v.innerWidth / 2) - eps9 ∧
      p.aabb.maxX ≤ v.innerWidth / 2 + eps9 ∧
      p.aabb.minY ≥ 0 - eps9 ∧
      p.aabb.maxY ≤ v.innerHeight + eps9 ∧
      p.aabb.minZ ≥ -(v.innerLength / 2) - eps9 ∧
      p.aabb.maxZ ≤ v.innerLength / 2 + eps9) := by
  rw [List.forall_iff_forall_mem]
  have key : ((pack s items v).vehicle = v ∧
      ∀ p ∈ (pack s items v).placed, oob_check p.aabb v = false) := by
    unfold pack
    apply packLoop_inv s
      (fun st => st.vehicle = v ∧ ∀ p ∈ st.placed, oob_check p.aabb v = false)
    · intro st rem
      constructor
      · intro st' hps hP
        rcases packStep_cases s st rem with ⟨_, _, hd⟩ | ⟨b, _, hn⟩ | ⟨_, b, _, hn⟩
        · rw [hps] at hd
          cases hd
          exact hP
        · rw [hps] at hn; cases hn
        · rw [hps] at hn; cases hn
      · intro st' rem' hps hP
        rcases packStep_cases s st rem with ⟨_, _, hd⟩ | ⟨b, hb, hn⟩ | ⟨_, b, hb, hn⟩
        · rw [hps] at hd; cases hd
        · rw [hps] at hn
          cases hn
          have hcommit := groupScore_some_commit s st b.2.1 b.2.2
            (bestPatternFold_some s st _ _ b hb).2.2
          exact ⟨by rw [(foldl_commit_fields b.2.1 st).2.1]; exact hP.1,
            group_commit_oob st b.2.1 v hP.1 hcommit hP.2⟩
        · rw [hps] at hn
          cases hn
          have hcp := (bestSingleFold_some s st _ b hb).2.2
          exact ⟨by rw [commit_vehicle]; exact hP.1,
            single_commit_oob st b.1 v hP.1 hcp hP.2⟩
    · exact ⟨rfl, by simp⟩
  intro p hp
  have := key.2 p hp
  have hiff := (oob_check_false_iff p.aabb v eps9).mp (by
    have : oob_check p.aabb v eps9 = false := this
    exact this)
  exact ⟨hiff.1, hiff.2.1, hiff.2.2.2.2.1, hiff.2.2.2.2.2, hiff.2.2.1, hiff.2.2.2.1⟩

/-! ### Generator properties: floor-level candidates -/

theorem GenProp_mono {its its' : List Item} {c : Candidate}
    (hsub : ∀ it ∈ its, it ∈ its') : GenProp its c → GenProp its' c := by
  rintro ⟨h1, h2, it, hit, h3⟩
  exact ⟨h1, h2, it, hsub it hit, h3⟩

theorem build_candidate_gen (it : Item) (x zc : ℚ) (rot : Int) (kind : String)
    (meta : Meta) :
    (build_candidate it x 0 zc rot kind meta).y = 0 ∧
    (build_candidate it x 0 zc rot kind meta).aabb.minY = 0 ∧
    (build_candidate it x 0 zc rot kind meta).itemId = it.id ∧
    (build_candidate it x 0 zc rot kind meta).dy = it.height ∧
    (build_candidate it x 0 zc rot kind meta).aabb.maxY = it.height := by
  refine ⟨rfl, ?_, rfl, rfl, ?_⟩ <;>
    simp [build_candidate, aabb_from_center]

/-- Step equation of `buildRow` on a nonempty row, with the `let`s
expanded. -/
theorem buildRow_cons (rect : Rect) (pid kind : String)
    (zc want_w want_l dxMax dzMax xstep : ℚ) (j : Nat) (it : Item)
    (rest : List Item) :
    buildRow rect pid kind zc want_w want_l dxMax dzMax xstep j (it :: rest) =
      (if (if rot_for it want_w want_l = 0 then it.width else it.length) > dxMax ∨
          (if rot_for it want_w want_l = 0 then it.length else it.width) > dzMax
        then none
        else
          match buildRow rect pid kind zc want_w want_l dxMax dzMax xstep (j + 1)
              rest with
          | none => none
          | some cs =>
              some (build_candidate it
                (rect.x0 + (j : ℚ) * xstep +
                  (if rot_for it want_w want_l = 0 then it.width else it.length) / 2)
                0 zc (rot_for it want_w want_l) kind
                ⟨some pid, some rect⟩ :: cs)) := rfl

theorem buildRow_gen (rect : Rect) (pid kind : String)
    (zc want_w want_l dxMax dzMax xstep : ℚ) :
    ∀ (its : List Item) (j : Nat) (cs : List Candidate),
      buildRow rect pid kind zc want_w want_l dxMax dzMax xstep j its = some cs →
      ∀ c ∈ cs, GenProp its c := by
  intro its
  induction its with
  | nil =>
      intro j cs h c hc
      unfold buildRow at h
      cases h
      cases hc
  | cons it rest ih =>
      intro j cs h c hc
      rw [buildRow_cons] at h
      by_cases hguard :
          ((if rot_for it want_w want_l = 0 then it.width else it.length) > dxMax ∨
           (if rot_for it want_w want_l = 0 then it.length else it.width) > dzMax)
      · rw [if_pos hguard] at h; cases h
      · rw [if_neg hguard] at h
        rcases hrec : buildRow rect pid kind zc want_w want_l dxMax dzMax xstep
            (j + 1) rest with _ | cs'
        · rw [hrec] at h; cases h
        · rw [hrec] at h
          cases h
          rcases List.mem_cons.mp hc with hc | hc
          · subst hc
            rcases build_candidate_gen it
                (rect.x0 + (j : ℚ) * xstep +
                  (if rot_for it want_w want_l = 0 then it.width else it.length) / 2)
                zc (rot_for it want_w want_l) kind ⟨some pid, some rect⟩ with
              ⟨g1, g2, g3, g4, g5⟩
            exact ⟨g1, g2, it, by simp, g3, g4, g5⟩
          · exact GenProp_mono (fun x hx => by simp [hx]) (ih (j + 1) cs' hrec c hc)

/-- Step equation of the `_variants_take3` loop body, with the `let`s
expanded. -/
theorem variantsGo3_cons (items : List Item) (n : Nat) (a b c : Nat)
    (rest : List (Nat × Nat × Nat)) (seen : List (List Nat))
    (out : List (Item × Item × Item)) :
    variantsGo3 items n ((a, b, c) :: rest) seen out =
      if a < n ∧ b < n ∧ c < n then
        if seen.contains ([a, b, c].mergeSort (· ≤ ·)) then
          variantsGo3 items n rest seen out
        else
          if (out ++ [(items.getD a defaultItem, items.getD b defaultItem,
              items.getD c defaultItem)]).length ≥ MAX_VARIANTS_3 then
            out ++ [(items.getD a defaultItem, items.getD b defaultItem,
              items.getD c defaultItem)]
          else
            variantsGo3 items n rest (seen ++ [[a, b, c].mergeSort (· ≤ ·)])
              (out ++ [(items.getD a defaultItem, items.getD b defaultItem,
                items.getD c defaultItem)])
      else
        if out.length ≥ MAX_VARIANTS_3 then out
        else variantsGo3 items n rest seen out := rfl

theorem variantsGo3_mem (items : List Item) (n : Nat) (hn : n ≤ items.length) :
    ∀ (idx_sets : List (Nat × Nat × Nat)) (seen : List (List Nat))
      (out : List (Item × Item × Item)),
      (∀ t ∈ out, t.1 ∈ items ∧ t.2.1 ∈ items ∧ t.2.2 ∈ items) →
      ∀ t ∈ variantsGo3 items n idx_sets seen out,
        t.1 ∈ items ∧ t.2.1 ∈ items ∧ t.2.2 ∈ items := by
  intro idx_sets
  induction idx_sets with
  | nil =>
      intro seen out hout t ht
      unfold variantsGo3 at ht
      exact hout t ht
  | cons abc rest ih =>
      rcases abc with ⟨a, b, c⟩
      intro seen out hout t ht
      rw [variantsGo3_cons] at ht
      have hout' : (a < n ∧ b < n ∧ c < n) →
          ∀ t ∈ out ++ [(items.getD a defaultItem,
            items.getD b defaultItem, items.getD c defaultItem)],
            t.1 ∈ items ∧ t.2.1 ∈ items ∧ t.2.2 ∈ items := by
        intro hv t' ht'
        obtain ⟨ha, hb, hc⟩ := hv
        rcases List.mem_append.mp ht' with ht' | ht'
        · exact hout t' ht'
        · rw [List.mem_singleton] at ht'
          subst ht'
          refine ⟨?_, ?_, ?_⟩ <;> dsimp only <;>
            rw [List.getD_eq_getElem _ _ (by omega)] <;>
            exact List.getElem_mem _
      split_ifs at ht with hv hseen hcap hcap2
      · exact ih _ _ hout t ht
      · exact hout' hv t ht
      · exact ih _ _ (hout' hv) t ht
      · exact hout t ht
      · exact ih _ _ hout t ht

theorem variants_take3_mem (items : List Item) :
    ∀ t ∈ variants_take3 items, t.1 ∈ items ∧ t.2.1 ∈ items ∧ t.2.2 ∈ items := by
  unfold variants_take3
  simp only []
  split_ifs with h
  · simp
  all_goals exact variantsGo3_mem items items.length (le_refl _) _ [] [] (by simp)

/-- Step equation of the `_variants_take5` loop body, with the `let`s
expanded. -/
theorem variantsGo5_cons (items : List Item) (n : Nat) (a b c d e : Nat)
    (rest : List (Nat × Nat × Nat × Nat × Nat)) (seen : List (List Nat))
    (out : List (Item × Item × Item × Item × Item)) :
    variantsGo5 items n ((a, b, c, d, e) :: rest) seen out =
      if a < n ∧ b < n ∧ c < n ∧ d < n ∧ e < n then
        if seen.contains ([a, b, c, d, e].mergeSort (· ≤ ·)) then
          variantsGo5 items n rest seen out
        else
          if (out ++ [(items.getD a defaultItem, items.getD b defaultItem,
              items.getD c defaultItem, items.getD d defaultItem,
              items.getD e defaultItem)]).length ≥ MAX_VARIANTS_5 then
            out ++ [(items.getD a defaultItem, items.getD b defaultItem,
              items.getD c defaultItem, items.getD d defaultItem,
              items.getD e defaultItem)]
          else
            variantsGo5 items n rest (seen ++ [[a, b, c, d, e].mergeSort (· ≤ ·)])
              (out ++ [(items.getD a defaultItem, items.getD b defaultItem,
                items.getD c defaultItem, items.getD d defaultItem,
                items.getD e defaultItem)])
      else
        if out.length ≥ MAX_VARIANTS_5 then out
        else variantsGo5 items n rest seen out := rfl

theorem variantsGo5_mem (items : List Item) (n : Nat) (hn : n ≤ items.length) :
    ∀ (idx_sets : List (Nat × Nat × Nat × Nat × Nat)) (seen : List (List Nat))
      (out : List (Item × Item × Item × Item × Item)),
      (∀ t ∈ out, t.1 ∈ items ∧ t.2.1 ∈ items ∧ t.2.2.1 ∈ items ∧
        t.2.2.2.1 ∈ items ∧ t.2.2.2.2 ∈ items) →
      ∀ t ∈ variantsGo5 items n idx_sets seen out,
        t.1 ∈ items ∧ t.2.1 ∈ items ∧ t.2.2.1 ∈ items ∧
        t.2.2.2.1 ∈ items ∧ t.2.2.2.2 ∈ items := by
  intro idx_sets
  induction idx_sets with
  | nil =>
      intro seen out hout t ht
      unfold variantsGo5 at ht
      exact hout t ht
  | cons abc rest ih =>
      rcases abc with ⟨a, b, c, d, e⟩
      intro seen out hout t ht
      rw [variantsGo5_cons] at ht
      have hout' : (a < n ∧ b < n ∧ c < n ∧ d < n ∧ e < n) →
          ∀ t ∈ out ++ [(items.getD a defaultItem,
            items.getD b defaultItem, items.getD c defaultItem,
            items.getD d defaultItem, items.getD e defaultItem)],
            t.1 ∈ items ∧ t.2.1 ∈ items ∧ t.2.2.1 ∈ items ∧
            t.2.2.2.1 ∈ items ∧ t.2.2.2.2 ∈ items := by
        intro hv t' ht'
        obtain ⟨ha, hb, hc, hd, he⟩ := hv
        rcases List.mem_append.mp ht' with ht' | ht'
        · exact hout t' ht'
        · rw [List.mem_singleton] at ht'
          subst ht'
          refine ⟨?_, ?_, ?_, ?_, ?_⟩ <;> dsimp only <;>
            rw [List.getD_eq_getElem _ _ (by omega)] <;>
            exact List.getElem_mem _
      split_ifs at ht with hv hseen hcap hcap2
      · exact ih _ _ hout t ht
      · exact hout' hv t ht
      · exact ih _ _ (hout' hv) t ht
      · exact hout t ht
      · exact ih _ _ hout t ht

theorem variants_take5_mem (items : List Item) :
    ∀ t ∈ variants_take5 items, t.1 ∈ items ∧ t.2.1 ∈ items ∧
      t.2.2.1 ∈ items ∧ t.2.2.2.1 ∈ items ∧ t.2.2.2.2 ∈ items := by
  unfold variants_take5
  simp only []
  split_ifs with h
  · simp
  all_goals exact variantsGo5_mem items items.length (le_refl _) _ [] [] (by simp)

theorem gen_3across_gen (rect : Rect) (std_items : List Item) (z_anchor : ℚ)
    (pid : String) :
    ∀ pack ∈ gen_3across rect std_items z_anchor pid, ∀ c ∈ pack,
      GenProp std_items c := by
  unfold gen_3across
  simp only []
  split_ifs with h1 h2
  · simp
  · simp
  · intro pack hpack c hc
    rcases List.mem_filterMap.mp hpack with ⟨t, ht, hrow⟩
    have hmem := variants_take3_mem (top std_items MAX_PREFIX_STD) t ht
    have hgen := buildRow_gen rect pid "pattern_3across" _ _ _ _ _ _ _ 0 _ hrow c hc
    refine GenProp_mono ?_ hgen
    intro it hit
    have htop : ∀ x ∈ top std_items MAX_PREFIX_STD, x ∈ std_items :=
      fun x hx => List.take_subset _ _ hx
    rcases List.mem_cons.mp hit with h | h
    · subst h; exact htop _ hmem.1
    · rcases List.mem_cons.mp h with h | h
      · subst h; exact htop _ hmem.2.1
      · rw [List.mem_singleton] at h
        subst h
        exact htop _ hmem.2.2

theorem gen140Inner_gen (rect : Rect) (pid : String) (zc dx_b : ℚ)
    (rot_b : Int) (bi : Item) :
    ∀ (stds : List Item) (produced : Nat),
      ∀ pack ∈ (gen140Inner rect pid zc dx_b rot_b bi stds produced).1,
      ∀ c ∈ pack, c.y = 0 ∧ c.aabb.minY = 0 ∧
        ((c.itemId = bi.id ∧ c.dy = bi.height ∧ c.aabb.maxY = bi.height) ∨
         ∃ it ∈ stds, c.itemId = it.id ∧ c.dy = it.height ∧
           c.aabb.maxY = it.height) := by
  intro stds
  induction stds with
  | nil =>
      intro produced pack hpack
      unfold gen140Inner at hpack
      cases hpack
  | cons si rest ih =>
      intro produced pack hpack c hc
      have hmono : ∀ (pr : Nat), pack ∈ (gen140Inner rect pid zc dx_b rot_b bi
          rest pr).1 → c.y = 0 ∧ c.aabb.minY = 0 ∧
          ((c.itemId = bi.id ∧ c.dy = bi.height ∧ c.aabb.maxY = bi.height) ∨
           ∃ it ∈ si :: rest, c.itemId = it.id ∧ c.dy = it.height ∧
             c.aabb.maxY = it.height) := by
        intro pr hp
        rcases ih pr pack hp c hc with ⟨p1, p2, p3⟩
        refine ⟨p1, p2, ?_⟩
        rcases p3 with p3 | ⟨it, hit, p3⟩
        · exact Or.inl p3
        · exact Or.inr ⟨it, by simp [hit], p3⟩
      have hpackcase : ∀ (hmem : c ∈
          [build_candidate bi (rect.x0 + dx_b / 2) 0 zc rot_b "pattern_140plus80"
            ⟨some pid, some rect⟩,
           build_candidate si
            (rect.x0 + dx_b + (if rot_for si (4/5) (6/5) = 0 then si.width
              else si.length) / 2) 0 zc (rot_for si (4/5) (6/5))
            "pattern_140plus80" ⟨some pid, some rect⟩]),
          c.y = 0 ∧ c.aabb.minY = 0 ∧
          ((c.itemId = bi.id ∧ c.dy = bi.height ∧ c.aabb.maxY = bi.height) ∨
           ∃ it ∈ si :: rest, c.itemId = it.id ∧ c.dy = it.height ∧
             c.aabb.maxY = it.height) := by
        intro hmem
        rcases List.mem_cons.mp hmem with hmem | hmem
        · subst hmem
          rcases build_candidate_gen bi (rect.x0 + dx_b / 2) zc rot_b
            "pattern_140plus80" ⟨some pid, some rect⟩ with ⟨g1, g2, g3, g4, g5⟩
          exact ⟨g1, g2, Or.inl ⟨g3, g4, g5⟩⟩
        · rw [List.mem_singleton] at hmem
          subst hmem
          rcases build_candidate_gen si
            (rect.x0 + dx_b + (if rot_for si (4/5) (6/5) = 0 then si.width
              else si.length) / 2) zc (rot_for si (4/5) (6/5))
            "pattern_140plus80" ⟨some pid, some rect⟩ with ⟨g1, g2, g3, g4, g5⟩
          exact ⟨g1, g2, Or.inr ⟨si, by simp, g3, g4, g5⟩⟩
      unfold gen140Inner at hpack
      simp only [] at hpack
      by_cases hg1 : ((if rot_for si (4/5) (6/5) = 0 then si.width else si.length)
          > 43/50 ∨
          (if rot_for si (4/5) (6/5) = 0 then si.length else si.width) > 63/50)
      · rw [if_pos hg1] at hpack
        exact hmono produced hpack
      · rw [if_neg hg1] at hpack
        by_cases hg2 : dx_b +
            (if rot_for si (4/5) (6/5) = 0 then si.width else si.length) >
            (rect.x1 - rect.x0) + eps9
        · rw [if_pos hg2] at hpack
          exact hmono produced hpack
        · rw [if_neg hg2] at hpack
          by_cases hcap : produced + 1 ≥ MAX_VARIANTS_140P80
          · rw [if_pos hcap] at hpack
            simp only [List.mem_singleton] at hpack
            subst hpack
            exact hpackcase hc
          · rw [if_neg hcap] at hpack
            simp only [List.mem_cons] at hpack
            rcases hpack with hpack | hpack
            · subst hpack
              exact hpackcase hc
            · exact hmono (produced + 1) hpack

theorem gen140Outer_gen (rect : Rect) (pid : String) (zc : ℚ)
    (std_pool : List Item) :
    ∀ (bigs : List Item) (produced : Nat),
      ∀ pack ∈ gen140Outer rect pid zc std_pool bigs produced,
      ∀ c ∈ pack, c.y = 0 ∧ c.aabb.minY = 0 ∧
        ∃ it, (it ∈ bigs ∨ it ∈ std_pool) ∧ c.itemId = it.id ∧
          c.dy = it.height ∧ c.aabb.maxY = it.height := by
  intro bigs
  induction bigs with
  | nil =>
      intro produced pack hpack
      unfold gen140Outer at hpack
      cases hpack
  | cons bi rest ih =>
      intro produced pack hpack c hc
      have hmono : ∀ (pr : Nat), pack ∈ gen140Outer rect pid zc std_pool rest pr →
          c.y = 0 ∧ c.aabb.minY = 0 ∧
          ∃ it, (it ∈ bi :: rest ∨ it ∈ std_pool) ∧ c.itemId = it.id ∧
            c.dy = it.height ∧ c.aabb.maxY = it.height := by
        intro pr hp
        rcases ih pr pack hp c hc with ⟨p1, p2, it, hit, p3⟩
        refine ⟨p1, p2, it, ?_, p3⟩
        rcases hit with hit | hit
        · exact Or.inl (by simp [hit])
        · exact Or.inr hit
      have hinner : pack ∈ (gen140Inner rect pid zc
          (if rot_for bi (7/5) (6/5) = 0 then bi.width else bi.length)
          (rot_for bi (7/5) (6/5)) bi std_pool produced).1 →
          c.y = 0 ∧ c.aabb.minY = 0 ∧
          ∃ it, (it ∈ bi :: rest ∨ it ∈ std_pool) ∧ c.itemId = it.id ∧
            c.dy = it.height ∧ c.aabb.maxY = it.height := by
        intro hp
        rcases gen140Inner_gen rect pid zc
            (if rot_for bi (7/5) (6/5) = 0 then bi.width else bi.length)
            (rot_for bi (7/5) (6/5)) bi std_pool produced pack hp c hc with
          ⟨p1, p2, p3⟩
        refine ⟨p1, p2, ?_⟩
        rcases p3 with p3 | ⟨it, hit, p3⟩
        · exact ⟨bi, Or.inl (by simp), p3⟩
        · exact ⟨it, Or.inr hit, p3⟩
      unfold gen140Outer at hpack
      simp only [] at hpack
      by_cases hg : ((if rot_for bi (7/5) (6/5) = 0 then bi.width else bi.length)
          > 73/50 ∨
          (if rot_for bi (7/5) (6/5) = 0 then bi.length else bi.width) > 63/50)
      · rw [if_pos hg] at hpack
        exact hmono produced hpack
      · rw [if_neg hg] at hpack
        by_cases hstop : (gen140Inner rect pid zc
            (if rot_for bi (7/5) (6/5) = 0 then bi.width else bi.length)
            (rot_for bi (7/5) (6/5)) bi std_pool produced).2.2 = true
        · rw [if_pos hstop] at hpack
          exact hinner hpack
        · rw [if_neg hstop] at hpack
          rcases List.mem_append.mp hpack with hpack | hpack
          · exact hinner hpack
          · exact hmono _ hpack

theorem gen_140plus80_gen (rect : Rect) (big_items std_items : List Item)
    (z_anchor : ℚ) (pid : String) :
    ∀ pack ∈ gen_140plus80 rect big_items std_items z_anchor pid, ∀ c ∈ pack,
      GenProp (big_items ++ std_items) c := by
  unfold gen_140plus80
  simp only []
  split_ifs with h1 h2
  · simp
  · simp
  · intro pack hpack c hc
    rcases gen140Outer_gen rect pid _ _ _ 0 pack hpack c hc with
      ⟨p1, p2, it, hit, p3⟩
    refine ⟨p1, p2, it, ?_, p3⟩
    rcases hit with hit | hit
    · exact List.mem_append.mpr (Or.inl (List.take_subset _ _ hit))
    · exact List.mem_append.mpr (Or.inr (List.take_subset _ _ hit))

theorem gen_3plus2_gen (rect : Rect) (std_items : List Item) (z_anchor : ℚ)
    (pid : String) :
    ∀ pack ∈ gen_3plus2 rect std_items z_anchor pid, ∀ c ∈ pack,
      GenProp std_items c := by
  unfold gen_3plus2
  simp only []
  split_ifs with h1 h2
  · simp
  · simp
  · intro pack hpack c hc
    rcases List.mem_filterMap.mp hpack with ⟨t, ht, hrow⟩
    have hmem := variants_take5_mem (top std_items MAX_PREFIX_STD) t ht
    rcases hrow1 : buildRow rect pid "pattern_3plus2"
        (z_anchor + (6/5) / 2) (4/5) (6/5) (43/50) (63/50) (4/5) 0
        [t.1, t.2.1, t.2.2.1] with _ | cs1
    · rw [hrow1] at hrow; cases hrow
    · rw [hrow1] at hrow
      rcases hrow2 : buildRow rect pid "pattern_3plus2"
          (z_anchor + 6/5 + (4/5) / 2) (6/5) (4/5) (63/50) (43/50) (6/5) 0
          [t.2.2.2.1, t.2.2.2.2] with _ | cs2
      · rw [hrow2] at hrow; cases hrow
      · rw [hrow2] at hrow
        cases hrow
        have htop : ∀ x ∈ top std_items MAX_PREFIX_STD, x ∈ std_items :=
          fun x hx => List.take_subset _ _ hx
        rcases List.mem_append.mp hc with hc | hc
        · refine GenProp_mono ?_ (buildRow_gen _ _ _ _ _ _ _ _ _ _ 0 _ hrow1 c hc)
          intro it hit
          rcases List.mem_cons.mp hit with h | h
          · subst h; exact htop _ hmem.1
          · rcases List.mem_cons.mp h with h | h
            · subst h; exact htop _ hmem.2.1
            · rw [List.mem_singleton] at h
              subst h
              exact htop _ hmem.2.2.1
        · refine GenProp_mono ?_ (buildRow_gen _ _ _ _ _ _ _ _ _ _ 0 _ hrow2 c hc)
          intro it hit
          rcases List.mem_cons.mp hit with h | h
          · subst h; exact htop _ hmem.2.2.2.1
          · rw [List.mem_singleton] at h
            subst h
            exact htop _ hmem.2.2.2.2

theorem gen_zigzag_gen (rect : Rect) (std_items : List Item) (z_anchor : ℚ)
    (pid : String) :
    ∀ pack ∈ gen_zigzag rect std_items z_anchor pid, ∀ c ∈ pack,
      GenProp std_items c := by
  unfold gen_zigzag
  simp only []
  split_ifs with h1 h2
  · simp
  · simp
  · intro pack hpack c hc
    rcases List.mem_filterMap.mp hpack with ⟨t, ht, hrow⟩
    have hmem := variants_take5_mem (top std_items MAX_PREFIX_STD) t ht
    rcases hrow1 : buildRow rect pid "pattern_zigzag"
        (z_anchor + (4/5) / 2) (6/5) (4/5) (63/50) (43/50) (6/5) 0
        [t.1, t.2.1] with _ | cs1
    · rw [hrow1] at hrow; cases hrow
    · rw [hrow1] at hrow
      rcases hrow2 : buildRow rect pid "pattern_zigzag"
          (z_anchor + 4/5 + (6/5) / 2) (4/5) (6/5) (43/50) (63/50) (4/5) 0
          [t.2.2.1, t.2.2.2.1, t.2.2.2.2] with _ | cs2
      · rw [hrow2] at hrow; cases hrow
      · rw [hrow2] at hrow
        cases hrow
        have htop : ∀ x ∈ top std_items MAX_PREFIX_STD, x ∈ std_items :=
          fun x hx => List.take_subset _ _ hx
        rcases List.mem_append.mp hc with hc | hc
        · refine GenProp_mono ?_ (buildRow_gen _ _ _ _ _ _ _ _ _ _ 0 _ hrow1 c hc)
          intro it hit
          rcases List.mem_cons.mp hit with h | h
          · subst h; exact htop _ hmem.1
          · rw [List.mem_singleton] at h
            subst h
            exact htop _ hmem.2.1
        · refine GenProp_mono ?_ (buildRow_gen _ _ _ _ _ _ _ _ _ _ 0 _ hrow2 c hc)
          intro it hit
          rcases List.mem_cons.mp hit with h | h
          · subst h; exact htop _ hmem.2.2.1
          · rcases List.mem_cons.mp h with h | h
            · subst h; exact htop _ hmem.2.2.2.1
            · rw [List.mem_singleton] at h
              subst h
              exact htop _ hmem.2.2.2.2

theorem assign_pattern_id_gen (its : List Item) (pack : List Candidate)
    (pid : String) (hpack : ∀ c ∈ pack, GenProp its c) :
    ∀ c ∈ assign_pattern_id pack pid, GenProp its c := by
  intro c hc
  rcases List.mem_map.mp hc with ⟨c₀, hc₀, rfl⟩
  rcases hpack c₀ hc₀ with ⟨h1, h2, it, hit, h3, h4, h5⟩
  exact ⟨h1, h2, it, hit, h3, h4, h5⟩

theorem emitPacks_gen (its : List Item) (packs : List (List Candidate)) :
    ∀ (acc : List Candidate) (seq : Nat),
      (∀ pack ∈ packs, ∀ c ∈ pack, GenProp its c) →
      (∀ c ∈ acc, GenProp its c) →
      ∀ c ∈ (emitPacks packs acc seq).1, GenProp its c := by
  induction packs with
  | nil =>
      intro acc seq _ hacc c hc
      exact hacc c hc
  | cons pack rest ih =>
      intro acc seq hpacks hacc c hc
      unfold emitPacks at hc
      simp only [List.foldl_cons] at hc
      refine ih (acc ++ assign_pattern_id pack ("p" ++ toString seq)) (seq + 1)
        (fun p hp => hpacks p (by simp [hp])) ?_ c hc
      intro d hd
      rcases List.mem_append.mp hd with hd | hd
      · exact hacc d hd
      · exact assign_pattern_id_gen its pack _ (hpacks pack (by simp)) d hd

theorem foldl_emitPacks_gen (its : List Item) (gen : ℚ → List (List Candidate))
    (hgen : ∀ z0, ∀ pack ∈ gen z0, ∀ c ∈ pack, GenProp its c) :
    ∀ (zs : List ℚ) (st : List Candidate × Nat),
      (∀ c ∈ st.1, GenProp its c) →
      ∀ c ∈ (zs.foldl (fun st z0 => emitPacks (gen z0) st.1 st.2) st).1,
        GenProp its c := by
  intro zs
  induction zs with
  | nil => intro st hst c hc; exact hst c hc
  | cons z0 rest ih =>
      intro st hst c hc
      simp only [List.foldl_cons] at hc
      refine ih (emitPacks (gen z0) st.1 st.2) ?_ c hc
      intro d hd
      exact emitPacks_gen its (gen z0) st.1 st.2 (hgen z0) hst d hd

theorem rectPatterns_gen (std big : List Item) (L : List Item)
    (hstd : ∀ x ∈ std, x ∈ L) (hbig : ∀ x ∈ big, x ∈ L)
    (st : List Candidate × Nat) (r : Rect)
    (hst : ∀ c ∈ st.1, GenProp L c) :
    ∀ c ∈ (rectPatterns std big st r).1, GenProp L c := by
  unfold rectPatterns
  have h3a : ∀ z0, ∀ pack ∈ gen_3across r std z0 "scan", ∀ c ∈ pack,
      GenProp L c := fun z0 pack hpack c hc =>
    GenProp_mono hstd (gen_3across_gen r std z0 "scan" pack hpack c hc)
  have h140 : ∀ z0, ∀ pack ∈ gen_140plus80 r big std z0 "scan", ∀ c ∈ pack,
      GenProp L c := fun z0 pack hpack c hc =>
    GenProp_mono (fun x hx => by
        rcases List.mem_append.mp hx with hx | hx
        · exact hbig x hx
        · exact hstd x hx)
      (gen_140plus80_gen r big std z0 "scan" pack hpack c hc)
  have h32 : ∀ z0, ∀ pack ∈ gen_3plus2 r std z0 "scan", ∀ c ∈ pack,
      GenProp L c := fun z0 pack hpack c hc =>
    GenProp_mono hstd (gen_3plus2_gen r std z0 "scan" pack hpack c hc)
  have hzz : ∀ z0, ∀ pack ∈ gen_zigzag r std z0 "scan", ∀ c ∈ pack,
      GenProp L c := fun z0 pack hpack c hc =>
    GenProp_mono hstd (gen_zigzag_gen r std z0 "scan" pack hpack c hc)
  intro c hc
  refine foldl_emitPacks_gen L _ hzz _ _ ?_ c hc
  refine foldl_emitPacks_gen L _ h32 _ _ ?_
  refine foldl_emitPacks_gen L _ h140 _ _ ?_
  refine foldl_emitPacks_gen L _ h3a _ _ ?_
  exact hst

theorem foldl_rectPatterns_gen (std big : List Item) (L : List Item)
    (hstd : ∀ x ∈ std, x ∈ L) (hbig : ∀ x ∈ big, x ∈ L) :
    ∀ (rects : List Rect) (st : List Candidate × Nat),
      (∀ c ∈ st.1, GenProp L c) →
      ∀ c ∈ (rects.foldl (rectPatterns std big) st).1, GenProp L c := by
  intro rects
  induction rects with
  | nil => intro st hst c hc; exact hst c hc
  | cons r rest ih =>
      intro st hst c hc
      simp only [List.foldl_cons] at hc
      exact ih (rectPatterns std big st r)
        (rectPatterns_gen std big L hstd hbig st r hst) c hc

theorem singleCandidates_gen (rects : List Rect) (it : Item) :
    ∀ c ∈ singleCandidates rects it,
      c.y = 0 ∧ c.aabb.minY = 0 ∧ c.itemId = it.id ∧ c.dy = it.height ∧
      c.aabb.maxY = it.height := by
  intro c hc
  unfold singleCandidates at hc
  try simp only [] at hc
  rcases List.mem_flatMap.mp hc with ⟨rot, hrot, hc⟩
  try simp only [] at hc
  rcases List.mem_flatMap.mp hc with ⟨r, hr, hc⟩
  by_cases h1 : (r.x1 - r.x0 + eps9 < if rot = 0 then it.width else it.length)
  · rw [if_pos h1] at hc; cases hc
  · rw [if_neg h1] at hc
    by_cases h2 : (r.z1 - r.z0 + eps9 < if rot = 0 then it.length else it.width)
    · rw [if_pos h2] at hc; cases hc
    · rw [if_neg h2] at hc
      rcases List.mem_map.mp hc with ⟨a, ha, rfl⟩
      refine ⟨rfl, ?_, rfl, rfl, ?_⟩ <;>
        simp [aabb_from_center]

theorem generate_floor_candidates_gen (fr : List Rect) (its : List Item) :
    ∀ c ∈ generate_floor_candidates fr its, GenProp its c := by
  intro c hc
  unfold generate_floor_candidates at hc
  simp only [] at hc
  rcases List.mem_append.mp hc with hc | hc
  · refine foldl_rectPatterns_gen _ _ its
      (fun x hx => List.mem_of_mem_filter hx)
      (fun x hx => List.mem_of_mem_filter hx) _ ([], 0) (by simp) c hc
  · rcases List.mem_flatMap.mp hc with ⟨it, hit, hc⟩
    rcases singleCandidates_gen _ it c hc with ⟨h1, h2, h3, h4, h5⟩
    exact ⟨h1, h2, it, hit, h3, h4, h5⟩

/-- C10 — Floor-only placement: every candidate the generator produces
(single or pattern member) sits at `y = 0`, its box bottom is at `0` and
its box top equals the generating unit's height; consequently every placed
unit of every finished plan rests directly on the floor (no unit is ever
stacked on another, regardless of `canBeStacked`). -/
theorem generator_floor_level_no_stacking :
    (∀ (fr : List Rect) (its : List Item),
      (generate_floor_candidates fr its).Forall (fun c =>
        c.y = 0 ∧ c.aabb.minY = 0 ∧
        ∃ it ∈ its, c.itemId = it.id ∧ c.dy = it.height ∧
          c.aabb.maxY = it.height)) ∧
    (∀ (s : Settings) (items : List Item) (v : Vehicle),
      ((pack s items v).placed).Forall
        (fun p => p.y = 0 ∧ p.aabb.minY = 0)) := by
  constructor
  · intro fr its
    rw [List.forall_iff_forall_mem]
    exact generate_floor_candidates_gen fr its
  · intro s items v
    rw [List.forall_iff_forall_mem]
    unfold pack
    apply packLoop_inv s (fun st => ∀ p ∈ st.placed, p.y = 0 ∧ p.aabb.minY = 0)
    · intro st rem
      constructor
      · intro st' hps hP
        rcases packStep_cases s st rem with ⟨_, _, hd⟩ | ⟨b, _, hn⟩ | ⟨_, b, _, hn⟩
        · rw [hps] at hd
          cases hd
          exact hP
        · rw [hps] at hn; cases hn
        · rw [hps] at hn; cases hn
      · intro st' rem' hps hP
        rcases packStep_cases s st rem with ⟨_, _, hd⟩ | ⟨b, hb, hn⟩ | ⟨_, b, hb, hn⟩
        · rw [hps] at hd; cases hd
        · rw [hps] at hn
          cases hn
          intro p hp
          rw [(foldl_commit_fields b.2.1 st).1] at hp
          rcases List.mem_append.mp hp with hp | hp
          · exact hP p hp
          · rcases List.mem_map.mp hp with ⟨c, hc, rfl⟩
            have hgrp := (bestPatternFold_some s st _ _ b hb).1
            have hc' := (groupPatternCandidates_groups _ _ hgrp).2 c hc
            rcases generate_floor_candidates_gen _ _ c hc' with ⟨h1, h2, _⟩
            exact ⟨h1, h2⟩
        · rw [hps] at hn
          cases hn
          intro p hp
          rw [commit_placed] at hp
          rcases List.mem_append.mp hp with hp | hp
          · exact hP p hp
          · rw [List.mem_singleton] at hp
            subst hp
            have hc' := (bestSingleFold_some s st _ b hb).1
            rcases generate_floor_candidates_gen _ _ b.1 hc' with ⟨h1, h2, _⟩
            exact ⟨h1, h2⟩
    · simp

/-! ### Selection rule and termination -/

theorem groupScore_isSome_iff (s : Settings) (st : PState)
    (group : List Candidate) :
    (groupScore s st group).isSome = true ↔
      (can_commit_group st group).1 = true ∧
      ∀ c ∈ group, (evaluate_candidate_policy s (findItem st.itemsAll c.itemId)
        c st.vehicle st.mode false).hard_reject_reasons.isEmpty = true := by
  unfold groupScore
  by_cases h1 : (can_commit_group st group).1 = true
  · rw [if_neg (not_not_intro h1)]
    by_cases h2 : (group.map (fun c =>
        evaluate_candidate_policy s (findItem st.itemsAll c.itemId) c st.vehicle
          st.mode false)).any (fun p => ¬p.hard_reject_reasons.isEmpty) = true
    · rw [if_pos h2]
      simp only [Option.isSome_none, Bool.false_eq_true, false_iff]
      intro hcon
      rcases List.any_eq_true.mp h2 with ⟨p, hp, hbad⟩
      rcases List.mem_map.mp hp with ⟨c, hc, rfl⟩
      have := hcon.2 c hc
      simp [this] at hbad
    · rw [if_neg h2]
      simp only [Option.isSome_some, true_iff]
      refine ⟨h1, ?_⟩
      intro c hc
      have h2' : (group.map (fun c =>
          evaluate_candidate_policy s (findItem st.itemsAll c.itemId) c
            st.vehicle st.mode false)).any
          (fun p => ¬p.hard_reject_reasons.isEmpty) = false := by
        cases hx : (group.map (fun c =>
            evaluate_candidate_policy s (findItem st.itemsAll c.itemId) c
              st.vehicle st.mode false)).any
            (fun p => ¬p.hard_reject_reasons.isEmpty)
        · rfl
        · exact absurd hx h2
      have := List.any_eq_false.mp h2'
        (evaluate_candidate_policy s (findItem st.itemsAll c.itemId) c
          st.vehicle st.mode false)
        (List.mem_map.mpr ⟨c, hc, rfl⟩)
      simpa using this
  · rw [if_pos h1]
    simp only [Option.isSome_none, Bool.false_eq_true, false_iff]
    intro hcon
    exact h1 hcon.1

theorem bestPatternStep_isSome_preserved (s : Settings) (st : PState)
    (rem_ids : List String) (acc : Option (String × List Candidate × (Int × ℚ × ℚ × ℚ × ℚ)))
    (g : String × List Candidate) (h : acc.isSome = true) :
    (bestPatternStep s st rem_ids acc g).isSome = true := by
  rcases bestPatternStep_cases s st rem_ids acc g with hc | ⟨sc, hc, _, _⟩
  · rw [hc]; exact h
  · rw [hc]; rfl

theorem bestPatternStep_feasible_isSome (s : Settings) (st : PState)
    (rem_ids : List String) (acc : Option (String × List Candidate × (Int × ℚ × ℚ × ℚ × ℚ)))
    (g : String × List Candidate) (hfeas : FeasibleGroup s st rem_ids g) :
    (bestPatternStep s st rem_ids acc g).isSome = true := by
  rcases hfeas with ⟨havail, hcommit, hpol⟩
  unfold bestPatternStep
  have hany : g.2.any (fun c => !(rem_ids.contains c.itemId)) = false := by
    rw [List.any_eq_false]
    intro c hc
    simp only [havail c hc, Bool.not_true]
    exact Bool.false_ne_true
  rw [if_neg (by rw [hany]; exact Bool.false_ne_true)]
  have hscore : (groupScore s st g.2).isSome = true :=
    (groupScore_isSome_iff s st g.2).mpr ⟨hcommit, hpol⟩
  rcases Option.isSome_iff_exists.mp hscore with ⟨sc, hsc⟩
  rw [hsc]
  rcases acc with _ | b
  · rfl
  · cases hgt : score5Gt sc b.2.2 <;> simp [hgt]

theorem bestPatternFoldl_isSome_preserved (s : Settings) (st : PState)
    (rem_ids : List String) :
    ∀ (l : List (String × List Candidate))
      (acc : Option (String × List Candidate × (Int × ℚ × ℚ × ℚ × ℚ))),
      acc.isSome = true →
      (l.foldl (bestPatternStep s st rem_ids) acc).isSome = true := by
  intro l
  induction l with
  | nil => intro acc h; exact h
  | cons x rest ih =>
      intro acc h
      rw [List.foldl_cons]
      exact ih _ (bestPatternStep_isSome_preserved s st rem_ids acc x h)

theorem bestPatternFold_isSome_of_feasible (s : Settings) (st : PState)
    (rem_ids : List String) (groups : List (String × List Candidate))
    (g : String × List Candidate) (hg : g ∈ groups)
    (hfeas : FeasibleGroup s st rem_ids g) :
    (bestPatternFold s st rem_ids groups).isSome = true := by
  rcases List.append_of_mem hg with ⟨l₁, l₂, hsplit⟩
  rw [hsplit]
  unfold bestPatternFold
  rw [List.foldl_append, List.foldl_cons]
  exact bestPatternFoldl_isSome_preserved s st rem_ids l₂ _
    (bestPatternStep_feasible_isSome s st rem_ids _ g hfeas)

theorem bestSingleStep_isSome_preserved (s : Settings) (st : PState)
    (acc : Option (Candidate × (Int × ℚ × ℚ × ℚ))) (c : Candidate)
    (h : acc.isSome = true) : (bestSingleStep s st acc c).isSome = true := by
  rcases bestSingleStep_cases s st acc c with hc | ⟨sc, hc, _, _⟩
  · rw [hc]; exact h
  · rw [hc]; rfl

theorem bestSingleStep_feasible_isSome (s : Settings) (st : PState)
    (acc : Option (Candidate × (Int × ℚ × ℚ × ℚ))) (c : Candidate)
    (hfeas : FeasibleSingle s st c) :
    (bestSingleStep s st acc c).isSome = true := by
  rcases hfeas with ⟨hpid, hcp, hpol⟩
  unfold bestSingleStep
  rw [if_neg (by simp [hpid])]
  rw [if_neg (not_not_intro hcp)]
  rw [if_neg (not_not_intro hpol)]
  rcases acc with _ | b
  · rfl
  · cases hgt : score4Gt (apply_policy_to_score s (score_candidate st c st.mode)
        (evaluate_candidate_policy s (findItem st.itemsAll c.itemId) c st.vehicle
          st.mode false)) b.2 <;> simp [hgt]

theorem bestSingleFoldl_isSome_preserved (s : Settings) (st : PState) :
    ∀ (l : List Candidate) (acc : Option (Candidate × (Int × ℚ × ℚ × ℚ))),
      acc.isSome = true →
      (l.foldl (bestSingleStep s st) acc).isSome = true := by
  intro l
  induction l with
  | nil => intro acc h; exact h
  | cons x rest ih =>
      intro acc h
      rw [List.foldl_cons]
      exact ih _ (bestSingleStep_isSome_preserved s st acc x h)

theorem bestSingleFold_isSome_of_feasible (s : Settings) (st : PState)
    (cands : List Candidate) (c : Candidate) (hc : c ∈ cands)
    (hfeas : FeasibleSingle s st c) :
    (bestSingleFold s st cands).isSome = true := by
  rcases List.append_of_mem hc with ⟨l₁, l₂, hsplit⟩
  rw [hsplit]
  unfold bestSingleFold
  rw [List.foldl_append, List.foldl_cons]
  exact bestSingleFoldl_isSome_preserved s st l₂ _
    (bestSingleStep_feasible_isSome s st _ c hfeas)

/-- Strengthening of the single-selection step cases: a newly adopted
candidate is fully feasible (no pattern id, placeable, no policy hard
reject). -/
theorem bestSingleStep_cases_feas (s : Settings) (st : PState)
    (acc : Option (Candidate × (Int × ℚ × ℚ × ℚ))) (c : Candidate) :
    bestSingleStep s st acc c = acc ∨
      (∃ sc, bestSingleStep s st acc c = some (c, sc) ∧
        FeasibleSingle s st c) := by
  unfold bestSingleStep
  by_cases h1 : c.meta.patternId.isSome = true
  · left; rw [if_pos h1]
  · have h1' : c.meta.patternId = none := Option.not_isSome_iff_eq_none.mp h1
    rw [if_neg h1]
    by_cases h2 : (can_place st c).1 = true
    · rw [if_neg (not_not_intro h2)]
      by_cases h3 : (evaluate_candidate_policy s (findItem st.itemsAll c.itemId) c
          st.vehicle st.mode false).hard_reject_reasons.isEmpty = true
      · rw [if_neg (not_not_intro h3)]
        rcases acc with _ | b
        · right
          exact ⟨_, rfl, h1', h2, h3⟩
        · by_cases hgt : score4Gt (apply_policy_to_score s
              (score_candidate st c st.mode)
              (evaluate_candidate_policy s (findItem st.itemsAll c.itemId) c
                st.vehicle st.mode false)) b.2 = true
          · right
            refine ⟨apply_policy_to_score s (score_candidate st c st.mode)
              (evaluate_candidate_policy s (findItem st.itemsAll c.itemId) c
                st.vehicle st.mode false), ?_, h1', h2, h3⟩
            show (if score4Gt (apply_policy_to_score s (score_candidate st c st.mode)
                (evaluate_candidate_policy s (findItem st.itemsAll c.itemId) c
                  st.vehicle st.mode false)) b.2 = true then _ else _) = _
            rw [if_pos hgt]
          · left
            show (if score4Gt (apply_policy_to_score s (score_candidate st c st.mode)
                (evaluate_candidate_policy s (findItem st.itemsAll c.itemId) c
                  st.vehicle st.mode false)) b.2 = true then _ else _) = _
            rw [if_neg hgt]
      · left; rw [if_pos h3]
    · left; rw [if_pos h2]

/-- A winner of the single-selection fold is a candidate of the input list
and is fully feasible. -/
theorem bestSingleFold_some_feasible (s : Settings) (st : PState)
    (cands : List Candidate) (b : Candidate × (Int × ℚ × ℚ × ℚ)) :
    bestSingleFold s st cands = some b →
      b.1 ∈ cands ∧ FeasibleSingle s st b.1 := by
  have aux : ∀ (cs : List Candidate) (acc : Option (Candidate × (Int × ℚ × ℚ × ℚ))),
      (∀ b', acc = some b' → b'.1 ∈ cands ∧ FeasibleSingle s st b'.1) →
      (∀ c ∈ cs, c ∈ cands) →
      ∀ b', cs.foldl (bestSingleStep s st) acc = some b' →
        b'.1 ∈ cands ∧ FeasibleSingle s st b'.1 := by
    intro cs
    induction cs with
    | nil => intro acc hacc _ b' hb'; exact hacc b' hb'
    | cons c rest ih =>
        intro acc hacc hsub b' hb'
        simp only [List.foldl_cons] at hb'
        refine ih (bestSingleStep s st acc c) ?_
          (fun x hx => hsub x (by simp [hx])) b' hb'
        intro b'' hb''
        rcases bestSingleStep_cases_feas s st acc c with hc | ⟨sc, hc, hfeas⟩
        · exact hacc b'' (hc ▸ hb'')
        · rw [hc] at hb''
          cases hb''
          exact ⟨hsub c (by simp), hfeas⟩
  intro h
  exact aux cands none (by intro b' h'; cases h') (fun c hc => hc) b h

/-- Every `.next` outcome of one packer iteration strictly shrinks the
remaining queue. -/
theorem packStep_next_shrink (s : Settings) (st : PState) (rem : List Item)
    (st' : PState) (rem' : List Item)
    (h : packStep s st rem = .next st' rem') : rem'.length < rem.length := by
  rcases packStep_cases s st rem with ⟨_, _, hd⟩ | ⟨b, hb, hn⟩ | ⟨_, b, hb, hn⟩
  · rw [h] at hd; cases hd
  · rw [h] at hn
    injection hn with _ hrem
    subst hrem
    rcases bestPatternFold_some s st _ _ b hb with ⟨hgrp, havail, _⟩
    have hne := (groupPatternCandidates_groups _ _ hgrp).1
    rcases List.exists_mem_of_ne_nil _ hne with ⟨c₀, hc₀⟩
    have hmem := havail c₀ hc₀
    have : c₀.itemId ∈ rem.map (fun it => it.id) := by
      simpa using hmem
    rcases List.mem_map.mp this with ⟨it, hit, hid⟩
    rw [List.length_filter_lt_length_iff_exists]
    refine ⟨it, hit, ?_⟩
    have hany : b.2.1.any (fun c => decide (c.itemId = it.id)) = true :=
      List.any_eq_true.mpr ⟨c₀, hc₀, by simp [hid]⟩
    simp [hany]
  · rw [h] at hn
    injection hn with _ hrem
    subst hrem
    have hcand := (bestSingleFold_some s st _ b hb).1
    rcases generate_floor_candidates_gen _ _ b.1 hcand with ⟨_, _, it, hit, hid, _⟩
    have hit' : it ∈ rem := List.take_subset _ _ hit
    rw [List.length_filter_lt_length_iff_exists]
    refine ⟨it, hit', ?_⟩
    simp [hid]

/-- Step equation of the packer loop at positive fuel. -/
theorem packLoop_succ (s : Settings) (n : Nat) (st : PState)
    (rem : List Item) :
    packLoop s (n + 1) st rem =
      if rem.isEmpty then st
      else
        match packStep s st rem with
        | .done st' => st'
        | .next st' rem' => packLoop s n st' rem' := rfl

/-- Fuel-insensitivity of the packer loop above the natural bound: any two
sufficient fuel amounts give the same result, since every `.next` step
strictly shrinks the queue. -/
theorem packLoop_ge (s : Settings) :
    ∀ (n f₁ f₂ : Nat) (rem : List Item) (st : PState),
      rem.length < f₁ → rem.length < f₂ → rem.length ≤ n →
        packLoop s f₁ st rem = packLoop s f₂ st rem := by
  intro n
  induction n with
  | zero =>
      intro f₁ f₂ rem st h1 h2 hn
      have hnil : rem = [] := List.length_eq_zero.mp (Nat.le_zero.mp hn)
      subst hnil
      cases f₁ with
      | zero => exact absurd h1 (by omega)
      | succ k₁ =>
          cases f₂ with
          | zero => exact absurd h2 (by omega)
          | succ k₂ =>
              rw [packLoop_succ, packLoop_succ]
              simp
  | succ n ih =>
      intro f₁ f₂ rem st h1 h2 hn
      cases f₁ with
      | zero => exact absurd h1 (by omega)
      | succ k₁ =>
          cases f₂ with
          | zero => exact absurd h2 (by omega)
          | succ k₂ =>
              rw [packLoop_succ, packLoop_succ]
              by_cases hr : rem.isEmpty = true
              · rw [if_pos hr, if_pos hr]
              · rw [if_neg hr, if_neg hr]
                cases hps : packStep s st rem with
                | done st' => rfl
                | next st' rem' =>
                    have hlt : rem'.length < rem.length :=
                      packStep_next_shrink s st rem st' rem' hps
                    show packLoop s k₁ st' rem' = packLoop s k₂ st' rem'
                    exact ih k₁ k₂ rem' st' (by omega) (by omega) (by omega)

/-- Extra fuel beyond the `remaining.length + 1` that `pack` supplies
changes nothing: the loop always reaches its natural termination. -/
theorem packLoop_fuel_indep (s : Settings) (rem : List Item) (st : PState)
    (extra : Nat) :
    packLoop s (rem.length + 1 + extra) st rem =
      packLoop s (rem.length + 1) st rem :=
  packLoop_ge s rem.length _ _ rem st (by omega) (by omega) (le_refl _)

/-- C5 — Monotonic queue shrink and termination: every packer-loop
iteration either terminates the loop or strictly decreases the
remaining-unit count, and consequently the loop is insensitive to any fuel
beyond the natural bound `remaining.length + 1` that `pack` supplies — the
loop always reaches its natural end for every finite input list. -/
theorem packer_queue_shrinks_and_terminates :
    (∀ (s : Settings) (st : PState) (rem : List Item),
      (∃ st', packStep s st rem = .done st') ∨
      (∃ st' rem', packStep s st rem = .next st' rem' ∧
        rem'.length < rem.length)) ∧
    (∀ (s : Settings) (st : PState) (rem : List Item) (extra : Nat),
      packLoop s (rem.length + 1 + extra) st rem =
        packLoop s (rem.length + 1) st rem) := by
  constructor
  · intro s st rem
    cases hps : packStep s st rem with
    | done st' => exact Or.inl ⟨st', rfl⟩
    | next st' rem' =>
        exact Or.inr ⟨st', rem', rfl, packStep_next_shrink s st rem st' rem' hps⟩
  · intro s st rem extra
    exact packLoop_fuel_indep s rem st extra

/-- C4 — Pattern atomicity: in every packer iteration the placed set
either stays unchanged (terminal iteration), or grows by *all* members of
one pattern group of this iteration at once, or grows by exactly one
non-pattern (single) candidate — a pattern group is never partially
committed. -/
theorem pattern_commit_is_atomic (s : Settings) (st : PState)
    (remaining : List Item) :
    (∃ st', packStep s st remaining = .done st' ∧ st'.placed = st.placed) ∨
    (∃ pid group, (pid, group) ∈ groupPatternCandidates
        (generate_floor_candidates st.free_rects
          (remaining.take s.TOP_N_WINDOW)) ∧
      ∃ st' rem', packStep s st remaining = .next st' rem' ∧
        st'.placed = st.placed ++ group.map
          (fun c => placed_from_candidate c (findItem st.itemsAll c.itemId))) ∨
    (∃ c, c ∈ generate_floor_candidates st.free_rects
        (remaining.take s.TOP_N_WINDOW) ∧ c.meta.patternId = none ∧
      ∃ st' rem', packStep s st remaining = .next st' rem' ∧
        st'.placed = st.placed ++
          [placed_from_candidate c (findItem st.itemsAll c.itemId)]) := by
  rcases packStep_cases s st remaining with ⟨_, _, hd⟩ | ⟨b, hb, hn⟩ | ⟨_, b, hb, hn⟩
  · exact Or.inl ⟨_, hd, rfl⟩
  · refine Or.inr (Or.inl ⟨b.1, b.2.1, ?_, _, _, hn, ?_⟩)
    · exact (bestPatternFold_some s st _ _ b hb).1
    · exact (foldl_commit_fields b.2.1 st).1
  · refine Or.inr (Or.inr ⟨b.1, ?_, ?_, _, _, hn, ?_⟩)
    · exact (bestSingleFold_some s st _ b hb).1
    · exact (bestSingleFold_some s st _ b hb).2.1
    · exact commit_placed st b.1

/-- C3 — Selection rule: in every packer iteration, when a feasible
pattern group exists the (best) pattern group is committed in full,
regardless of any single candidate's score; the best feasible single is
committed only when no feasible pattern group exists; and when neither a
feasible group nor a feasible single exists, every remaining unit is
marked unplaced and the loop stops. -/
theorem packer_selection_rule (s : Settings) (st : PState)
    (remaining : List Item) :
    (∃ b, bestPatternFold s st (remaining.map (fun it => it.id))
        (groupPatternCandidates (generate_floor_candidates st.free_rects
          (remaining.take s.TOP_N_WINDOW))) = some b ∧
      FeasibleGroup s st (remaining.map (fun it => it.id)) (b.1, b.2.1) ∧
      packStep s st remaining = .next (b.2.1.foldl commit st)
        (remaining.filter (fun it => ¬b.2.1.any (fun c => c.itemId = it.id))) ∧
      (b.2.1.foldl commit st).placed = st.placed ++ b.2.1.map
        (fun c => placed_from_candidate c (findItem st.itemsAll c.itemId))) ∨
    ((¬∃ g ∈ groupPatternCandidates (generate_floor_candidates st.free_rects
        (remaining.take s.TOP_N_WINDOW)),
        FeasibleGroup s st (remaining.map (fun it => it.id)) g) ∧
      ∃ b, bestSingleFold s st (generate_floor_candidates st.free_rects
          (remaining.take s.TOP_N_WINDOW)) = some b ∧
        FeasibleSingle s st b.1 ∧
        packStep s st remaining = .next (commit st b.1)
          (remaining.filter (fun it => it.id ≠ b.1.itemId))) ∨
    ((¬∃ g ∈ groupPatternCandidates (generate_floor_candidates st.free_rects
        (remaining.take s.TOP_N_WINDOW)),
        FeasibleGroup s st (remaining.map (fun it => it.id)) g) ∧
      (¬∃ c ∈ generate_floor_candidates st.free_rects
        (remaining.take s.TOP_N_WINDOW), FeasibleSingle s st c) ∧
      packStep s st remaining = .done { st with
        unplaced := st.unplaced ++
          remaining.map (fun it => { it with status := .unplaced }) }) := by
  have hno_pat : bestPatternFold s st (remaining.map (fun it => it.id))
      (groupPatternCandidates (generate_floor_candidates st.free_rects
        (remaining.take s.TOP_N_WINDOW))) = none →
      ¬∃ g ∈ groupPatternCandidates (generate_floor_candidates st.free_rects
        (remaining.take s.TOP_N_WINDOW)),
        FeasibleGroup s st (remaining.map (fun it => it.id)) g := by
    intro hnone ⟨g, hg, hfeas⟩
    have := bestPatternFold_isSome_of_feasible s st _ _ g hg hfeas
    rw [hnone] at this
    cases this
  have hno_single : bestSingleFold s st (generate_floor_candidates st.free_rects
      (remaining.take s.TOP_N_WINDOW)) = none →
      ¬∃ c ∈ generate_floor_candidates st.free_rects
        (remaining.take s.TOP_N_WINDOW), FeasibleSingle s st c := by
    intro hnone ⟨c, hc, hfeas⟩
    have := bestSingleFold_isSome_of_feasible s st _ c hc hfeas
    rw [hnone] at this
    cases this
  rcases packStep_cases s st remaining with ⟨hp, hs, hd⟩ | ⟨b, hb, hn⟩ | ⟨hp, b, hb, hn⟩
  · exact Or.inr (Or.inr ⟨hno_pat hp, hno_single hs, hd⟩)
  · refine Or.inl ⟨b, hb, ?_, hn, (foldl_commit_fields b.2.1 st).1⟩
    rcases bestPatternFold_some s st _ _ b hb with ⟨_, havail, hscore⟩
    have hiff := (groupScore_isSome_iff s st b.2.1).mp (by rw [hscore]; rfl)
    exact ⟨havail, hiff.1, hiff.2⟩
  · exact Or.inr (Or.inl ⟨hno_pat hp, b, hb,
      (bestSingleFold_some_feasible s st _ b hb).2, hn⟩)

/-- `detect_mode` on a non-empty list, written over `mode_pressures`. -/
theorem detect_mode_nonempty (s : Settings) (items : List Item) (v : Vehicle)
    (h : items.isEmpty = false) :
    detect_mode s items v =
      if (mode_pressures s items v).1 ≥ s.MODE_PRESSURE_THRESHOLD ∧
          (mode_pressures s items v).2.1 < s.MODE_PRESSURE_THRESHOLD then
        ⟨"weight", (mode_pressures s items v).1, (mode_pressures s items v).2.1,
          (mode_pressures s items v).2.2, none⟩
      else if (mode_pressures s items v).2.1 ≥ s.MODE_PRESSURE_THRESHOLD ∧
          (mode_pressures s items v).1 < s.MODE_PRESSURE_THRESHOLD then
        ⟨"volume", (mode_pressures s items v).1, (mode_pressures s items v).2.1,
          (mode_pressures s items v).2.2, none⟩
      else
        ⟨"mixed", (mode_pressures s items v).1, (mode_pressures s items v).2.1,
          (mode_pressures s items v).2.2,
          some (qmin (4/5) (qmax (1/5)
            (((mode_pressures s items v).1 - (mode_pressures s items v).2.1 + 1)
              / 2)))⟩ := by
  unfold detect_mode
  rw [if_neg (by simp [h])]
  rfl

/-- C6 counterexample — the threshold comparison is inclusive, not
strict: with weight pressure exactly equal to the configured threshold
(so not strictly exceeding it) and floor pressure below it, `detect_mode`
already answers `"weight"` rather than `"mixed"`; the code compares with
`>=`, not `>`. -/
theorem detect_mode_strict_exceeds_counterexample :
    (mode_pressures modeCexS modeCexItems modeCexV).1 =
        modeCexS.MODE_PRESSURE_THRESHOLD ∧
    ¬((mode_pressures modeCexS modeCexItems modeCexV).1 >
        modeCexS.MODE_PRESSURE_THRESHOLD) ∧
    (mode_pressures modeCexS modeCexItems modeCexV).2.1 <
        modeCexS.MODE_PRESSURE_THRESHOLD ∧
    (detect_mode modeCexS modeCexItems modeCexV).mode = "weight" := by
  with_unfolding_all decide

/-- C6 — Mode detection (amended: the pressure comparisons are inclusive,
`≥ threshold`, rather than strict): an empty unit list yields mode
`"mixed"` with all pressures 0 and alpha 1/2; on a non-empty list the
mode is `"weight"` exactly when weight pressure is at or above the
threshold while floor pressure is below it, `"volume"` exactly when floor
pressure is at or above the threshold while weight pressure is below it,
and otherwise `"mixed"` with alpha `(weight_pressure − floor_pressure +
1)/2` clamped to `[1/5, 4/5]`. -/
theorem detect_mode_characterization (s : Settings) (items : List Item)
    (v : Vehicle) :
    (items = [] → detect_mode s items v = ⟨"mixed", 0, 0, 0, some (1/2)⟩) ∧
    (items ≠ [] →
      ((detect_mode s items v =
          ⟨"weight", (mode_pressures s items v).1, (mode_pressures s items v).2.1,
            (mode_pressures s items v).2.2, none⟩ ↔
        (mode_pressures s items v).1 ≥ s.MODE_PRESSURE_THRESHOLD ∧
        (mode_pressures s items v).2.1 < s.MODE_PRESSURE_THRESHOLD) ∧
      (detect_mode s items v =
          ⟨"volume", (mode_pressures s items v).1, (mode_pressures s items v).2.1,
            (mode_pressures s items v).2.2, none⟩ ↔
        (mode_pressures s items v).2.1 ≥ s.MODE_PRESSURE_THRESHOLD ∧
        (mode_pressures s items v).1 < s.MODE_PRESSURE_THRESHOLD) ∧
      (¬((mode_pressures s items v).1 ≥ s.MODE_PRESSURE_THRESHOLD ∧
          (mode_pressures s items v).2.1 < s.MODE_PRESSURE_THRESHOLD) →
        ¬((mode_pressures s items v).2.1 ≥ s.MODE_PRESSURE_THRESHOLD ∧
          (mode_pressures s items v).1 < s.MODE_PRESSURE_THRESHOLD) →
        detect_mode s items v =
          ⟨"mixed", (mode_pressures s items v).1, (mode_pressures s items v).2.1,
            (mode_pressures s items v).2.2,
            some (qmin (4/5) (qmax (1/5)
              (((mode_pressures s items v).1 -
                (mode_pressures s items v).2.1 + 1) / 2)))⟩))) := by
  constructor
  · intro h; subst h; rfl
  · intro hne
    have hie : items.isEmpty = false := by
      cases items with
      | nil => exact absurd rfl hne
      | cons a l => rfl
    rw [detect_mode_nonempty s items v hie]
    by_cases h1 : (mode_pressures s items v).1 ≥ s.MODE_PRESSURE_THRESHOLD ∧
        (mode_pressures s items v).2.1 < s.MODE_PRESSURE_THRESHOLD
    · rw [if_pos h1]
      refine ⟨⟨fun _ => h1, fun _ => rfl⟩, ?_, ?_⟩
      · constructor
        · intro heq
          exact absurd (congrArg ModeDecision.mode heq)
              (show ¬("weight" : String) = "volume" by decide)
        · intro hc
          exact absurd h1.1 (not_le.mpr hc.2)
      · intro hn1 _
        exact absurd h1 hn1
    · rw [if_neg h1]
      by_cases h2 : (mode_pressures s items v).2.1 ≥ s.MODE_PRESSURE_THRESHOLD ∧
          (mode_pressures s items v).1 < s.MODE_PRESSURE_THRESHOLD
      · rw [if_pos h2]
        refine ⟨?_, ⟨fun _ => h2, fun _ => rfl⟩, ?_⟩
        · constructor
          · intro heq
            exact absurd (congrArg ModeDecision.mode heq)
              (show ¬("volume" : String) = "weight" by decide)
          · intro hc
            exact absurd hc h1
        · intro _ hn2
          exact absurd h2 hn2
      · rw [if_neg h2]
        refine ⟨?_, ?_, fun _ _ => rfl⟩
        · constructor
          · intro heq
            exact absurd (congrArg ModeDecision.mode heq)
              (show ¬("mixed" : String) = "weight" by decide)
          · intro hc
            exact absurd hc h1
        · constructor
          · intro heq
            exact absurd (congrArg ModeDecision.mode heq)
              (show ¬("mixed" : String) = "volume" by decide)
          · intro hc
            exact absurd hc h2

/-- Closed instantiation of the mode-detection characterization at the
boundary configuration. -/
theorem detect_mode_characterization_witness :
    modeCexItems ≠ ([] : List Item) ∧
    detect_mode modeCexS modeCexItems modeCexV =
      ⟨"weight", (mode_pressures modeCexS modeCexItems modeCexV).1,
        (mode_pressures modeCexS modeCexItems modeCexV).2.1,
        (mode_pressures modeCexS modeCexItems modeCexV).2.2, none⟩ := by
  have hne : modeCexItems ≠ ([] : List Item) := by
    with_unfolding_all decide
  refine ⟨hne, ?_⟩
  have h := ((detect_mode_characterization modeCexS modeCexItems modeCexV).2 hne).1
  exact h.mpr (by with_unfolding_all decide)

/-- The running payload total of `compute_loads` as a mapped sum. -/
theorem foldl_wsum (l : List PlacedItem) : ∀ init : ℚ,
    l.foldl (fun acc p => acc + p.item.weight) init =
      init + (l.map (fun p => p.item.weight)).sum := by
  induction l with
  | nil => intro init; simp
  | cons p rest ih =>
      intro init
      rw [List.foldl_cons, ih]
      simp [add_assoc]

/-- The axle-apportionment fold of `compute_loads` as a pair of mapped
sums. -/
theorem axle_fold_eq (a span L : ℚ) (l : List PlacedItem) : ∀ init : ℚ × ℚ,
    l.foldl (fun acc p =>
      (acc.1 + (p.item.weight - p.item.weight * (p.z - -(L / 2) - a) / span),
       acc.2 + p.item.weight * (p.z - -(L / 2) - a) / span)) init =
    (init.1 + (l.map (fun p =>
        p.item.weight - p.item.weight * (p.z - -(L / 2) - a) / span)).sum,
     init.2 + (l.map (fun p =>
        p.item.weight * (p.z - -(L / 2) - a) / span)).sum) := by
  induction l with
  | nil => intro init; simp
  | cons p rest ih =>
      intro init
      rw [List.foldl_cons, ih]
      simp [add_assoc]

/-- `payload_kg` is the weight sum in every branch of `compute_loads`. -/
theorem compute_loads_payload (placed : List PlacedItem) (v : Vehicle) :
    (compute_loads placed v).payload_kg =
      (placed.map (fun p => p.item.weight)).sum := by
  have hs : placed.foldl (fun acc p => acc + p.item.weight) 0 =
      (placed.map (fun p => p.item.weight)).sum := by
    rw [foldl_wsum]; exact zero_add _
  unfold compute_loads
  cases hA : v.axleAPosFromHeadM with
  | none => simpa using hs
  | some a_pos =>
      cases hB : v.axleBPosFromHeadM with
      | none => simpa using hs
      | some b_pos =>
          simp only []
          split_ifs <;> simpa using hs

set_option maxRecDepth 100000 in
/-- C7 counterexample — both axle positions configured, yet `compute_loads`
reports zero on both axles: the code additionally degrades to payload-only
tracking when the two positions are closer than 1e-9 m, while the
lever-arm formula would put a non-zero share on axle B. -/
theorem compute_loads_degenerate_span_counterexample :
    axleCexV.axleAPosFromHeadM = some 1 ∧
    axleCexV.axleBPosFromHeadM = some (1 + 1/10000000000) ∧
    (compute_loads [axleCexP] axleCexV).axleA_kg = 0 ∧
    (compute_loads [axleCexP] axleCexV).axleB_kg = 0 ∧
    ([axleCexP].map (fun p => p.item.weight *
      ((p.z + axleCexV.innerLength / 2) - 1) /
        ((1 + 1/10000000000) - 1))).sum ≠ 0 := by
  refine ⟨rfl, rfl, ?_, ?_, ?_⟩
  · with_unfolding_all decide
  · with_unfolding_all decide
  · with_unfolding_all decide

/-- C7 — Load computation (amended: the two-axle lever rule additionally
requires the configured positions to differ by at least 1e-9 m; a closer
or missing pair tracks only total payload, with both axle shares 0):
payload is always the sum of placed weights; with axle positions `a_pos`,
`b_pos` at least 1e-9 m apart, axle B carries the sum of
`w·((z + L/2) − a_pos)/(b_pos − a_pos)` over placed units and axle A the
sum of the remainders. -/
theorem compute_loads_characterization (placed : List PlacedItem)
    (v : Vehicle) :
    (compute_loads placed v).payload_kg =
      (placed.map (fun p => p.item.weight)).sum ∧
    ((v.axleAPosFromHeadM = none ∨ v.axleBPosFromHeadM = none) →
      (compute_loads placed v).axleA_kg = 0 ∧
      (compute_loads placed v).axleB_kg = 0) ∧
    (∀ a_pos b_pos, v.axleAPosFromHeadM = some a_pos →
      v.axleBPosFromHeadM = some b_pos →
      (qabs (b_pos - a_pos) < 1/1000000000 →
        (compute_loads placed v).axleA_kg = 0 ∧
        (compute_loads placed v).axleB_kg = 0) ∧
      (qabs (b_pos - a_pos) ≥ 1/1000000000 →
        (compute_loads placed v).axleB_kg = (placed.map (fun p =>
          p.item.weight * ((p.z + v.innerLength / 2) - a_pos) /
            (b_pos - a_pos))).sum ∧
        (compute_loads placed v).axleA_kg = (placed.map (fun p =>
          p.item.weight - p.item.weight * ((p.z + v.innerLength / 2) - a_pos) /
            (b_pos - a_pos))).sum)) := by
  refine ⟨compute_loads_payload placed v, ?_, ?_⟩
  · intro hnone
    unfold compute_loads
    rcases hnone with h | h <;> rw [h]
    · exact ⟨rfl, rfl⟩
    · cases v.axleAPosFromHeadM <;> exact ⟨rfl, rfl⟩
  · intro a_pos b_pos hA hB
    constructor
    · intro hlt
      unfold compute_loads
      rw [hA, hB]
      simp only []
      rw [if_pos hlt]
      exact ⟨rfl, rfl⟩
    · intro hge
      unfold compute_loads
      rw [hA, hB]
      simp only []
      rw [if_neg (not_lt.mpr hge)]
      simp only []
      rw [axle_fold_eq a_pos (b_pos - a_pos) v.innerLength placed ((0 : ℚ), (0 : ℚ))]
      constructor
      · simp [sub_neg_eq_add]
      · simp [sub_neg_eq_add]

/-- Closed instantiation of the load-computation characterization at the
well-separated two-axle vehicle. -/
theorem compute_loads_characterization_witness :
    qabs ((9 : ℚ) - 1) ≥ 1/1000000000 ∧
    (compute_loads [axleCexP] axleWitV).axleB_kg = ([axleCexP].map (fun p =>
      p.item.weight * ((p.z + axleWitV.innerLength / 2) - 1) /
        (9 - 1))).sum := by
  refine ⟨by with_unfolding_all decide, ?_⟩
  exact (((compute_loads_characterization [axleCexP] axleWitV).2.2 1 9 rfl
    rfl).2 (by with_unfolding_all decide)).1

set_option maxRecDepth 100000 in
/-- C8 — Load gate: a candidate that passes the bounds and collision gates
is rejected by `can_place` exactly when the loads recomputed with it
exceed the configured payload or a configured per-axle limit beyond the
1e-9 tolerance; and in the two-unit scenario whose combined weight
exceeds the payload limit, the first unit commits and remains placed
while the second ends unplaced — the rejection alters nothing. -/
theorem load_gate_characterization :
    (∀ (st : PState) (c : Candidate),
      oob_check c.aabb st.vehicle = false →
      collides_with_any c.aabb st.placed = false →
      ((can_place st c).1 = false ↔
        LoadsExceed (compute_loads (st.placed ++
            [placed_from_candidate c (findItem st.itemsAll c.itemId)])
          st.vehicle) st.vehicle)) ∧
    ((pack loadScenS [loadScenItA, loadScenItB] loadScenV).placed.map
        (fun p => p.item.id) = ["a"] ∧
     (pack loadScenS [loadScenItA, loadScenItB] loadScenV).unplaced.map
        (fun it => it.id) = ["b"]) := by
  constructor
  · intro st c h1 h2
    have key : can_place st c =
        (if ¬(check_loads (compute_loads (st.placed ++
            [placed_from_candidate c (findItem st.itemsAll c.itemId)])
            st.vehicle) st.vehicle).1 = true then
          (false, (check_loads (compute_loads (st.placed ++
            [placed_from_candidate c (findItem st.itemsAll c.itemId)])
            st.vehicle) st.vehicle).2)
        else (true, [])) := by
      unfold can_place check_oob check_collision
      rw [h1, h2]
      simp
    rw [key]
    cases hr : (check_loads (compute_loads (st.placed ++
        [placed_from_candidate c (findItem st.itemsAll c.itemId)])
        st.vehicle) st.vehicle).1
    · have hex := (check_loads_fst_false_iff _ _).mp hr
      simp [hex]
    · have hnex := (check_loads_fst_true_iff _ _).mp hr
      simp [hnex]
  · with_unfolding_all decide

/-- Closed instantiation of the load-gate characterization: unit `b`'s
candidate is rejected in the state already holding unit `a`. -/
theorem load_gate_characterization_witness :
    oob_check loadGateCandB.aabb loadGateSt.vehicle = false ∧
    collides_with_any loadGateCandB.aabb loadGateSt.placed = false ∧
    (can_place loadGateSt loadGateCandB).1 = false := by
  refine ⟨by with_unfolding_all decide, by with_unfolding_all decide, ?_⟩
  refine (load_gate_characterization.1 loadGateSt loadGateCandB
    (by with_unfolding_all decide) (by with_unfolding_all decide)).mpr ?_
  exact Or.inl ⟨1000, rfl, by with_unfolding_all decide⟩

/-- Two distinct millimetre-grid values are at least 1/1000 apart. -/
theorem grid_gap_le (a b : ℚ) (ha : onGrid a) (hb : onGrid b) (h : b < a) :
    b + 1/1000 ≤ a := by
  obtain ⟨m, hm⟩ := ha
  obtain ⟨n, hn⟩ := hb
  have hlt : (n : ℚ) < (m : ℚ) := by
    rw [← hm, ← hn]
    exact mul_lt_mul_of_pos_right h (by norm_num)
  have hle : (n : ℚ) + 1 ≤ (m : ℚ) := by
    exact_mod_cast Int.add_one_le_iff.mpr (by exact_mod_cast hlt)
  have h2 : b * 1000 + 1 ≤ a * 1000 := by rw [hm, hn]; linarith
  linarith

/-- On the grid, a comparison slackened by less than the grid pitch is
exact. -/
theorem grid_le_collapse (a b e : ℚ) (ha : onGrid a) (hb : onGrid b)
    (he2 : e < 1/1000) (h : a ≤ b + e) : a ≤ b := by
  by_contra hc
  push_neg at hc
  have := grid_gap_le a b ha hb hc
  linarith

/-- On the grid, `_almost_equal` at the merge tolerance is equality. -/
theorem grid_eq_of_almost (a b : ℚ) (ha : onGrid a) (hb : onGrid b)
    (h : almost_equal a b eps6 = true) : a = b := by
  have h' : qabs (a - b) ≤ eps6 := of_decide_eq_true h
  have hpair : a ≤ b + eps6 ∧ b ≤ a + eps6 := by
    unfold qabs at h'
    split_ifs at h' with hs
    · exact ⟨by linarith, by linarith⟩
    · exact ⟨by linarith, by linarith⟩
  exact le_antisymm
    (grid_le_collapse a b eps6 ha hb (by norm_num [eps6]) hpair.1)
    (grid_le_collapse b a eps6 hb ha (by norm_num [eps6]) hpair.2)

theorem onGrid_qmin (a b : ℚ) (ha : onGrid a) (hb : onGrid b) :
    onGrid (qmin a b) := by
  unfold qmin; split_ifs <;> assumption

theorem onGrid_qmax (a b : ℚ) (ha : onGrid a) (hb : onGrid b) :
    onGrid (qmax a b) := by
  unfold qmax; split_ifs <;> assumption

theorem qmin_le_left (a b : ℚ) : qmin a b ≤ a := by
  unfold qmin; split_ifs <;> linarith

theorem qmin_le_right (a b : ℚ) : qmin a b ≤ b := by
  unfold qmin; split_ifs <;> linarith

theorem le_qmax_left (a b : ℚ) : a ≤ qmax a b := by
  unfold qmax; split_ifs <;> linarith

theorem le_qmax_right (a b : ℚ) : b ≤ qmax a b := by
  unfold qmax; split_ifs <;> linarith

theorem qmin_cases (a b : ℚ) : qmin a b = a ∨ qmin a b = b := by
  unfold qmin; split_ifs
  · exact Or.inl rfl
  · exact Or.inr rfl

theorem qmax_cases (a b : ℚ) : qmax a b = a ∨ qmax a b = b := by
  unfold qmax; split_ifs
  · exact Or.inr rfl
  · exact Or.inl rfl

theorem le_qmin (a b c : ℚ) (h1 : c ≤ a) (h2 : c ≤ b) : c ≤ qmin a b := by
  unfold qmin; split_ifs <;> linarith

theorem qmax_le (a b c : ℚ) (h1 : a ≤ c) (h2 : b ≤ c) : qmax a b ≤ c := by
  unfold qmax; split_ifs <;> linarith

/-- Separation conditions equivalent to a failed epsilon-intersection
test. -/
theorem rect_intersects_eq_false_iff (a b : Rect) (eps : ℚ) :
    rect_intersects a b eps = false ↔
      a.x1 ≤ b.x0 + eps ∨ a.x0 ≥ b.x1 - eps ∨
      a.z1 ≤ b.z0 + eps ∨ a.z0 ≥ b.z1 - eps := by
  unfold rect_intersects
  split_ifs with h1 h2
  · exact iff_of_true rfl (by tauto)
  · exact iff_of_true rfl (by tauto)
  · refine iff_of_false (by simp) ?_
    push_neg at h1 h2
    rintro (h | h | h | h) <;> [exact absurd h (not_le.mpr h1.1);
      exact absurd h (not_le.mpr h1.2); exact absurd h (not_le.mpr h2.1);
      exact absurd h (not_le.mpr h2.2)]

/-- Overlap conditions equivalent to a positive epsilon-intersection
test. -/
theorem rect_intersects_eq_true_iff (a b : Rect) (eps : ℚ) :
    rect_intersects a b eps = true ↔
      b.x0 + eps < a.x1 ∧ a.x0 < b.x1 - eps ∧
      b.z0 + eps < a.z1 ∧ a.z0 < b.z1 - eps := by
  unfold rect_intersects
  split_ifs with h1 h2
  · refine iff_of_false (by simp) ?_
    rintro ⟨k1, k2, k3, k4⟩
    rcases h1 with h | h <;> linarith
  · refine iff_of_false (by simp) ?_
    rintro ⟨k1, k2, k3, k4⟩
    rcases h2 with h | h <;> linarith
  · push_neg at h1 h2
    exact iff_of_true rfl ⟨by linarith [h1.1], by linarith [h1.2],
      by linarith [h2.1], by linarith [h2.2]⟩

/-- The epsilon-intersection test is symmetric (separation form). -/
theorem rect_intersects_symm_false {a b : Rect} {eps : ℚ}
    (h : rect_intersects a b eps = false) :
    rect_intersects b a eps = false := by
  rw [rect_intersects_eq_false_iff] at h ⊢
  rcases h with h | h | h | h
  · exact Or.inr (Or.inl (by linarith))
  · exact Or.inl (by linarith)
  · exact Or.inr (Or.inr (Or.inr (by linarith)))
  · exact Or.inr (Or.inr (Or.inl (by linarith)))

/-- A sub-rectangle separated from nothing new: separation is monotone
under shrinking. -/
theorem rect_intersects_mono_sub {p f c : Rect} {eps : ℚ}
    (h1 : f.x0 ≤ p.x0) (h2 : p.x1 ≤ f.x1) (h3 : f.z0 ≤ p.z0)
    (h4 : p.z1 ≤ f.z1)
    (h : rect_intersects f c eps = false) :
    rect_intersects p c eps = false := by
  rw [rect_intersects_eq_false_iff] at h ⊢
  rcases h with h | h | h | h
  · exact Or.inl (by linarith)
  · exact Or.inr (Or.inl (by linarith))
  · exact Or.inr (Or.inr (Or.inl (by linarith)))
  · exact Or.inr (Or.inr (Or.inr (by linarith)))

/-- Epsilon-containment is monotone in the tolerance. -/
theorem rect_contains_mono_eps {big small : Rect} {e1 e2 : ℚ} (h : e1 ≤ e2)
    (hc : rect_contains big small e1 = true) :
    rect_contains big small e2 = true := by
  unfold rect_contains at hc ⊢
  simp only [Bool.and_eq_true, decide_eq_true_eq] at hc ⊢
  obtain ⟨⟨⟨k1, k2⟩, k3⟩, k4⟩ := hc
  exact ⟨⟨⟨by linarith, by linarith⟩, by linarith⟩, by linarith⟩

/-- Contrapositive of the tolerance monotonicity of containment. -/
theorem rect_contains_false_mono {big small : Rect} {e1 e2 : ℚ} (h : e1 ≤ e2)
    (hc : rect_contains big small e2 = false) :
    rect_contains big small e1 = false := by
  cases hx : rect_contains big small e1
  · rfl
  · rw [rect_contains_mono_eps h hx] at hc
    cases hc

set_option maxRecDepth 100000 in
/-- C1 counterexample — the merge pass regrows reserved area: on a 20 m ×
20 m floor, after reserving the half-strip `(-10, 10, 5, 10)` and then the
sliver-adjacent block `(-10, 0, 5 − 1e-7, 5)`, `merge_adjacent` (tolerance
1e-6) welds the two residual strips back across the 1e-7-deep reserved
sliver, and the final single free rectangle overlaps the second reserved
rectangle by more than the 1e-9 epsilon. -/
theorem free_rects_merge_regrow_counterexample :
    reserveAll 20 20 [⟨-10, 10, 5, 10⟩, ⟨-10, 0, 5 - 1/10000000, 5⟩] =
      [⟨-10, 10, -10, 5⟩] ∧
    rect_intersects ⟨-10, 10, -10, 5⟩ ⟨-10, 0, 5 - 1/10000000, 5⟩ eps9
      = true := by
  constructor
  · with_unfolding_all decide
  · with_unfolding_all decide

/-- A well-formed rectangle is at least 1 mm wide. -/
theorem goodRect_x_gap {c : Rect} (h : GoodRect c) : c.x0 + 1/1000 ≤ c.x1 := by
  obtain ⟨g0, g1, _, _, w, _⟩ := h
  exact grid_gap_le c.x1 c.x0 g1 g0 w

/-- A well-formed rectangle is at least 1 mm deep. -/
theorem goodRect_z_gap {c : Rect} (h : GoodRect c) : c.z0 + 1/1000 ≤ c.z1 := by
  obtain ⟨_, _, g0, g1, _, w⟩ := h
  exact grid_gap_le c.z1 c.z0 g1 g0 w

/-- `_normalize_rect` does nothing on a grid-aligned, non-inverted
rectangle: clamping a grid value below the 1e-6 tolerance means clamping
an exact zero. -/
theorem normalize_id (r : Rect) (g0 : onGrid r.x0) (g1 : onGrid r.x1)
    (g2 : onGrid r.z0) (g3 : onGrid r.z1) (hw : r.x0 ≤ r.x1)
    (hz : r.z0 ≤ r.z1) : normalize_rect r eps6 = r := by
  have clamp : ∀ c : ℚ, onGrid c → (if qabs c < eps6 then (0 : ℚ) else c) = c := by
    intro c hc
    split_ifs with h
    · rcases lt_trichotomy c 0 with hlt | heq | hgt
      · exfalso
        have hg := grid_gap_le 0 c ⟨0, by norm_num⟩ hc hlt
        unfold qabs at h
        rw [if_pos hlt] at h
        have : eps6 = 1/1000000 := rfl
        linarith
      · rw [heq]
      · exfalso
        have hg := grid_gap_le c 0 hc ⟨0, by norm_num⟩ hgt
        unfold qabs at h
        rw [if_neg (not_lt.mpr (le_of_lt hgt))] at h
        have : eps6 = 1/1000000 := rfl
        linarith
    · rfl
  unfold normalize_rect
  rw [if_neg (not_lt.mpr hw), if_neg (not_lt.mpr hz)]
  show Rect.mk (if qabs r.x0 < eps6 then 0 else r.x0)
      (if qabs r.x1 < eps6 then 0 else r.x1)
      (if qabs r.z0 < eps6 then 0 else r.z0)
      (if qabs r.z1 < eps6 then 0 else r.z1) = r
  rw [clamp r.x0 g0, clamp r.x1 g1, clamp r.z0 g2, clamp r.z1 g3]

/-- Disjointness transfer through one `try_merge`: on the grid a merged
rectangle is exactly the union of the two obstacle-free parts, so it
cannot overlap (beyond 1e-9) any well-formed rectangle that neither part
overlapped. -/
theorem try_merge_step {a b c x : Rect}
    (hga : GoodRect a) (hgb : GoodRect b) (hgc : GoodRect c)
    (hm : try_merge a b eps6 = some x)
    (hac : rect_intersects a c eps9 = false)
    (hbc : rect_intersects b c eps9 = false) :
    rect_intersects x c eps9 = false ∧ GoodRect x := by
  obtain ⟨ga0, ga1, gaz0, gaz1, wax, waz⟩ := hga
  obtain ⟨gb0, gb1, gbz0, gbz1, wbx, wbz⟩ := hgb
  have he9 : eps9 = 1/1000000000 := rfl
  have hcx := goodRect_x_gap hgc
  have hcz := goodRect_z_gap hgc
  unfold try_merge at hm
  split_ifs at hm with h1 h2
  · injection hm with hx
    subst hx
    simp only [Bool.and_eq_true, decide_eq_true_eq] at h1
    obtain ⟨⟨⟨hz0, hz1⟩, hab⟩, hba⟩ := h1
    have ez0 : a.z0 = b.z0 := grid_eq_of_almost _ _ gaz0 gbz0 hz0
    have ez1 : a.z1 = b.z1 := grid_eq_of_almost _ _ gaz1 gbz1 hz1
    have hab' : b.x0 ≤ a.x1 :=
      grid_le_collapse b.x0 a.x1 eps6 gb0 ga1 (by norm_num [eps6])
        (by linarith)
    have hba' : a.x0 ≤ b.x1 :=
      grid_le_collapse a.x0 b.x1 eps6 ga0 gb1 (by norm_num [eps6])
        (by linarith)
    constructor
    · by_contra hcon
      have htrue : rect_intersects (Rect.mk (qmin a.x0 b.x0) (qmax a.x1 b.x1)
          a.z0 a.z1) c eps9 = true := by
        cases hv : rect_intersects (Rect.mk (qmin a.x0 b.x0) (qmax a.x1 b.x1)
            a.z0 a.z1) c eps9
        · exact absurd hv hcon
        · rfl
      rw [rect_intersects_eq_true_iff] at htrue
      obtain ⟨k1, k2, k3, k4⟩ := htrue
      dsimp only at k1 k2 k3 k4
      rw [rect_intersects_eq_false_iff] at hac hbc
      have hax : a.x1 ≤ c.x0 + eps9 ∨ a.x0 ≥ c.x1 - eps9 := by
        rcases hac with h | h | h | h
        · exact Or.inl h
        · exact Or.inr h
        · exact absurd k3 (not_lt.mpr (by linarith))
        · exact absurd k4 (not_lt.mpr (by linarith))
      have hbx : b.x1 ≤ c.x0 + eps9 ∨ b.x0 ≥ c.x1 - eps9 := by
        rcases hbc with h | h | h | h
        · exact Or.inl h
        · exact Or.inr h
        · exact absurd k3 (not_lt.mpr (by linarith [ez1]))
        · exact absurd k4 (not_lt.mpr (by linarith [ez0]))
      have hmax := qmax_le a.x1 b.x1 (qmax a.x1 b.x1) (le_qmax_left _ _)
        (le_qmax_right _ _)
      rcases hax with hax | hax <;> rcases hbx with hbx | hbx
      · have : qmax a.x1 b.x1 ≤ c.x0 + eps9 := qmax_le _ _ _ hax hbx
        linarith
      · have h9 : eps9 < 1/2000 := by norm_num [eps9]
        linarith
      · have h9 : eps9 < 1/2000 := by norm_num [eps9]
        linarith
      · have : c.x1 - eps9 ≤ qmin a.x0 b.x0 := le_qmin _ _ _ hax hbx
        linarith
    · exact ⟨onGrid_qmin _ _ ga0 gb0, onGrid_qmax _ _ ga1 gb1, gaz0, gaz1,
        lt_of_le_of_lt (qmin_le_left _ _)
          (lt_of_lt_of_le wax (le_qmax_left _ _)), waz⟩
  · injection hm with hx
    subst hx
    simp only [Bool.and_eq_true, decide_eq_true_eq] at h2
    obtain ⟨⟨⟨hx0, hx1⟩, hab⟩, hba⟩ := h2
    have ex0 : a.x0 = b.x0 := grid_eq_of_almost _ _ ga0 gb0 hx0
    have ex1 : a.x1 = b.x1 := grid_eq_of_almost _ _ ga1 gb1 hx1
    have hab' : b.z0 ≤ a.z1 :=
      grid_le_collapse b.z0 a.z1 eps6 gbz0 gaz1 (by norm_num [eps6])
        (by linarith)
    have hba' : a.z0 ≤ b.z1 :=
      grid_le_collapse a.z0 b.z1 eps6 gaz0 gbz1 (by norm_num [eps6])
        (by linarith)
    constructor
    · by_contra hcon
      have htrue : rect_intersects (Rect.mk a.x0 a.x1 (qmin a.z0 b.z0)
          (qmax a.z1 b.z1)) c eps9 = true := by
        cases hv : rect_intersects (Rect.mk a.x0 a.x1 (qmin a.z0 b.z0)
            (qmax a.z1 b.z1)) c eps9
        · exact absurd hv hcon
        · rfl
      rw [rect_intersects_eq_true_iff] at htrue
      obtain ⟨k1, k2, k3, k4⟩ := htrue
      dsimp only at k1 k2 k3 k4
      rw [rect_intersects_eq_false_iff] at hac hbc
      have haz : a.z1 ≤ c.z0 + eps9 ∨ a.z0 ≥ c.z1 - eps9 := by
        rcases hac with h | h | h | h
        · exact absurd k1 (not_lt.mpr (by linarith))
        · exact absurd k2 (not_lt.mpr (by linarith))
        · exact Or.inl h
        · exact Or.inr h
      have hbz : b.z1 ≤ c.z0 + eps9 ∨ b.z0 ≥ c.z1 - eps9 := by
        rcases hbc with h | h | h | h
        · exact absurd k1 (not_lt.mpr (by linarith [ex1]))
        · exact absurd k2 (not_lt.mpr (by linarith [ex0]))
        · exact Or.inl h
        · exact Or.inr h
      rcases haz with haz | haz <;> rcases hbz with hbz | hbz
      · have : qmax a.z1 b.z1 ≤ c.z0 + eps9 := qmax_le _ _ _ haz hbz
        linarith
      · have h9 : eps9 < 1/2000 := by norm_num [eps9]
        linarith
      · have h9 : eps9 < 1/2000 := by norm_num [eps9]
        linarith
      · have : c.z1 - eps9 ≤ qmin a.z0 b.z0 := le_qmin _ _ _ haz hbz
        linarith
    · exact ⟨ga0, ga1, onGrid_qmin _ _ gaz0 gbz0, onGrid_qmax _ _ gaz1 gbz1,
        wax, lt_of_le_of_lt (qmin_le_left _ _)
          (lt_of_lt_of_le waz (le_qmax_left _ _))⟩

/-- `try_merge` of two well-formed grid rectangles yields a well-formed
grid rectangle. -/
theorem try_merge_good {a b x : Rect} (hga : GoodRect a) (hgb : GoodRect b)
    (hm : try_merge a b eps6 = some x) : GoodRect x := by
  obtain ⟨ga0, ga1, gaz0, gaz1, wax, waz⟩ := hga
  obtain ⟨gb0, gb1, gbz0, gbz1, wbx, wbz⟩ := hgb
  unfold try_merge at hm
  split_ifs at hm with h1 h2
  · injection hm with hx
    subst hx
    exact ⟨onGrid_qmin _ _ ga0 gb0, onGrid_qmax _ _ ga1 gb1, gaz0, gaz1,
      lt_of_le_of_lt (qmin_le_left _ _)
        (lt_of_lt_of_le wax (le_qmax_left _ _)), waz⟩
  · injection hm with hx
    subst hx
    exact ⟨ga0, ga1, onGrid_qmin _ _ gaz0 gbz0, onGrid_qmax _ _ gaz1 gbz1,
      wax, lt_of_le_of_lt (qmin_le_left _ _)
        (lt_of_lt_of_le waz (le_qmax_left _ _))⟩

/-- Step equation of the inner scan at a non-empty pool. -/
theorem scanOnce_cons (eps : ℚ) (m b : Rect) (pool : List Rect) :
    scanOnce eps m (b :: pool) =
      match try_merge m b eps with
      | some x => ((scanOnce eps (normalize_rect x eps) pool).1,
          (scanOnce eps (normalize_rect x eps) pool).2.1, true)
      | none => ((scanOnce eps m pool).1,
          b :: (scanOnce eps m pool).2.1, (scanOnce eps m pool).2.2) := rfl

/-- Invariants of one scan of `merge_adjacent`'s inner loop: the merged
rectangle stays well-formed, the surviving pool is a sublist, the merged
rectangle is separated from every survivor, and separation from any
well-formed rectangle disjoint from all inputs is preserved. -/
theorem scanOnce_props (pool : List Rect) : ∀ (m : Rect),
    GoodRect m → (∀ p ∈ pool, GoodRect p) →
    (∀ p ∈ pool, rect_intersects m p eps9 = false) →
    List.Pairwise (fun a b => rect_intersects a b eps9 = false) pool →
    GoodRect (scanOnce eps6 m pool).1 ∧
    (scanOnce eps6 m pool).2.1.Sublist pool ∧
    (∀ p' ∈ (scanOnce eps6 m pool).2.1,
      rect_intersects (scanOnce eps6 m pool).1 p' eps9 = false) ∧
    (∀ c, GoodRect c → rect_intersects m c eps9 = false →
      (∀ p ∈ pool, rect_intersects p c eps9 = false) →
      rect_intersects (scanOnce eps6 m pool).1 c eps9 = false) := by
  induction pool with
  | nil =>
      intro m hgm _ _ _
      rw [show scanOnce eps6 m [] = (m, [], false) from rfl]
      refine ⟨hgm, List.Sublist.refl _, ?_, fun c _ hmc _ => hmc⟩
      intro p hp
      cases hp
  | cons b pool ih =>
      intro m hgm hgp hmp hpw
      have hgb : GoodRect b := hgp b (by simp)
      have hmb : rect_intersects m b eps9 = false := hmp b (by simp)
      have hgtail : ∀ p ∈ pool, GoodRect p := fun p hp => hgp p (by simp [hp])
      have hpwtail := List.pairwise_cons.mp hpw
      rw [scanOnce_cons]
      cases hm : try_merge m b eps6 with
      | some x =>
          dsimp only
          have hgx : GoodRect x := try_merge_good hgm hgb hm
          have hnorm : normalize_rect x eps6 = x :=
            normalize_id x hgx.1 hgx.2.1 hgx.2.2.1 hgx.2.2.2.1
              (le_of_lt hgx.2.2.2.2.1) (le_of_lt hgx.2.2.2.2.2)
          rw [hnorm]
          have hxp : ∀ p ∈ pool, rect_intersects x p eps9 = false := by
            intro p hp
            exact (try_merge_step hgm hgb (hgtail p hp) hm (hmp p (by simp [hp]))
              (hpwtail.1 p hp)).1
          obtain ⟨r1, r2, r3, r4⟩ := ih x hgx hgtail hxp hpwtail.2
          refine ⟨r1, ?_, ?_, ?_⟩
          · exact List.Sublist.trans r2 (List.sublist_cons_self b pool)
          · exact r3
          · intro c hgc hmc hpc
            have hxc : rect_intersects x c eps9 = false :=
              (try_merge_step hgm hgb hgc hm hmc (hpc b (by simp))).1
            exact r4 c hgc hxc (fun p hp => hpc p (by simp [hp]))
      | none =>
          dsimp only
          have hxp : ∀ p ∈ pool, rect_intersects m p eps9 = false :=
            fun p hp => hmp p (by simp [hp])
          obtain ⟨r1, r2, r3, r4⟩ := ih m hgm hgtail hxp hpwtail.2
          refine ⟨r1, List.Sublist.cons₂ b r2, ?_, ?_⟩
          · intro p' hp'
            rcases List.mem_cons.mp hp' with hp' | hp'
            · subst hp'
              exact r4 p' hgb hmb
                (fun p hp => rect_intersects_symm_false (hpwtail.1 p hp))
            · exact r3 p' hp'
          · intro c hgc hmc hpc
            exact r4 c hgc hmc (fun p hp => hpc p (by simp [hp]))

/-- Step equation of `absorb` at positive fuel. -/
theorem absorb_succ (eps : ℚ) (fuel : Nat) (m : Rect) (pool : List Rect) :
    absorb eps (fuel + 1) m pool =
      if (scanOnce eps m pool).2.2 then
        ((absorb eps fuel (scanOnce eps m pool).1 (scanOnce eps m pool).2.1).1,
         (absorb eps fuel (scanOnce eps m pool).1
           (scanOnce eps m pool).2.1).2.1, true)
      else ((scanOnce eps m pool).1, (scanOnce eps m pool).2.1, false) := rfl

/-- The same invariants through the `while changed` wrapper `absorb`. -/
theorem absorb_props (fuel : Nat) : ∀ (m : Rect) (pool : List Rect),
    GoodRect m → (∀ p ∈ pool, GoodRect p) →
    (∀ p ∈ pool, rect_intersects m p eps9 = false) →
    List.Pairwise (fun a b => rect_intersects a b eps9 = false) pool →
    GoodRect (absorb eps6 fuel m pool).1 ∧
    (absorb eps6 fuel m pool).2.1.Sublist pool ∧
    (∀ p' ∈ (absorb eps6 fuel m pool).2.1,
      rect_intersects (absorb eps6 fuel m pool).1 p' eps9 = false) ∧
    (∀ c, GoodRect c → rect_intersects m c eps9 = false →
      (∀ p ∈ pool, rect_intersects p c eps9 = false) →
      rect_intersects (absorb eps6 fuel m pool).1 c eps9 = false) := by
  induction fuel with
  | zero =>
      intro m pool hgm hgp hmp hpw
      exact ⟨hgm, List.Sublist.refl _, hmp, fun c _ hmc _ => hmc⟩
  | succ fuel ih =>
      intro m pool hgm hgp hmp hpw
      obtain ⟨s1, s2, s3, s4⟩ := scanOnce_props pool m hgm hgp hmp hpw
      rw [absorb_succ]
      by_cases hflag : (scanOnce eps6 m pool).2.2 = true
      · rw [if_pos hflag]
        dsimp only
        have hgp' : ∀ p ∈ (scanOnce eps6 m pool).2.1, GoodRect p :=
          fun p hp => hgp p (s2.subset hp)
        have hpw' := hpw.sublist s2
        obtain ⟨a1, a2, a3, a4⟩ := ih (scanOnce eps6 m pool).1
          (scanOnce eps6 m pool).2.1 s1 hgp' s3 hpw'
        refine ⟨a1, List.Sublist.trans a2 s2, a3, ?_⟩
        intro c hgc hmc hpc
        exact a4 c hgc (s4 c hgc hmc hpc) (fun p hp => hpc p (s2.subset hp))
      · rw [if_neg hflag]
        exact ⟨s1, s2, s3, s4⟩

/-- `mergeRound` on the empty pool. -/
theorem mergeRound_nil (eps : ℚ) (fuel : Nat) :
    mergeRound eps fuel [] = ([], false) := by
  cases fuel <;> rfl

/-- Step equation of `mergeRound` at positive fuel and non-empty pool. -/
theorem mergeRound_succ (eps : ℚ) (fuel : Nat) (a : Rect) (rest : List Rect) :
    mergeRound eps (fuel + 1) (a :: rest) =
      ((absorb eps (rest.length + 1) a rest).1 ::
        (mergeRound eps fuel (absorb eps (rest.length + 1) a rest).2.1).1,
       (absorb eps (rest.length + 1) a rest).2.2 ||
        (mergeRound eps fuel (absorb eps (rest.length + 1) a rest).2.1).2) := rfl

/-- Invariants of one merge round: outputs are well-formed, pairwise
separated, and separated from every well-formed rectangle that was
separated from every input. -/
theorem mergeRound_props (fuel : Nat) : ∀ (l : List Rect),
    GoodList l → PWDisj l →
    GoodList (mergeRound eps6 fuel l).1 ∧
    PWDisj (mergeRound eps6 fuel l).1 ∧
    (∀ c, GoodRect c → (∀ r ∈ l, rect_intersects r c eps9 = false) →
      ∀ o ∈ (mergeRound eps6 fuel l).1,
        rect_intersects o c eps9 = false) := by
  induction fuel with
  | zero =>
      intro l hg hpw
      cases l with
      | nil =>
          rw [mergeRound_nil]
          exact ⟨fun o ho => absurd ho (List.not_mem_nil o), List.Pairwise.nil,
            fun c _ _ o ho => absurd ho (List.not_mem_nil o)⟩
      | cons a rest =>
          rw [show mergeRound eps6 0 (a :: rest) = ([], false) from rfl]
          exact ⟨fun o ho => absurd ho (List.not_mem_nil o), List.Pairwise.nil,
            fun c _ _ o ho => absurd ho (List.not_mem_nil o)⟩
  | succ fuel ih =>
      intro l hg hpw
      cases l with
      | nil =>
          rw [mergeRound_nil]
          exact ⟨fun o ho => absurd ho (List.not_mem_nil o), List.Pairwise.nil,
            fun c _ _ o ho => absurd ho (List.not_mem_nil o)⟩
      | cons a rest =>
          rw [mergeRound_succ]
          have hpw' := List.pairwise_cons.mp hpw
          have hgrest : GoodList rest := fun p hp => hg p (by simp [hp])
          obtain ⟨a1, a2, a3, a4⟩ := absorb_props (rest.length + 1) a rest
            (hg a (by simp)) hgrest hpw'.1 hpw'.2
          obtain ⟨b1, b2, b3⟩ := ih (absorb eps6 (rest.length + 1) a rest).2.1
            (fun p hp => hgrest p (a2.subset hp)) (hpw'.2.sublist a2)
          refine ⟨?_, ?_, ?_⟩
          · intro o ho
            rcases List.mem_cons.mp ho with ho | ho
            · rw [ho]; exact a1
            · exact b1 o ho
          · refine List.pairwise_cons.mpr ⟨?_, b2⟩
            intro o ho
            have := b3 (absorb eps6 (rest.length + 1) a rest).1 a1
              (fun p hp => rect_intersects_symm_false (a3 p hp)) o ho
            exact rect_intersects_symm_false this
          · intro c hgc hlc o ho
            rcases List.mem_cons.mp ho with ho | ho
            · rw [ho]
              exact a4 c hgc (hlc a (by simp))
                (fun p hp => hlc p (by simp [hp]))
            · exact b3 c hgc
                (fun p hp => hlc p (by simp [a2.subset hp])) o ho

/-- `pruneGo` keeps a sublist of its input. -/
theorem pruneGo_sublist (eps : ℚ) : ∀ (l pre : List Rect),
    (pruneGo pre eps l).Sublist l := by
  intro l
  induction l with
  | nil => intro pre; exact List.Sublist.refl _
  | cons r post ih =>
      intro pre
      rw [show pruneGo pre eps (r :: post) =
        if (pre ++ post).any (fun other => rect_contains other r eps) then
          pruneGo (pre ++ [r]) eps post
        else r :: pruneGo (pre ++ [r]) eps post from rfl]
      split_ifs
      · exact List.Sublist.trans (ih (pre ++ [r]))
          (List.sublist_cons_self r post)
      · exact List.Sublist.cons₂ r (ih (pre ++ [r]))

/-- A `pruneGo` survivor is contained in no rectangle of the visited
prefix. -/
theorem pruneGo_not_contained (eps : ℚ) : ∀ (l pre : List Rect) (x : Rect),
    x ∈ pruneGo pre eps l → ∀ p ∈ pre, rect_contains p x eps = false := by
  intro l
  induction l with
  | nil =>
      intro pre x hx
      rw [show pruneGo pre eps [] = [] from rfl] at hx
      cases hx
  | cons r post ih =>
      intro pre x hx
      rw [show pruneGo pre eps (r :: post) =
        if (pre ++ post).any (fun other => rect_contains other r eps) then
          pruneGo (pre ++ [r]) eps post
        else r :: pruneGo (pre ++ [r]) eps post from rfl] at hx
      split_ifs at hx with hcond
      · exact fun p hp => ih (pre ++ [r]) x hx p (by simp [hp])
      · rcases List.mem_cons.mp hx with hx | hx
        · subst hx
          intro p hp
          have hf : (pre ++ post).any
              (fun other => rect_contains other x eps) = false := by
            cases hv : (pre ++ post).any
                (fun other => rect_contains other x eps)
            · rfl
            · exact absurd hv hcond
          have := List.any_eq_false.mp hf p (List.mem_append_left post hp)
          cases hv : rect_contains p x eps
          · rfl
          · exact absurd hv this
        · exact fun p hp => ih (pre ++ [r]) x hx p (by simp [hp])

/-- `pruneGo` survivors are pairwise mutually non-contained. -/
theorem pruneGo_pairwise (eps : ℚ) : ∀ (l pre : List Rect),
    PWNoncontain eps (pruneGo pre eps l) := by
  intro l
  induction l with
  | nil =>
      intro pre
      rw [show pruneGo pre eps [] = [] from rfl]
      exact List.Pairwise.nil
  | cons r post ih =>
      intro pre
      rw [show pruneGo pre eps (r :: post) =
        if (pre ++ post).any (fun other => rect_contains other r eps) then
          pruneGo (pre ++ [r]) eps post
        else r :: pruneGo (pre ++ [r]) eps post from rfl]
      split_ifs with hcond
      · exact ih (pre ++ [r])
      · refine List.pairwise_cons.mpr ⟨?_, ih (pre ++ [r])⟩
        intro b hb
        constructor
        · exact pruneGo_not_contained eps post (pre ++ [r]) b hb r (by simp)
        · have hbpost : b ∈ post := (pruneGo_sublist eps post (pre ++ [r])).subset hb
          have hf : (pre ++ post).any
              (fun other => rect_contains other r eps) = false := by
            cases hv : (pre ++ post).any
                (fun other => rect_contains other r eps)
            · rfl
            · exact absurd hv hcond
          have := List.any_eq_false.mp hf b (List.mem_append_right pre hbpost)
          cases hv : rect_contains b r eps
          · rfl
          · exact absurd hv this

/-- The rectangle list produced by one merge pass. -/
theorem mergePass_fst (eps : ℚ) (cur : List Rect) :
    (mergePass eps cur).1 =
      ((prune_contained (mergeRound eps cur.length cur).1 eps).filter
        (fun q => rect_area q > 1/1000000000)).map
        (fun q => normalize_rect q eps) := rfl

/-- Invariants of one full merge pass, plus the mutual non-containment
its pruning step establishes. -/
theorem mergePass_props (cur : List Rect) (hg : GoodList cur)
    (hpw : PWDisj cur) :
    GoodList (mergePass eps6 cur).1 ∧ PWDisj (mergePass eps6 cur).1 ∧
    PWNoncontain eps6 (mergePass eps6 cur).1 ∧
    (∀ c, GoodRect c → (∀ r ∈ cur, rect_intersects r c eps9 = false) →
      ∀ o ∈ (mergePass eps6 cur).1, rect_intersects o c eps9 = false) := by
  obtain ⟨m1, m2, m3⟩ := mergeRound_props cur.length cur hg hpw
  have hsub1 : (prune_contained (mergeRound eps6 cur.length cur).1
      eps6).Sublist (mergeRound eps6 cur.length cur).1 :=
    pruneGo_sublist eps6 _ []
  have hsub2 : ((prune_contained (mergeRound eps6 cur.length cur).1
      eps6).filter (fun q => rect_area q > 1/1000000000)).Sublist
      (prune_contained (mergeRound eps6 cur.length cur).1 eps6) :=
    List.filter_sublist _
  have hgF : GoodList ((prune_contained (mergeRound eps6 cur.length cur).1
      eps6).filter (fun q => rect_area q > 1/1000000000)) :=
    fun r hr => m1 r (hsub1.subset (hsub2.subset hr))
  have hkey : (mergePass eps6 cur).1 =
      (prune_contained (mergeRound eps6 cur.length cur).1 eps6).filter
        (fun q => rect_area q > 1/1000000000) := by
    rw [mergePass_fst]
    have hid : ∀ q ∈ (prune_contained (mergeRound eps6 cur.length cur).1
        eps6).filter (fun q => rect_area q > 1/1000000000),
        normalize_rect q eps6 = q := by
      intro q hq
      obtain ⟨g0, g1, g2, g3, w1, w2⟩ := hgF q hq
      exact normalize_id q g0 g1 g2 g3 (le_of_lt w1) (le_of_lt w2)
    calc ((prune_contained (mergeRound eps6 cur.length cur).1 eps6).filter
          (fun q => rect_area q > 1/1000000000)).map
          (fun q => normalize_rect q eps6)
        = ((prune_contained (mergeRound eps6 cur.length cur).1 eps6).filter
          (fun q => rect_area q > 1/1000000000)).map id :=
          List.map_congr_left hid
      _ = _ := List.map_id _
  rw [hkey]
  refine ⟨hgF, m2.sublist (List.Sublist.trans hsub2 hsub1),
    (pruneGo_pairwise eps6 _ []).sublist hsub2, ?_⟩
  intro c hgc hlc o ho
  exact m3 c hgc hlc o (hsub1.subset (hsub2.subset ho))

/-- Step equation of the merge-pass loop at positive iteration budget. -/
theorem mergeLoop_succ (eps : ℚ) (n : Nat) (cur : List Rect) :
    mergeLoop eps (n + 1) cur =
      if (mergePass eps cur).2 then mergeLoop eps n (mergePass eps cur).1
      else (mergePass eps cur).1 := rfl

/-- With at least one iteration available, the merge loop's result is some
pass's output, so it inherits every per-pass invariant. -/
theorem mergeLoop_props (n : Nat) : ∀ (cur : List Rect),
    GoodList cur → PWDisj cur →
    GoodList (mergeLoop eps6 (n + 1) cur) ∧
    PWDisj (mergeLoop eps6 (n + 1) cur) ∧
    PWNoncontain eps6 (mergeLoop eps6 (n + 1) cur) ∧
    (∀ c, GoodRect c → (∀ r ∈ cur, rect_intersects r c eps9 = false) →
      ∀ o ∈ mergeLoop eps6 (n + 1) cur,
        rect_intersects o c eps9 = false) := by
  induction n with
  | zero =>
      intro cur hg hpw
      obtain ⟨p1, p2, p3, p4⟩ := mergePass_props cur hg hpw
      rw [mergeLoop_succ]
      by_cases hf : (mergePass eps6 cur).2 = true
      · rw [if_pos hf]
        rw [show mergeLoop eps6 0 (mergePass eps6 cur).1 =
          (mergePass eps6 cur).1 from rfl]
        exact ⟨p1, p2, p3, p4⟩
      · rw [if_neg hf]
        exact ⟨p1, p2, p3, p4⟩
  | succ n ih =>
      intro cur hg hpw
      obtain ⟨p1, p2, p3, p4⟩ := mergePass_props cur hg hpw
      rw [mergeLoop_succ]
      by_cases hf : (mergePass eps6 cur).2 = true
      · rw [if_pos hf]
        obtain ⟨q1, q2, q3, q4⟩ := ih (mergePass eps6 cur).1 p1 p2
        refine ⟨q1, q2, q3, ?_⟩
        intro c hgc hlc o ho
        exact q4 c hgc (fun r hr => p4 c hgc hlc r hr) o ho
      · rw [if_neg hf]
        exact ⟨p1, p2, p3, p4⟩

/-- `merge_adjacent` unfolded. -/
theorem merge_adjacent_eq (l : List Rect) (eps : ℚ) (iters : Nat) :
    merge_adjacent l eps iters =
      if l.isEmpty then []
      else mergeLoop eps iters
        ((l.filter (fun r => rect_area r > 1/1000000000)).map
          (fun r => normalize_rect r eps)) := rfl

/-- Invariants of `merge_adjacent` at the packer's call site (tolerance
1e-6, 50 iterations). -/
theorem merge_adjacent_props (l : List Rect) (hg : GoodList l)
    (hpw : PWDisj l) :
    GoodList (merge_adjacent l eps6 50) ∧ PWDisj (merge_adjacent l eps6 50) ∧
    PWNoncontain eps6 (merge_adjacent l eps6 50) ∧
    (∀ c, GoodRect c → (∀ r ∈ l, rect_intersects r c eps9 = false) →
      ∀ o ∈ merge_adjacent l eps6 50,
        rect_intersects o c eps9 = false) := by
  rw [merge_adjacent_eq]
  by_cases hemp : l.isEmpty = true
  · rw [if_pos hemp]
    exact ⟨fun o ho => absurd ho (List.not_mem_nil o), List.Pairwise.nil,
      List.Pairwise.nil, fun c _ _ o ho => absurd ho (List.not_mem_nil o)⟩
  · rw [if_neg hemp]
    have hsubf : (l.filter (fun r => rect_area r > 1/1000000000)).Sublist l :=
      List.filter_sublist _
    have hgF : GoodList (l.filter (fun r => rect_area r > 1/1000000000)) :=
      fun r hr => hg r (hsubf.subset hr)
    have hmapid : (l.filter (fun r => rect_area r > 1/1000000000)).map
        (fun r => normalize_rect r eps6) =
        l.filter (fun r => rect_area r > 1/1000000000) := by
      have hid : ∀ q ∈ l.filter (fun r => rect_area r > 1/1000000000),
          normalize_rect q eps6 = q := by
        intro q hq
        obtain ⟨g0, g1, g2, g3, w1, w2⟩ := hgF q hq
        exact normalize_id q g0 g1 g2 g3 (le_of_lt w1) (le_of_lt w2)
      calc (l.filter (fun r => rect_area r > 1/1000000000)).map
            (fun r => normalize_rect r eps6)
          = (l.filter (fun r => rect_area r > 1/1000000000)).map id :=
            List.map_congr_left hid
        _ = _ := List.map_id _
    rw [hmapid]
    rw [show (50 : Nat) = 49 + 1 from rfl]
    obtain ⟨q1, q2, q3, q4⟩ := mergeLoop_props 49
      (l.filter (fun r => rect_area r > 1/1000000000)) hgF
      (hpw.sublist hsubf)
    refine ⟨q1, q2, q3, ?_⟩
    intro c hgc hlc o ho
    exact q4 c hgc (fun r hr => hlc r (hsubf.subset hr)) o ho

/-- A rectangle passing the residual-area filter has positive extent on
both axes. -/
theorem rect_area_pos {p : Rect} (h : rect_area p > 1/1000000000) :
    p.x0 < p.x1 ∧ p.z0 < p.z1 := by
  have hx : qmax 0 (p.x1 - p.x0) > 0 := by
    by_contra hcon
    push_neg at hcon
    unfold rect_area at h
    nlinarith [h, hcon, le_qmax_left 0 (p.x1 - p.x0),
      le_qmax_left 0 (p.z1 - p.z0)]
  have hz : qmax 0 (p.z1 - p.z0) > 0 := by
    by_contra hcon
    push_neg at hcon
    unfold rect_area at h
    nlinarith [h, hcon, le_qmax_left 0 (p.x1 - p.x0),
      le_qmax_left 0 (p.z1 - p.z0)]
  constructor
  · unfold qmax at hx
    split_ifs at hx with hs
    · linarith
    · exact absurd hx (lt_irrefl 0)
  · unfold qmax at hz
    split_ifs at hz with hs
    · linarith
    · exact absurd hz (lt_irrefl 0)

/-- Membership in a conditional singleton. -/
theorem mem_ite_singleton {c : Prop} [Decidable c] {p x : Rect}
    (h : x ∈ (if c then [p] else ([] : List Rect))) : x = p := by
  split_ifs at h with hc
  · simpa using h
  · cases h

/-- The four candidate strips of `split_rect`, with the area filter. -/
theorem split_mem {f u p : Rect} (hp : p ∈ split_rect f u eps9) :
    rect_area p > 1/1000000000 ∧
    (p = ⟨f.x0, qmin u.x0 f.x1, f.z0, f.z1⟩ ∨
     p = ⟨qmax u.x1 f.x0, f.x1, f.z0, f.z1⟩ ∨
     p = ⟨qmax f.x0 u.x0, qmin f.x1 u.x1, f.z0, qmin u.z0 f.z1⟩ ∨
     p = ⟨qmax f.x0 u.x0, qmin f.x1 u.x1, qmax u.z1 f.z0, f.z1⟩) := by
  unfold split_rect at hp
  simp only [List.mem_filter, List.mem_append] at hp
  obtain ⟨hmem, harea⟩ := hp
  refine ⟨by simpa using harea, ?_⟩
  rcases hmem with ((h | h) | h) | h
  · exact Or.inl (mem_ite_singleton h)
  · exact Or.inr (Or.inl (mem_ite_singleton h))
  · exact Or.inr (Or.inr (Or.inl (mem_ite_singleton h)))
  · exact Or.inr (Or.inr (Or.inr (mem_ite_singleton h)))

/-- Every residual strip is a sub-rectangle of the split free
rectangle. -/
theorem split_sub {f u p : Rect} (hp : p ∈ split_rect f u eps9) :
    f.x0 ≤ p.x0 ∧ p.x1 ≤ f.x1 ∧ f.z0 ≤ p.z0 ∧ p.z1 ≤ f.z1 := by
  rcases (split_mem hp).2 with h | h | h | h <;> subst h
  · exact ⟨le_refl _, qmin_le_right _ _, le_refl _, le_refl _⟩
  · exact ⟨le_qmax_right _ _, le_refl _, le_refl _, le_refl _⟩
  · exact ⟨le_qmax_left _ _, qmin_le_left _ _, le_refl _, qmin_le_right _ _⟩
  · exact ⟨le_qmax_left _ _, qmin_le_left _ _, le_qmax_right _ _, le_refl _⟩

/-- Residual strips of well-formed grid rectangles are well-formed grid
rectangles. -/
theorem split_good {f u p : Rect} (hgf : GoodRect f) (hgu : GoodRect u)
    (hp : p ∈ split_rect f u eps9) : GoodRect p := by
  obtain ⟨harea, hcases⟩ := split_mem hp
  obtain ⟨hwx, hwz⟩ := rect_area_pos harea
  obtain ⟨gf0, gf1, gfz0, gfz1, _, _⟩ := hgf
  obtain ⟨gu0, gu1, guz0, guz1, _, _⟩ := hgu
  rcases hcases with h | h | h | h <;> subst h
  · exact ⟨gf0, onGrid_qmin _ _ gu0 gf1, gfz0, gfz1, hwx, hwz⟩
  · exact ⟨onGrid_qmax _ _ gu1 gf0, gf1, gfz0, gfz1, hwx, hwz⟩
  · exact ⟨onGrid_qmax _ _ gf0 gu0, onGrid_qmin _ _ gf1 gu1, gfz0,
      onGrid_qmin _ _ guz0 gfz1, hwx, hwz⟩
  · exact ⟨onGrid_qmax _ _ gf0 gu0, onGrid_qmin _ _ gf1 gu1,
      onGrid_qmax _ _ guz1 gfz0, gfz1, hwx, hwz⟩

/-- Every residual strip stays clear (beyond 1e-9) of the reserved
rectangle. -/
theorem split_disj_used {f u p : Rect} (hp : p ∈ split_rect f u eps9) :
    rect_intersects p u eps9 = false := by
  have he9 : (0 : ℚ) ≤ eps9 := by norm_num [eps9]
  rw [rect_intersects_eq_false_iff]
  rcases (split_mem hp).2 with h | h | h | h <;> subst h
  · exact Or.inl (by dsimp only; linarith [qmin_le_left u.x0 f.x1])
  · exact Or.inr (Or.inl (by dsimp only; linarith [le_qmax_left u.x1 f.x0]))
  · exact Or.inr (Or.inr (Or.inl
      (by dsimp only; linarith [qmin_le_left u.z0 f.z1])))
  · exact Or.inr (Or.inr (Or.inr
      (by dsimp only; linarith [le_qmax_left u.z1 f.z0])))

/-- Sub-rectangles of separated rectangles are separated. -/
theorem sub_disj {x r y r' : Rect}
    (hx : r.x0 ≤ x.x0 ∧ x.x1 ≤ r.x1 ∧ r.z0 ≤ x.z0 ∧ x.z1 ≤ r.z1)
    (hy : r'.x0 ≤ y.x0 ∧ y.x1 ≤ r'.x1 ∧ r'.z0 ≤ y.z0 ∧ y.z1 ≤ r'.z1)
    (h : rect_intersects r r' eps9 = false) :
    rect_intersects x y eps9 = false := by
  have h1 := rect_intersects_mono_sub hx.1 hx.2.1 hx.2.2.1 hx.2.2.2 h
  have h2 := rect_intersects_symm_false h1
  have h3 := rect_intersects_mono_sub hy.1 hy.2.1 hy.2.2.1 hy.2.2.2 h2
  exact rect_intersects_symm_false h3

/-- The residual strips of one split are pairwise separated. -/
theorem split_pairwise {f u : Rect} (hu : u.x0 ≤ u.x1 ∧ u.z0 ≤ u.z1) :
    PWDisj (split_rect f u eps9) := by
  have he9 : (0 : ℚ) ≤ eps9 := by norm_num [eps9]
  have key : List.Pairwise (fun a b => rect_intersects a b eps9 = false)
      ((if u.x0 > f.x0 + eps9 then [(⟨f.x0, qmin u.x0 f.x1, f.z0, f.z1⟩ : Rect)] else []) ++
       (if u.x1 < f.x1 - eps9 then [(⟨qmax u.x1 f.x0, f.x1, f.z0, f.z1⟩ : Rect)] else []) ++
       (if u.z0 > f.z0 + eps9 then [(⟨qmax f.x0 u.x0, qmin f.x1 u.x1, f.z0, qmin u.z0 f.z1⟩ : Rect)] else []) ++
       (if u.z1 < f.z1 - eps9 then [(⟨qmax f.x0 u.x0, qmin f.x1 u.x1, qmax u.z1 f.z0, f.z1⟩ : Rect)] else [])) := by
    have hsing : ∀ (c : Prop) [Decidable c] (p : Rect),
        List.Pairwise (fun a b => rect_intersects a b eps9 = false)
          (if c then [p] else []) := by
      intro c _ p
      split_ifs
      · exact List.pairwise_singleton _ _
      · exact List.Pairwise.nil
    rw [List.pairwise_append, List.pairwise_append, List.pairwise_append]
    refine ⟨⟨⟨hsing _ _, hsing _ _, ?_⟩, hsing _ _, ?_⟩, hsing _ _, ?_⟩
    · intro a ha b hb
      rw [mem_ite_singleton ha, mem_ite_singleton hb,
        rect_intersects_eq_false_iff]
      refine Or.inl ?_
      dsimp only
      linarith [qmin_le_left u.x0 f.x1, le_qmax_left u.x1 f.x0, hu.1]
    · intro a ha b hb
      rw [mem_ite_singleton hb]
      rcases List.mem_append.mp ha with ha | ha
      · rw [mem_ite_singleton ha, rect_intersects_eq_false_iff]
        refine Or.inl ?_
        dsimp only
        linarith [qmin_le_left u.x0 f.x1, le_qmax_right f.x0 u.x0]
      · rw [mem_ite_singleton ha, rect_intersects_eq_false_iff]
        refine Or.inr (Or.inl ?_)
        dsimp only
        linarith [le_qmax_left u.x1 f.x0, qmin_le_right f.x1 u.x1]
    · intro a ha b hb
      rw [mem_ite_singleton hb]
      rcases List.mem_append.mp ha with ha | ha
      · rcases List.mem_append.mp ha with ha | ha
        · rw [mem_ite_singleton ha, rect_intersects_eq_false_iff]
          refine Or.inl ?_
          dsimp only
          linarith [qmin_le_left u.x0 f.x1, le_qmax_right f.x0 u.x0]
        · rw [mem_ite_singleton ha, rect_intersects_eq_false_iff]
          refine Or.inr (Or.inl ?_)
          dsimp only
          linarith [le_qmax_left u.x1 f.x0, qmin_le_right f.x1 u.x1]
      · rw [mem_ite_singleton ha, rect_intersects_eq_false_iff]
        refine Or.inr (Or.inr (Or.inl ?_))
        dsimp only
        linarith [qmin_le_left u.z0 f.z1, le_qmax_left u.z1 f.z0, hu.2]
  unfold split_rect
  exact key.sublist (List.filter_sublist _)

/-- Residual pieces of one `reserve` split are sub-rectangles of the free
rectangle they came from. -/
theorem splitOne_sub {u r p : Rect}
    (hp : p ∈ (if rect_intersects r u then split_rect r u else [r])) :
    r.x0 ≤ p.x0 ∧ p.x1 ≤ r.x1 ∧ r.z0 ≤ p.z0 ∧ p.z1 ≤ r.z1 := by
  split_ifs at hp with hc
  · exact split_sub hp
  · rw [List.mem_singleton] at hp
    subst hp
    exact ⟨le_refl _, le_refl _, le_refl _, le_refl _⟩

/-- Residual pieces of one split are well-formed. -/
theorem splitOne_good {u r p : Rect} (hgr : GoodRect r) (hgu : GoodRect u)
    (hp : p ∈ (if rect_intersects r u then split_rect r u else [r])) :
    GoodRect p := by
  split_ifs at hp with hc
  · exact split_good hgr hgu hp
  · rw [List.mem_singleton] at hp
    subst hp
    exact hgr

/-- Residual pieces of one split are clear of the reserved rectangle. -/
theorem splitOne_disj {u r p : Rect}
    (hp : p ∈ (if rect_intersects r u then split_rect r u else [r])) :
    rect_intersects p u eps9 = false := by
  split_ifs at hp with hc
  · exact split_disj_used hp
  · rw [List.mem_singleton] at hp
    subst hp
    cases hv : rect_intersects p u eps9
    · rfl
    · exact absurd hv hc

/-- Residual pieces of one split are pairwise separated. -/
theorem splitOne_pw {u r : Rect} (hgu : GoodRect u) :
    PWDisj (if rect_intersects r u then split_rect r u else [r]) := by
  split_ifs
  · exact split_pairwise ⟨le_of_lt hgu.2.2.2.2.1, le_of_lt hgu.2.2.2.2.2⟩
  · exact List.pairwise_singleton _ _

/-- Invariants of the splitting stage of `reserve` over the whole free
list. -/
theorem splitAll_props (u : Rect) : ∀ (l : List Rect),
    GoodList l → PWDisj l → GoodRect u →
    GoodList (l.flatMap (fun r =>
      if rect_intersects r u then split_rect r u else [r])) ∧
    PWDisj (l.flatMap (fun r =>
      if rect_intersects r u then split_rect r u else [r])) ∧
    (∀ p ∈ l.flatMap (fun r =>
      if rect_intersects r u then split_rect r u else [r]),
      rect_intersects p u eps9 = false) ∧
    (∀ c, (∀ r ∈ l, rect_intersects r c eps9 = false) →
      ∀ p ∈ l.flatMap (fun r =>
        if rect_intersects r u then split_rect r u else [r]),
        rect_intersects p c eps9 = false) := by
  intro l
  induction l with
  | nil =>
      intro _ _ _
      rw [List.flatMap_nil]
      exact ⟨fun p hp => absurd hp (List.not_mem_nil p), List.Pairwise.nil,
        fun p hp => absurd hp (List.not_mem_nil p),
        fun c _ p hp => absurd hp (List.not_mem_nil p)⟩
  | cons r rest ih =>
      intro hg hpw hgu
      have hh := List.pairwise_cons.mp hpw
      obtain ⟨i1, i2, i3, i4⟩ := ih (fun q hq => hg q (by simp [hq])) hh.2 hgu
      rw [List.flatMap_cons]
      refine ⟨?_, ?_, ?_, ?_⟩
      · intro p hp
        rcases List.mem_append.mp hp with hp | hp
        · exact splitOne_good (hg r (by simp)) hgu hp
        · exact i1 p hp
      · refine List.pairwise_append.mpr ⟨splitOne_pw hgu, i2, ?_⟩
        intro x hx y hy
        rcases List.mem_flatMap.mp hy with ⟨r', hr', hy'⟩
        exact sub_disj (splitOne_sub hx) (splitOne_sub hy') (hh.1 r' hr')
      · intro p hp
        rcases List.mem_append.mp hp with hp | hp
        · exact splitOne_disj hp
        · exact i3 p hp
      · intro c hlc p hp
        rcases List.mem_append.mp hp with hp | hp
        · obtain ⟨b1, b2, b3, b4⟩ := splitOne_sub hp
          exact rect_intersects_mono_sub b1 b2 b3 b4 (hlc r (by simp))
        · exact i4 c (fun q hq => hlc q (by simp [hq])) p hp

/-- `reserve` unfolded: split, prune (1e-9), merge (1e-6, 50 rounds). -/
theorem reserveRects_eq (l : List Rect) (u : Rect) :
    reserveRects l u =
      merge_adjacent (prune_contained (l.flatMap (fun r =>
        if rect_intersects r u then split_rect r u else [r])) eps9)
        eps6 50 := rfl

/-- Invariants of one full `reserve` call on a well-formed grid state. -/
theorem reserveRects_props (l : List Rect) (u : Rect) (hg : GoodList l)
    (hpw : PWDisj l) (hgu : GoodRect u) :
    GoodList (reserveRects l u) ∧ PWDisj (reserveRects l u) ∧
    PWNoncontain eps6 (reserveRects l u) ∧
    (∀ p ∈ reserveRects l u, rect_intersects p u eps9 = false) ∧
    (∀ c, GoodRect c → (∀ r ∈ l, rect_intersects r c eps9 = false) →
      ∀ p ∈ reserveRects l u, rect_intersects p c eps9 = false) := by
  obtain ⟨s1, s2, s3, s4⟩ := splitAll_props u l hg hpw hgu
  have hsubp : (prune_contained (l.flatMap (fun r =>
      if rect_intersects r u then split_rect r u else [r])) eps9).Sublist
      (l.flatMap (fun r =>
        if rect_intersects r u then split_rect r u else [r])) :=
    pruneGo_sublist eps9 _ []
  obtain ⟨m1, m2, m3, m4⟩ := merge_adjacent_props _
    (fun q hq => s1 q (hsubp.subset hq)) (s2.sublist hsubp)
  rw [reserveRects_eq]
  refine ⟨m1, m2, m3, ?_, ?_⟩
  · intro p hp
    exact m4 u hgu (fun q hq => s3 q (hsubp.subset hq)) p hp
  · intro c hgc hlc p hp
    exact m4 c hgc (fun q hq => s4 c hlc q (hsubp.subset hq)) p hp

/-- Non-containment at the merge tolerance implies non-containment at the
geometry epsilon. -/
theorem pwnoncontain_weaken {l : List Rect} (h : PWNoncontain eps6 l) :
    PWNoncontain eps9 l := by
  unfold PWNoncontain at h ⊢
  exact h.imp (fun hab =>
    ⟨rect_contains_false_mono (by norm_num [eps6, eps9]) hab.1,
     rect_contains_false_mono (by norm_num [eps6, eps9]) hab.2⟩)

/-- Invariant carried along the whole `reserve` sequence. -/
theorem reserve_fold_inv : ∀ (useds l processed : List Rect),
    GoodList l → PWDisj l → PWNoncontain eps9 l →
    (∀ u ∈ processed, GoodRect u) →
    (∀ u ∈ processed, ∀ f ∈ l, rect_intersects f u eps9 = false) →
    (∀ u ∈ useds, GoodRect u) →
    GoodList (useds.foldl reserveRects l) ∧
    PWDisj (useds.foldl reserveRects l) ∧
    PWNoncontain eps9 (useds.foldl reserveRects l) ∧
    (∀ u ∈ processed, ∀ f ∈ useds.foldl reserveRects l,
      rect_intersects f u eps9 = false) ∧
    (∀ u ∈ useds, ∀ f ∈ useds.foldl reserveRects l,
      rect_intersects f u eps9 = false) := by
  intro useds
  induction useds with
  | nil =>
      intro l processed h1 h2 h3 _ h5 _
      exact ⟨h1, h2, h3, h5, by intro v hv; cases hv⟩
  | cons u rest ih =>
      intro l processed h1 h2 h3 hpg h5 hug
      rw [List.foldl_cons]
      obtain ⟨r1, r2, r3, r4, r5⟩ := reserveRects_props l u h1 h2
        (hug u (by simp))
      obtain ⟨k1, k2, k3, k4, k5⟩ := ih (reserveRects l u) (processed ++ [u])
        r1 r2 (pwnoncontain_weaken r3)
        (by
          intro v hv
          rcases List.mem_append.mp hv with hv | hv
          · exact hpg v hv
          · rw [List.mem_singleton] at hv
            subst hv
            exact hug v (by simp))
        (by
          intro v hv f hf
          rcases List.mem_append.mp hv with hv | hv
          · exact r5 v (hpg v hv) (fun q hq => h5 v hv q hq) f hf
          · rw [List.mem_singleton] at hv
            subst hv
            exact r4 f hf)
        (fun v hv => hug v (by simp [hv]))
      refine ⟨k1, k2, k3, ?_, ?_⟩
      · intro v hv f hf
        exact k4 v (List.mem_append_left _ hv) f hf
      · intro v hv f hf
        rcases List.mem_cons.mp hv with hv | hv
        · subst hv
          exact k4 v (List.mem_append_right _ (by simp)) f hf
        · exact k5 v hv f hf

/-- C1 — Free-space invariant (amended: all reservation coordinates and
the vehicle's half-dimensions lie on the millimetre grid, on which every
epsilon comparison of the tracker is exact; without this restriction the
1e-6 merge pass can regrow area over a reserved sliver, see the
counterexample): after `init_for_vehicle` and any sequence of `reserve`
calls, no free rectangle overlaps any reserved rectangle beyond the 1e-9
epsilon, no two free rectangles overlap beyond it, and no free rectangle
is contained (up to 1e-9) in another. -/
theorem free_rects_reserve_invariant (W L : ℚ) (useds : List Rect)
    (hinit : GoodRect ⟨-(W/2), W/2, -(L/2), L/2⟩)
    (hu : ∀ u ∈ useds, GoodRect u) :
    (∀ u ∈ useds, ∀ f ∈ reserveAll W L useds,
      rect_intersects f u eps9 = false) ∧
    PWDisj (reserveAll W L useds) ∧
    PWNoncontain eps9 (reserveAll W L useds) := by
  have hinitL : initRects W L = [(⟨-(W/2), W/2, -(L/2), L/2⟩ : Rect)] := rfl
  have h0 : GoodList (initRects W L) := by
    intro r hr
    rw [hinitL, List.mem_singleton] at hr
    subst hr
    exact hinit
  have h2 : PWDisj (initRects W L) := by
    rw [hinitL]
    exact List.pairwise_singleton _ _
  have h3 : PWNoncontain eps9 (initRects W L) := by
    rw [hinitL]
    exact List.pairwise_singleton _ _
  obtain ⟨k1, k2, k3, k4, k5⟩ := reserve_fold_inv useds (initRects W L) []
    h0 h2 h3 (by intro v hv; cases hv) (by intro v hv; cases hv) hu
  exact ⟨fun u huu f hf => k5 u huu f hf, k2, k3⟩

/-- Closed instantiation of the free-space invariant: a 4 m × 10 m floor
with one millimetre-grid reservation. -/
theorem free_rects_reserve_invariant_witness :
    (∀ u ∈ [(⟨-2, 0, -5, -3⟩ : Rect)],
      ∀ f ∈ reserveAll 4 10 [(⟨-2, 0, -5, -3⟩ : Rect)],
        rect_intersects f u eps9 = false) ∧
    PWDisj (reserveAll 4 10 [(⟨-2, 0, -5, -3⟩ : Rect)]) ∧
    PWNoncontain eps9 (reserveAll 4 10 [(⟨-2, 0, -5, -3⟩ : Rect)]) := by
  refine free_rects_reserve_invariant 4 10 [(⟨-2, 0, -5, -3⟩ : Rect)] ?_ ?_
  · exact ⟨⟨-2000, by norm_num⟩, ⟨2000, by norm_num⟩, ⟨-5000, by norm_num⟩,
      ⟨5000, by norm_num⟩, by norm_num, by norm_num⟩
  · intro u hu
    rw [List.mem_singleton] at hu
    subst hu
    exact ⟨⟨-2000, by norm_num⟩, ⟨0, by norm_num⟩, ⟨-5000, by norm_num⟩,
      ⟨-3000, by norm_num⟩, by norm_num, by norm_num⟩

end LEO
